import Mathlib

/-! # FreeRTOS SMP port for RISC-V: locks, tick timer, yield doorbell, bring-up

A shallow embedding of `FreeRTOS/Source/portable/GCC/RISC-V/port.c`, of the
macros of `FreeRTOSConfig.h` it uses, and of the row partition of `vWorkerTask`
(`rtos_run.c`, `rtos_run_semaphore.c`).

* Machine integers are natural numbers; a store to a `uint32_t` reduces modulo
  `2 ^ 32`, a store to a `uint8_t` modulo `256`, a store to a `uint64_t` modulo
  `2 ^ 64`.
* The tables `ucOwnedByCore` and `ucRecursionCount` are functions of the two
  indices; the entries of the C arrays are those with a first index below
  `configNUMBER_OF_CORES` and a second index below 2.
* The value of the `mhartid` CSR, which `rtos_core_id_get` reads, is an explicit
  argument `mhartid` of every function that (transitively) reads it.  The argument
  `xCoreID` of `vPortRecursiveLock` indexes the tables; the token written to the
  lock word comes from `mhartid`.
* `configASSERT (x)` disables interrupts and loops forever when `x` is zero; a call
  that runs into it ends in `Outcome.halted`, which records the failed assertion
  and the state at that point.
* `SpinLock` is an unbounded loop; it is embedded with a fuel argument counting
  loop iterations.  Run alone on a lock word that is held it never returns
  (`SpinLock_held`), so a call that reaches it ends in `Outcome.spinning` whatever
  the fuel.
* For cores that run at the same time the body of `vPortRecursiveLock` is cut into
  atomic steps (`step`), one for each `amoswap` and each single read or write of a
  table entry, interleaved in any order (`runSchedule`).
* What a volatile read of a device register or of `ullPortSchedularRunning` returns
  is an input: a function `reads` giving the value of the `i`-th read.  The loops
  that wait on such reads take a fuel argument and yield `none` when it runs out.
* The functions of the timer, the doorbell and the bring-up return, next to the new
  state, the list of their actions visible outside the core (`PortEvent`), in
  program order.  A device register is the word stored at its address, 32-bit and
  64-bit registers apart.
* The kernel functions that `xPortTickInterruptHandler` calls are not part of
  `port.c`; they are arguments of the handler (`Kernel`), and so is the value its
  local `xSwitchRequired` holds before it is assigned.
-/

namespace FreeRTOS_SMP

/-! ## Configuration -/

/-- The macro `configNUMBER_OF_CORES` of `FreeRTOSConfig.h`. -/
def configNUMBER_OF_CORES : Nat := 4

/-! ## State -/

/-- The two lock words `xIsrLock`, `xTaskLock` and the two tables
`ucOwnedByCore[core][lock]`, `ucRecursionCount[core][lock]` of `port.c`. -/
structure LockState where
  xIsrLock : Nat
  xTaskLock : Nat
  ucOwnedByCore : Nat → Nat → Nat
  ucRecursionCount : Nat → Nat → Nat

/-- The value of a `volatile uint32_t *lock` argument: which of the two lock words
it points to. -/
inductive LockPtr where
  | isrLock
  | taskLock
  deriving DecidableEq, Repr

/-- Read through a lock pointer. -/
def LockState.load (s : LockState) : LockPtr → Nat
  | .isrLock => s.xIsrLock
  | .taskLock => s.xTaskLock

/-- Write a 32-bit value through a lock pointer. -/
def LockState.store (s : LockState) (p : LockPtr) (v : Nat) : LockState :=
  match p with
  | .isrLock => { s with xIsrLock := v % 2 ^ 32 }
  | .taskLock => { s with xTaskLock := v % 2 ^ 32 }

/-- Assignment `t[i][j] = v` to a table of `uint8_t`. -/
def setEntry (t : Nat → Nat → Nat) (i j v : Nat) : Nat → Nat → Nat :=
  fun a b => if a = i ∧ b = j then v % 256 else t a b

/-- The state at program start: `xIsrLock = 0`, `xTaskLock = 0`, both tables `{0}`. -/
def initialState : LockState :=
  { xIsrLock := 0, xTaskLock := 0, ucOwnedByCore := fun _ _ => 0, ucRecursionCount := fun _ _ => 0 }

/-- The expression `(ulLockNum == 0) ? &xIsrLock : &xTaskLock`. -/
def lockPtrOf (ulLockNum : Nat) : LockPtr :=
  if ulLockNum = 0 then .isrLock else .taskLock

/-- The lock word of domain `ulLockNum`. -/
def LockState.lockWord (s : LockState) (ulLockNum : Nat) : Nat :=
  s.load (lockPtrOf ulLockNum)

/-! ## Outcomes -/

/-- The `configASSERT` calls of `vPortRecursiveLock`, in source order. -/
inductive Assertion where
  /-- Line 244, `configASSERT(ulLockNum < 2)`. -/
  | lockNumBelowTwo
  /-- Line 252, `configASSERT(ucRecursionCount[xCoreID][ulLockNum] < 255)`. -/
  | recursionBelowMax
  /-- Line 260, `configASSERT(ucRecursionCount[xCoreID][ulLockNum] == 0)`. -/
  | recursionIsZero
  /-- Line 266, `configASSERT(ucOwnedByCore[xCoreID][ulLockNum])`. -/
  | ownedByCore
  /-- Line 267, `configASSERT(ucRecursionCount[xCoreID][ulLockNum] > 0)`. -/
  | recursionPositive
  deriving DecidableEq, Repr

/-- How a call of `vPortRecursiveLock` ends. -/
inductive Outcome where
  /-- The call returned, leaving the state `s`. -/
  | returned (s : LockState)
  /-- A `configASSERT` failed in state `s`: interrupts disabled, `for( ;; );`. -/
  | halted (a : Assertion) (s : LockState)
  /-- The call is still inside the loop of `SpinLock` when the fuel is used up. -/
  | spinning (s : LockState)

/-- How a bounded run of the loop of `SpinLock` ends. -/
inductive SpinResult where
  /-- A `SpinTryLock` succeeded and `SpinLock` returned. -/
  | acquired (s : LockState)
  /-- Every attempt so far failed. -/
  | stillSpinning (s : LockState)

/-! ## The functions of `port.c` -/

/-- Function `rtos_core_id_get`: `csrr %0, mhartid`. -/
def rtos_core_id_get (mhartid : Nat) : Nat := mhartid

/-- Function `SpinTryLock`: `amoswap.w.aqrl` swaps the token `rtos_core_id_get() + 1` into the
lock word; the result is `ulPrevVal == 0`. -/
def SpinTryLock (mhartid : Nat) (lock : LockPtr) (s : LockState) : Bool × LockState :=
  let ulHartId := (rtos_core_id_get mhartid + 1) % 2 ^ 32
  let ulPrevVal := s.load lock
  (ulPrevVal == 0, s.store lock ulHartId)

/-- Function `SpinLock`: `for (;;) { if (SpinTryLock(lock)) return; }`, at most `fuel`
iterations. -/
def SpinLock : (fuel : Nat) → (mhartid : Nat) → LockPtr → LockState → SpinResult
  | 0, _, _, s => .stillSpinning s
  | fuel + 1, mhartid, lock, s =>
    match SpinTryLock mhartid lock s with
    | (true, s1) => .acquired s1
    | (false, s1) => SpinLock fuel mhartid lock s1

/-- Function `SpinUnlock`: `amoswap.w.rl zero, zero, (lock)` stores zero. -/
def SpinUnlock (lock : LockPtr) (s : LockState) : LockState :=
  s.store lock 0

/-- Lines 260-262 of `port.c`, the join point after the lock word was obtained:
`configASSERT(ucRecursionCount == 0); ucRecursionCount = 1; ucOwnedByCore = 1;`. -/
def freshAcquire (xCoreID ulLockNum : Nat) (s : LockState) : Outcome :=
  if s.ucRecursionCount xCoreID ulLockNum = 0 then
    let s1 := { s with ucRecursionCount := setEntry s.ucRecursionCount xCoreID ulLockNum 1 }
    .returned { s1 with ucOwnedByCore := setEntry s1.ucOwnedByCore xCoreID ulLockNum 1 }
  else
    .halted .recursionIsZero s

/-- Function `vPortRecursiveLock (xCoreID, ulLockNum, uxAcquire)` run on hart `mhartid`. -/
def vPortRecursiveLock (fuel mhartid xCoreID ulLockNum : Nat) (uxAcquire : Int)
    (s : LockState) : Outcome :=
  let pulLock := lockPtrOf ulLockNum
  if ulLockNum < 2 then
    if uxAcquire ≠ 0 then
      match SpinTryLock mhartid pulLock s with
      | (false, s1) =>
        if s1.ucOwnedByCore xCoreID ulLockNum ≠ 0 then
          if s1.ucRecursionCount xCoreID ulLockNum < 255 then
            let n := s1.ucRecursionCount xCoreID ulLockNum + 1
            .returned { s1 with ucRecursionCount := setEntry s1.ucRecursionCount xCoreID ulLockNum n }
          else
            .halted .recursionBelowMax s1
        else
          match SpinLock fuel mhartid pulLock s1 with
          | .acquired s2 => freshAcquire xCoreID ulLockNum s2
          | .stillSpinning s2 => .spinning s2
      | (true, s1) => freshAcquire xCoreID ulLockNum s1
    else
      if s.ucOwnedByCore xCoreID ulLockNum ≠ 0 then
        if s.ucRecursionCount xCoreID ulLockNum > 0 then
          let n := (s.ucRecursionCount xCoreID ulLockNum + 256 - 1) % 256
          let s1 := { s with ucRecursionCount := setEntry s.ucRecursionCount xCoreID ulLockNum n }
          if n = 0 then
            let s2 := { s1 with ucOwnedByCore := setEntry s1.ucOwnedByCore xCoreID ulLockNum 0 }
            .returned (SpinUnlock pulLock s2)
          else
            .returned s1
        else
          .halted .recursionPositive s
      else
        .halted .ownedByCore s
  else
    .halted .lockNumBelowTwo s

/-- Value `pdTRUE`, the value passed as `uxAcquire` to take the lock. -/
def acquire : Int := 1

/-- Value `pdFALSE`, the value passed as `uxAcquire` to give the lock back. -/
def release : Int := 0

/-! ## Sequences of calls -/

/-- The state in which a call ended, whichever way it ended. -/
def Outcome.state : Outcome → LockState
  | .returned s => s
  | .halted _ s => s
  | .spinning s => s

/-- Whether the call returned to its caller. -/
def Outcome.isReturned : Outcome → Bool
  | .returned _ => true
  | _ => false

/-- One call `vPortRecursiveLock (xCoreID, ulLockNum, uxAcquire)` executed on hart
`mhartid`, with the iteration bound `fuel` for the loop of `SpinLock`. -/
structure Call where
  fuel : Nat
  mhartid : Nat
  xCoreID : Nat
  ulLockNum : Nat
  uxAcquire : Int

/-- Execute one call. -/
def Call.run (k : Call) (s : LockState) : Outcome :=
  vPortRecursiveLock k.fuel k.mhartid k.xCoreID k.ulLockNum k.uxAcquire s

/-- Execute calls one after the other, each one starting when the previous one has
returned; the sequence stops at the first call that does not return. -/
def runCalls : List Call → LockState → Outcome
  | [], s => .returned s
  | k :: ks, s =>
    match k.run s with
    | .returned s1 => runCalls ks s1
    | o => o

/-- The enter call `vPortRecursiveLock (c, d, pdTRUE)` on hart `h`. -/
def enterCall (fuel h c d : Nat) : Call :=
  { fuel := fuel, mhartid := h, xCoreID := c, ulLockNum := d, uxAcquire := acquire }

/-- The exit call `vPortRecursiveLock (c, d, pdFALSE)` on hart `h`. -/
def exitCall (fuel h c d : Nat) : Call :=
  { fuel := fuel, mhartid := h, xCoreID := c, ulLockNum := d, uxAcquire := release }

/-- Number of enter calls of core `c` on domain `d` in a sequence of calls. -/
def enterCount (c d : Nat) (ks : List Call) : Nat :=
  (ks.filter (fun k => decide (k.xCoreID = c ∧ k.ulLockNum = d ∧ k.uxAcquire ≠ 0))).length

/-- Number of exit calls of core `c` on domain `d` in a sequence of calls. -/
def exitCount (c d : Nat) (ks : List Call) : Nat :=
  (ks.filter (fun k => decide (k.xCoreID = c ∧ k.ulLockNum = d ∧ k.uxAcquire = 0))).length

/-- What a core may do to the lock state between two instants: a complete call of
`vPortRecursiveLock`, or a single `SpinTryLock` on the lock word of a domain (one
iteration of a `SpinLock` loop that is still running, say). -/
inductive Action where
  | call (k : Call)
  | tryLock (mhartid : Nat) (ulLockNum : Nat)

/-- Execute actions one after the other; `none` when a call does not return. -/
def runActions : List Action → LockState → Option LockState
  | [], s => some s
  | .call k :: as, s =>
    match k.run s with
    | .returned s1 => runActions as s1
    | _ => none
  | .tryLock h d :: as, s => runActions as (SpinTryLock h (lockPtrOf d) s).2

/-- The cores and domains an action names are those of the configuration, and a call
by core `xCoreID` runs on that core. -/
def Action.valid : Action → Prop
  | .call k => k.mhartid = k.xCoreID ∧ k.xCoreID < configNUMBER_OF_CORES ∧ k.ulLockNum < 2
  | .tryLock h d => h < configNUMBER_OF_CORES ∧ d < 2

/-- Whether the action is a complete call of `vPortRecursiveLock`. -/
def Action.isCall : Action → Prop
  | .call _ => True
  | .tryLock _ _ => False

/-! ## Interleaved execution by several cores

The sequential functions above run one call from start to end.  To speak about
cores that run `vPortRecursiveLock` at the same time, the body of the function is
cut into its atomic steps: each `amoswap` and each single read or write of
`ucOwnedByCore` / `ucRecursionCount` is one step.  Core `c` runs on hart `c` and
passes `xCoreID = c`. -/

/-- The next atomic step of a core inside `vPortRecursiveLock (c, d, uxAcquire)`,
named after the source line it executes; `d` is `ulLockNum`, `v` a value read from
`ucRecursionCount` that is held in a register. -/
inductive Position where
  /-- The core is outside `vPortRecursiveLock`. -/
  | idle
  /-- Line 248: the `amoswap` of `SpinTryLock`. -/
  | enterTry (d : Nat)
  /-- Line 250: read `ucOwnedByCore[c][d]`. -/
  | enterReadOwned (d : Nat)
  /-- Line 252: read `ucRecursionCount[c][d]` for `configASSERT( ... < 255)`. -/
  | enterAssertMax (d : Nat)
  /-- Line 253: the read of `ucRecursionCount[c][d]++`. -/
  | enterIncrementRead (d : Nat)
  /-- Line 253: the write of `ucRecursionCount[c][d]++`. -/
  | enterIncrementWrite (d : Nat) (v : Nat)
  /-- Line 257: the `amoswap` of one iteration of `SpinLock`. -/
  | spinTry (d : Nat)
  /-- Line 260: read `ucRecursionCount[c][d]` for `configASSERT( ... == 0)`. -/
  | enterAssertZero (d : Nat)
  /-- Line 261: write `ucRecursionCount[c][d] = 1`. -/
  | enterSetCount (d : Nat)
  /-- Line 262: write `ucOwnedByCore[c][d] = 1`. -/
  | enterSetOwned (d : Nat)
  /-- Line 266: read `ucOwnedByCore[c][d]` for `configASSERT`. -/
  | exitAssertOwned (d : Nat)
  /-- Line 267: read `ucRecursionCount[c][d]` for `configASSERT( ... > 0)`. -/
  | exitAssertPositive (d : Nat)
  /-- Line 269: the read of `--ucRecursionCount[c][d]`. -/
  | exitDecrementRead (d : Nat)
  /-- Line 269: the write of `--ucRecursionCount[c][d]` and the test `== 0`. -/
  | exitDecrementWrite (d : Nat) (v : Nat)
  /-- Line 271: write `ucOwnedByCore[c][d] = 0`. -/
  | exitClearOwned (d : Nat)
  /-- Line 272: the `amoswap` of `SpinUnlock`. -/
  | exitUnlock (d : Nat)
  /-- A `configASSERT` failed: the core loops forever with interrupts disabled. -/
  | halted (a : Assertion)
  deriving DecidableEq, Repr

/-- The shared memory and the position of every core. -/
structure Machine where
  mem : LockState
  pos : Nat → Position

/-- All cores idle on the initial memory. -/
def initialMachine : Machine :=
  { mem := initialState, pos := fun _ => .idle }

/-- One scheduling decision: core `core` executes its next atomic step.  When that
core is idle the step is the entry into the call
`vPortRecursiveLock (core, ulLockNum, uxAcquire)`; otherwise the last two fields
are not looked at. -/
structure Event where
  core : Nat
  ulLockNum : Nat
  uxAcquire : Int

/-- The machine after core `c` moved to position `p` leaving memory `mem`. -/
def Machine.goto (m : Machine) (c : Nat) (p : Position) (mem : LockState) : Machine :=
  { mem := mem, pos := fun k => if k = c then p else m.pos k }

/-- One atomic step of core `e.core`. -/
def step (e : Event) (m : Machine) : Machine :=
  let c := e.core
  match m.pos c with
  | .idle =>
    if e.ulLockNum < 2 then
      if e.uxAcquire ≠ 0 then m.goto c (.enterTry e.ulLockNum) m.mem
      else m.goto c (.exitAssertOwned e.ulLockNum) m.mem
    else m.goto c (.halted .lockNumBelowTwo) m.mem
  | .enterTry d =>
    match SpinTryLock c (lockPtrOf d) m.mem with
    | (true, mem1) => m.goto c (.enterAssertZero d) mem1
    | (false, mem1) => m.goto c (.enterReadOwned d) mem1
  | .enterReadOwned d =>
    if m.mem.ucOwnedByCore c d ≠ 0 then m.goto c (.enterAssertMax d) m.mem
    else m.goto c (.spinTry d) m.mem
  | .enterAssertMax d =>
    if m.mem.ucRecursionCount c d < 255 then m.goto c (.enterIncrementRead d) m.mem
    else m.goto c (.halted .recursionBelowMax) m.mem
  | .enterIncrementRead d =>
    m.goto c (.enterIncrementWrite d (m.mem.ucRecursionCount c d)) m.mem
  | .enterIncrementWrite d v =>
    m.goto c .idle { m.mem with ucRecursionCount := setEntry m.mem.ucRecursionCount c d (v + 1) }
  | .spinTry d =>
    match SpinTryLock c (lockPtrOf d) m.mem with
    | (true, mem1) => m.goto c (.enterAssertZero d) mem1
    | (false, mem1) => m.goto c (.spinTry d) mem1
  | .enterAssertZero d =>
    if m.mem.ucRecursionCount c d = 0 then m.goto c (.enterSetCount d) m.mem
    else m.goto c (.halted .recursionIsZero) m.mem
  | .enterSetCount d =>
    m.goto c (.enterSetOwned d) { m.mem with ucRecursionCount := setEntry m.mem.ucRecursionCount c d 1 }
  | .enterSetOwned d =>
    m.goto c .idle { m.mem with ucOwnedByCore := setEntry m.mem.ucOwnedByCore c d 1 }
  | .exitAssertOwned d =>
    if m.mem.ucOwnedByCore c d ≠ 0 then m.goto c (.exitAssertPositive d) m.mem
    else m.goto c (.halted .ownedByCore) m.mem
  | .exitAssertPositive d =>
    if m.mem.ucRecursionCount c d > 0 then m.goto c (.exitDecrementRead d) m.mem
    else m.goto c (.halted .recursionPositive) m.mem
  | .exitDecrementRead d =>
    m.goto c (.exitDecrementWrite d (m.mem.ucRecursionCount c d)) m.mem
  | .exitDecrementWrite d v =>
    let n := (v + 256 - 1) % 256
    let mem1 := { m.mem with ucRecursionCount := setEntry m.mem.ucRecursionCount c d n }
    if n = 0 then m.goto c (.exitClearOwned d) mem1 else m.goto c .idle mem1
  | .exitClearOwned d =>
    m.goto c (.exitUnlock d) { m.mem with ucOwnedByCore := setEntry m.mem.ucOwnedByCore c d 0 }
  | .exitUnlock d =>
    m.goto c .idle (SpinUnlock (lockPtrOf d) m.mem)
  | .halted _ => m

/-- Execute a schedule: the atomic steps of the cores in the order the schedule
gives. -/
def runSchedule : List Event → Machine → Machine
  | [], m => m
  | e :: es, m => runSchedule es (step e m)

/-! ## Invariants -/

/-- The two tables agree: every recursion count is at most 255, and an entry of
`ucOwnedByCore` is 1 where the count is positive and 0 where the count is 0. -/
def TablesOk (s : LockState) : Prop :=
  ∀ c d, s.ucRecursionCount c d ≤ 255 ∧
    (s.ucRecursionCount c d = 0 → s.ucOwnedByCore c d = 0) ∧
    (0 < s.ucRecursionCount c d → s.ucOwnedByCore c d = 1)

/-- For each domain at most one core is recorded as owner, the lock word is not zero
while a core is recorded as owner, and the lock word is zero or the token of a core. -/
def OwnerOk (s : LockState) : Prop :=
  ∀ d, d < 2 →
    (∀ a b, s.ucOwnedByCore a d ≠ 0 → s.ucOwnedByCore b d ≠ 0 → a = b) ∧
    ((∃ c, s.ucOwnedByCore c d ≠ 0) → s.lockWord d ≠ 0) ∧
    (s.lockWord d = 0 ∨ ∃ h, h < configNUMBER_OF_CORES ∧ s.lockWord d = h + 1)

/-- The lock word of each domain is zero or the token of the core recorded as its
owner. -/
def WordNamesOwner (s : LockState) : Prop :=
  ∀ d, d < 2 → s.lockWord d = 0 ∨
    ∃ c, c < configNUMBER_OF_CORES ∧ s.ucOwnedByCore c d = 1 ∧ s.lockWord d = c + 1

/-- Core `c` holds domain `d` at depth `n`, and the lock word holds the token of
hart `h`. -/
def HeldAt (s : LockState) (h c d n : Nat) : Prop :=
  s.lockWord d = h + 1 ∧ s.ucOwnedByCore c d = 1 ∧ s.ucRecursionCount c d = n

/-- Positions at which the core has the lock word of domain `e` to itself: after a
successful `amoswap` of an enter call and before `ucOwnedByCore` is set, and in an
exit call from the passed ownership assertion up to the `amoswap` of `SpinUnlock`. -/
def Position.holds : Position → Nat → Prop
  | .enterAssertZero d, e => e = d
  | .enterSetCount d, e => e = d
  | .enterSetOwned d, e => e = d
  | .exitAssertPositive d, e => e = d
  | .exitDecrementRead d, e => e = d
  | .exitDecrementWrite d _, e => e = d
  | .exitClearOwned d, e => e = d
  | .exitUnlock d, e => e = d
  | _, _ => False

/-- The lock number a position carries has passed `configASSERT (ulLockNum < 2)`. -/
def Position.lockNumOk : Position → Prop
  | .idle => True
  | .halted _ => True
  | .enterTry d => d < 2
  | .enterReadOwned d => d < 2
  | .enterAssertMax d => d < 2
  | .enterIncrementRead d => d < 2
  | .enterIncrementWrite d _ => d < 2
  | .spinTry d => d < 2
  | .enterAssertZero d => d < 2
  | .enterSetCount d => d < 2
  | .enterSetOwned d => d < 2
  | .exitAssertOwned d => d < 2
  | .exitAssertPositive d => d < 2
  | .exitDecrementRead d => d < 2
  | .exitDecrementWrite d _ => d < 2
  | .exitClearOwned d => d < 2
  | .exitUnlock d => d < 2

/-- Core `c` at position `p` over memory `mem` holds domain `d`: it is recorded as
owner or stands at a position that holds the domain. -/
def holderAt (mem : LockState) (p : Position) (c d : Nat) : Prop :=
  mem.ucOwnedByCore c d ≠ 0 ∨ p.holds d

/-- Core `c` holds domain `d` in machine state `m`. -/
def Holder (m : Machine) (c d : Nat) : Prop :=
  holderAt m.mem (m.pos c) c d

/-- The invariant of the interleaved execution: lock numbers in flight are in range,
each domain has at most one holder, its lock word is not zero while it has one, and a
core about to execute `SpinUnlock` has cleared its `ucOwnedByCore` entry. -/
def MutexInv (m : Machine) : Prop :=
  (∀ c, (m.pos c).lockNumOk) ∧
  (∀ d, d < 2 → ∀ a b, Holder m a d → Holder m b d → a = b) ∧
  (∀ d, d < 2 → ∀ c, Holder m c d → m.mem.lockWord d ≠ 0) ∧
  (∀ c d, m.pos c = .exitUnlock d → m.mem.ucOwnedByCore c d = 0)

/-! ## Example states and schedules -/

/-- The state after the one call `vPortRecursiveLock (0, 1, pdTRUE)` of core 0. -/
def heldOnce : LockState :=
  (vPortRecursiveLock 0 0 0 1 acquire initialState).state

/-- The state after core 0 has entered and left the task domain once. -/
def heldAndGivenBack : LockState :=
  (vPortRecursiveLock 0 0 0 1 release heldOnce).state

/-- The state in which core 0 holds the task lock (one enter call) and core 1 has
since made one `SpinTryLock` on it, which failed. -/
def heldAndContended : LockState :=
  (SpinTryLock 1 (lockPtrOf 1) heldOnce).2

/-- Core 0 enters the task domain, then core 1 makes one `SpinTryLock` on the task
lock word. -/
def contendedActions : List Action :=
  [.call (enterCall 0 0 0 1), .tryLock 1 1]

/-- A schedule in which core 0 takes the task lock, core 1 asks for it and spins,
core 0 gives it back and core 1 obtains it. -/
def handOverSchedule : List Event :=
  List.replicate 5 ⟨0, 1, 1⟩ ++ List.replicate 5 ⟨1, 1, 1⟩ ++ List.replicate 7 ⟨0, 1, 0⟩
    ++ List.replicate 4 ⟨1, 1, 1⟩

/-! ## Frames -/

/-- What a call `vPortRecursiveLock (c, d, ..)` may change: state `s'` differs from
`s` at most in the lock word `lockPtrOf d` points to and in the table entries
`[c][d]`. -/
def FrameOf (c d : Nat) (s s' : LockState) : Prop :=
  (∀ p, p ≠ lockPtrOf d → s'.load p = s.load p) ∧
  (∀ k e, ¬ (k = c ∧ e = d) →
    s'.ucOwnedByCore k e = s.ucOwnedByCore k e ∧
    s'.ucRecursionCount k e = s.ucRecursionCount k e)

/-! ## The timer, the yield doorbell and the bring-up: configuration

`portmacro.h` is not part of the sources at hand.  The start-up code
(`elibc/crt0_4cores.c`) saves the stack pointer with `sw`, so the target is RV32:
`size_t`, `UBaseType_t` and pointers are 32 bits wide. -/

/-- The macro `CLINT_CTRL_ADDR` of `FreeRTOSConfig.h`. -/
def CLINT_CTRL_ADDR : Nat := 0xF0000000

/-- The macro `configMSIP_BASE_ADDRESS` of `FreeRTOSConfig.h`. -/
def configMSIP_BASE_ADDRESS : Nat := CLINT_CTRL_ADDR + 0x0000

/-- The macro `configMTIMECMP_BASE_ADDRESS` of `FreeRTOSConfig.h`. -/
def configMTIMECMP_BASE_ADDRESS : Nat := CLINT_CTRL_ADDR + 0x4000

/-- The macro `configMTIME_BASE_ADDRESS` of `FreeRTOSConfig.h`. -/
def configMTIME_BASE_ADDRESS : Nat := CLINT_CTRL_ADDR + 0xBFF8

/-- The macro `configCPU_CLOCK_HZ` of `FreeRTOSConfig.h`. -/
def configCPU_CLOCK_HZ : Nat := 50000000

/-- The macro `configTICK_RATE_HZ` of `FreeRTOSConfig.h`. -/
def configTICK_RATE_HZ : Nat := 100

/-- The constant `pdTRUE` of the FreeRTOS kernel headers. -/
def pdTRUE : Int := 1

/-- The constant `pdFALSE` of the FreeRTOS kernel headers. -/
def pdFALSE : Int := 0

/-- The constant `pdFAIL` of the FreeRTOS kernel headers. -/
def pdFAIL : Int := 0

/-- The constant `uxTimerIncrementsForOneTick` of `port.c`, line 80:
`(size_t)((configCPU_CLOCK_HZ) / (configTICK_RATE_HZ))`. -/
def uxTimerIncrementsForOneTick : Nat :=
  (configCPU_CLOCK_HZ / configTICK_RATE_HZ) % 2 ^ 32

/-- The constant `ullMachineTimerCompareRegisterBase` of `port.c`, line 81. -/
def ullMachineTimerCompareRegisterBase : Nat :=
  configMTIMECMP_BASE_ADDRESS % 2 ^ 32

/-! ## The timer, the yield doorbell and the bring-up: state and actions -/

/-- The control and status registers `port.c` writes. -/
inductive Csr where
  | mtvec
  | mie
  deriving DecidableEq, Repr

/-- Functions of the kernel that `port.c` calls and that are defined elsewhere. -/
inductive Callee where
  /-- The assembly routine `xPortStartFirstTask`. -/
  | xPortStartFirstTask
  /-- The kernel macro `taskENTER_CRITICAL_FROM_ISR ()`. -/
  | taskENTER_CRITICAL_FROM_ISR
  /-- The kernel function `xTaskIncrementTick ()`. -/
  | xTaskIncrementTick
  /-- The kernel macro `taskEXIT_CRITICAL_FROM_ISR (uxSavedInterruptStatus)`. -/
  | taskEXIT_CRITICAL_FROM_ISR (uxSavedInterruptStatus : Nat)
  deriving DecidableEq, Repr

/-- The actions of a core that are visible outside it, in the order the core executes
them. -/
inductive PortEvent where
  /-- Instruction `csrw csr, v`. -/
  | csrw (csr : Csr) (v : Nat)
  /-- Instruction `csrs csr, mask`. -/
  | csrs (csr : Csr) (mask : Nat)
  /-- A volatile 32-bit read of the device register at `addr`, which returned `v`. -/
  | load32 (addr : Nat) (v : Nat)
  /-- A 32-bit write of `v` to the device register at `addr`. -/
  | store32 (addr : Nat) (v : Nat)
  /-- A 64-bit write of `v` to the device register at `addr`. -/
  | store64 (addr : Nat) (v : Nat)
  /-- A read of `ullPortSchedularRunning`, which returned `v`. -/
  | loadRunning (v : Nat)
  /-- The assignment `ullPortSchedularRunning = v`. -/
  | storeRunning (v : Nat)
  /-- The assignment `xYieldRequest[core] = v`. -/
  | storeYieldRequest (core : Nat) (v : Int)
  /-- Instruction `fence`. -/
  | fence
  /-- A call of a function defined outside `port.c`. -/
  | call (f : Callee)
  deriving DecidableEq, Repr

/-- The variables of `port.c` and the registers it writes: the lock state, the
scheduler-running flag, the tracked next deadline, the pointer to the compare
registers, the yield requests, the 64-bit and 32-bit device registers by address
(the `mtimecmp` and `msip` registers of the CLINT), and `mtvec` and `mie` of each
hart. -/
structure PortState where
  lock : LockState
  ullPortSchedularRunning : Nat
  ullNextTime : Nat
  pullMachineTimerCompareRegister : Nat
  xYieldRequest : Nat → Int
  dev64 : Nat → Nat
  dev32 : Nat → Nat
  mtvec : Nat → Nat
  mie : Nat → Nat

/-- Assignment `f[i] = v`. -/
def setAt {α : Type} (f : Nat → α) (i : Nat) (v : α) : Nat → α :=
  fun k => if k = i then v else f k

/-- The variables as their initialisers in `port.c` leave them (`false`, `0ULL`,
`NULL`, `{pdFALSE}`), the device registers and CSRs all zero. -/
def initialPort : PortState :=
  { lock := initialState
    ullPortSchedularRunning := 0
    ullNextTime := 0
    pullMachineTimerCompareRegister := 0
    xYieldRequest := fun _ => pdFALSE
    dev64 := fun _ => 0
    dev32 := fun _ => 0
    mtvec := fun _ => 0
    mie := fun _ => 0 }

/-! ## The timer, the yield doorbell and the bring-up: functions of `port.c` -/

/-- The loop of `vPortSetupTimerInterrupt`, lines 99-103:
`do { high = *pulTimeHigh; low = *pulTimeLow; } while (high != *pulTimeHigh);`.
The value `reads i` is what the `i`-th read of a counter half returns, `i` the number
of reads done so far, `fuel` a bound on the iterations.  The result is the pair
`ulCurrentTimeHigh`, `ulCurrentTimeLow` with which the loop ends, and the reads made. -/
def readTimeLoop (reads : Nat → Nat) : (fuel : Nat) → (i : Nat) → Option (Nat × Nat × List PortEvent)
  | 0, _ => none
  | fuel + 1, i =>
    let pulTimeHigh := (configMTIME_BASE_ADDRESS + 4) % 2 ^ 32
    let pulTimeLow := configMTIME_BASE_ADDRESS % 2 ^ 32
    let ulCurrentTimeHigh := reads i % 2 ^ 32
    let ulCurrentTimeLow := reads (i + 1) % 2 ^ 32
    let again := reads (i + 2) % 2 ^ 32
    let evs := [PortEvent.load32 pulTimeHigh ulCurrentTimeHigh,
      PortEvent.load32 pulTimeLow ulCurrentTimeLow, PortEvent.load32 pulTimeHigh again]
    if ulCurrentTimeHigh ≠ again then
      match readTimeLoop reads fuel (i + 3) with
      | none => none
      | some (h, l, rest) => some (h, l, evs ++ rest)
    else
      some (ulCurrentTimeHigh, ulCurrentTimeLow, evs)

/-- Lines 105-107: `ullNextTime = (uint64_t) high; ullNextTime <<= 32;
ullNextTime |= (uint64_t) low;`. -/
def assembleTime (ulCurrentTimeHigh ulCurrentTimeLow : Nat) : Nat :=
  (((ulCurrentTimeHigh % 2 ^ 64) <<< 32) % 2 ^ 64) ||| (ulCurrentTimeLow % 2 ^ 64)

/-- Function `vPortSetupTimerInterrupt`, run on hart `mhartid`; `none` when the loop
has not ended after `fuel` iterations. -/
def vPortSetupTimerInterrupt (fuel mhartid : Nat) (reads : Nat → Nat) (s : PortState) :
    Option (PortState × List PortEvent) :=
  let s1 := { s with pullMachineTimerCompareRegister := ullMachineTimerCompareRegisterBase }
  match readTimeLoop reads fuel 0 with
  | none => none
  | some (ulCurrentTimeHigh, ulCurrentTimeLow, evs) =>
    let s2 := { s1 with ullNextTime := assembleTime ulCurrentTimeHigh ulCurrentTimeLow }
    let s3 := { s2 with ullNextTime := (s2.ullNextTime + uxTimerIncrementsForOneTick) % 2 ^ 64 }
    let ulHartId := rtos_core_id_get mhartid % 2 ^ 32
    let registers_base_address := (s3.pullMachineTimerCompareRegister + 8 * ulHartId) % 2 ^ 32
    let s4 := { s3 with dev64 := setAt s3.dev64 registers_base_address s3.ullNextTime }
    let s5 := { s4 with ullNextTime := (s4.ullNextTime + uxTimerIncrementsForOneTick) % 2 ^ 64 }
    some (s5, evs ++ [PortEvent.store64 registers_base_address s3.ullNextTime])

/-- Function `vPortYieldOtherCore (xCoreID)`; `xCoreID` is a `UBaseType_t`. -/
def vPortYieldOtherCore (xCoreID : Nat) (s : PortState) : PortState × List PortEvent :=
  if xCoreID < configNUMBER_OF_CORES then
    let s1 := { s with xYieldRequest := setAt s.xYieldRequest xCoreID pdTRUE }
    let pulMSIPRegister := (configMSIP_BASE_ADDRESS + xCoreID * 4) % 2 ^ 32
    let s2 := { s1 with dev32 := setAt s1.dev32 pulMSIPRegister 1 }
    (s2, [PortEvent.storeYieldRequest xCoreID pdTRUE, PortEvent.store32 pulMSIPRegister 1])
  else
    (s, [])

/-- Function `xPortStartScheduler`, run on hart `mhartid`; `trapHandler` is the
address of `freertos_risc_v_trap_handler`.  The call of `xPortStartFirstTask`, which
is not part of `port.c`, is recorded as an action; the result is the value
returned after it, the state and the actions. -/
def xPortStartScheduler (fuel mhartid trapHandler : Nat) (reads : Nat → Nat) (s : PortState) :
    Option (Int × PortState × List PortEvent) :=
  let trap_addr := trapHandler % 2 ^ 32
  let s1 := { s with mtvec := setAt s.mtvec mhartid trap_addr }
  match vPortSetupTimerInterrupt fuel mhartid reads s1 with
  | none => none
  | some (s2, evs) =>
    let s3 := { s2 with ullPortSchedularRunning := 1 }
    let s4 := { s3 with mie := setAt s3.mie mhartid (s3.mie mhartid ||| 0x88) }
    some (pdFAIL, s4,
      [PortEvent.csrw .mtvec trap_addr] ++ evs ++
        [PortEvent.storeRunning 1, PortEvent.csrs .mie 0x88, PortEvent.call .xPortStartFirstTask])

/-- The loop `while (!ullPortSchedularRunning) { fence }` of
`xPortStartSchedulerOncore`, lines 154-157; `flagReads i` is what the `i`-th read of
the flag returns, `fuel` a bound on the number of reads. -/
def waitForRunning (flagReads : Nat → Nat) : (fuel : Nat) → (i : Nat) → Option (List PortEvent)
  | 0, _ => none
  | fuel + 1, i =>
    let v := flagReads i % 2 ^ 32
    if v = 0 then
      match waitForRunning flagReads fuel (i + 1) with
      | none => none
      | some rest => some ([PortEvent.loadRunning v, PortEvent.fence] ++ rest)
    else
      some [PortEvent.loadRunning v]

/-- Function `xPortStartSchedulerOncore`, run on hart `mhartid`; `none` when the flag
has not been read as non-zero after `fuel` reads. -/
def xPortStartSchedulerOncore (fuel mhartid trapHandler : Nat) (flagReads : Nat → Nat)
    (s : PortState) : Option (Int × PortState × List PortEvent) :=
  let trap_addr := trapHandler % 2 ^ 32
  let s1 := { s with mtvec := setAt s.mtvec mhartid trap_addr }
  match waitForRunning flagReads fuel 0 with
  | none => none
  | some evs =>
    let s2 := { s1 with mie := setAt s1.mie mhartid (s1.mie mhartid ||| 0x8) }
    some (pdFAIL, s2,
      [PortEvent.csrw .mtvec trap_addr] ++ evs ++
        [PortEvent.csrs .mie 0x8, PortEvent.call .xPortStartFirstTask])

/-! ## Example inputs of the timer and the bring-up -/

/-- A machine timer that reads 0 at every read. -/
def zeroTime : Nat → Nat := fun _ => 0

/-- The reads `high = 0, low = 0xFFFFFFFF, high = 1`, then
`high = 1, low = 0, high = 1`: the counter passes from `0x0_FFFFFFFF` to
`0x1_00000000` during the first iteration. -/
def carryTime : Nat → Nat := fun i => [0, 0xFFFFFFFF, 1, 1, 0, 1].getD i 0

/-- The state after `vPortSetupTimerInterrupt` has run once on hart 0 from
`initialPort` with the machine timer reading 0. -/
def armedAtZero : PortState :=
  ((vPortSetupTimerInterrupt 1 0 zeroTime initialPort).map Prod.fst).getD initialPort

/-- A state in which `ullNextTime` holds 2,000,000 (four tick increments). -/
def deadlineAhead : PortState :=
  { initialPort with ullNextTime := 2000000 }

/-! ## Bring-up of two cores, interleaved

The primary core executes a list of actions, one at a time (for
`xPortStartScheduler`: the actions that function returns); the secondary core
executes `xPortStartSchedulerOncore` step by step, every read of
`ullPortSchedularRunning` returning what the shared variable holds at that moment. -/

/-- The two cores of the bring-up. -/
inductive Role where
  | primary
  | secondary
  deriving DecidableEq, Repr

/-- The next step of the secondary core inside `xPortStartSchedulerOncore`. -/
inductive SecondaryPos where
  /-- Line 151: `csrw mtvec`. -/
  | installTrap
  /-- Line 154: the read of `ullPortSchedularRunning` in the loop condition. -/
  | readRunning
  /-- Line 156: `fence`. -/
  | fence
  /-- Line 162: `csrs mie, 0x8`. -/
  | enableInterrupts
  /-- Line 165: the call of `xPortStartFirstTask`. -/
  | dispatch
  /-- Line 167: the function has returned. -/
  | returned
  deriving DecidableEq, Repr

/-- The shared flag, what the primary core still has to do, where the secondary core
stands, and the actions executed so far, the most recent first. -/
structure BringUp where
  ullPortSchedularRunning : Nat
  primaryTodo : List PortEvent
  secondary : SecondaryPos
  log : List (Role × PortEvent)

/-- Both cores at the start, the flag `false`. -/
def BringUp.start (primaryActions : List PortEvent) : BringUp :=
  { ullPortSchedularRunning := 0, primaryTodo := primaryActions, secondary := .installTrap,
    log := [] }

/-- The primary core executes its next action; a store to the flag takes effect. -/
def BringUp.primaryStep (b : BringUp) : BringUp :=
  match b.primaryTodo with
  | [] => b
  | .storeRunning v :: rest =>
    { b with ullPortSchedularRunning := v, primaryTodo := rest,
             log := (.primary, .storeRunning v) :: b.log }
  | e :: rest => { b with primaryTodo := rest, log := (.primary, e) :: b.log }

/-- The secondary core executes its next step. -/
def BringUp.secondaryStep (trapHandler : Nat) (b : BringUp) : BringUp :=
  match b.secondary with
  | .installTrap =>
    { b with secondary := .readRunning,
             log := (.secondary, .csrw .mtvec (trapHandler % 2 ^ 32)) :: b.log }
  | .readRunning =>
    let v := b.ullPortSchedularRunning
    { b with secondary := if v = 0 then .fence else .enableInterrupts,
             log := (.secondary, .loadRunning v) :: b.log }
  | .fence => { b with secondary := .readRunning, log := (.secondary, .fence) :: b.log }
  | .enableInterrupts =>
    { b with secondary := .dispatch, log := (.secondary, .csrs .mie 0x8) :: b.log }
  | .dispatch =>
    { b with secondary := .returned,
             log := (.secondary, .call .xPortStartFirstTask) :: b.log }
  | .returned => b

/-- Execute a schedule: which core takes the next step, in order. -/
def runBringUp (trapHandler : Nat) : List Role → BringUp → BringUp
  | [], b => b
  | .primary :: rest, b => runBringUp trapHandler rest b.primaryStep
  | .secondary :: rest, b => runBringUp trapHandler rest (b.secondaryStep trapHandler)

/-- The primary core has set the flag: a store of a non-zero value to
`ullPortSchedularRunning` by the primary core is among the actions `l`. -/
def FlagSetIn (l : List (Role × PortEvent)) : Prop :=
  ∃ v, v ≠ 0 ∧ (Role.primary, PortEvent.storeRunning v) ∈ l

/-- The invariant of the interleaved bring-up: the flag is non-zero only after the
primary core has set it, the secondary core is past its loop only after the
primary core has set the flag, and every `csrs mie` of the secondary core in the log
has the primary core's store among the actions before it. -/
def BringUpInv (b : BringUp) : Prop :=
  (b.ullPortSchedularRunning ≠ 0 → FlagSetIn b.log) ∧
  ((b.secondary = .enableInterrupts ∨ b.secondary = .dispatch ∨ b.secondary = .returned) →
    FlagSetIn b.log) ∧
  (∀ later earlier mask, b.log = later ++ (Role.secondary, PortEvent.csrs .mie mask) :: earlier →
    FlagSetIn earlier)

/-- The actions of `xPortStartScheduler` on hart 0 with the timer reading 0. -/
def primaryActionsAtZero : List PortEvent :=
  ((xPortStartScheduler 1 0 0x80000100 zeroTime initialPort).map (fun r => r.2.2)).getD []

/-- A schedule in which the secondary core starts first and polls the flag twice
before the primary core has set it. -/
def eagerSecondary : List Role :=
  List.replicate 5 .secondary ++ List.replicate 6 .primary ++ List.replicate 4 .secondary
    ++ List.replicate 2 .primary

/-- The actions of `n` iterations of the loop of `xPortStartSchedulerOncore` in which
the flag reads zero: a read and a fence each. -/
def failedPolls : Nat → List PortEvent
  | 0 => []
  | n + 1 => [PortEvent.loadRunning 0, PortEvent.fence] ++ failedPolls n

/-! ## The row partition of `vWorkerTask` (`rtos_run.c`, `rtos_run_semaphore.c`)

The locals of `vWorkerTask` are of type `int`; they are integers here, `/` and `%` are
the truncating division and remainder of C.  The macros `N` and `WORKER_CORE_NUM` are
arguments `n` and `w` of the functions, so that the computation can be stated for any
number of rows and of workers. -/

/-- Macro `N` of `rtos_run.c` and `rtos_run_semaphore.c`, the number of matrix rows. -/
def N : Int := 64

/-- Macro `CORE_NUM`, which is `configNUMBER_OF_CORES`. -/
def CORE_NUM : Int := configNUMBER_OF_CORES

/-- Macro `WORKER_CORE_NUM`, which is `(CORE_NUM - 1)`. -/
def WORKER_CORE_NUM : Int := CORE_NUM - 1

/-- Local `core_idx = rtos_core_id_get() - 1` of `vWorkerTask` on hart `mhartid`. -/
def core_idx (mhartid : Nat) : Int := (rtos_core_id_get mhartid : Int) - 1

/-- Local `rows_per_worker = N / WORKER_CORE_NUM`. -/
def rows_per_worker (n w : Int) : Int := n.tdiv w

/-- Local `remainder = N % WORKER_CORE_NUM`. -/
def remainder (n w : Int) : Int := n.tmod w

/-- Local `start_row` of `vWorkerTask` after the `if` of lines 57-63. -/
def start_row (n w core_idx : Int) : Int :=
  if core_idx < remainder n w then
    core_idx * (rows_per_worker n w + 1)
  else
    remainder n w * (rows_per_worker n w + 1) + (core_idx - remainder n w) * rows_per_worker n w

/-- Local `end_row` of `vWorkerTask` after the `if` of lines 57-63. -/
def end_row (n w core_idx : Int) : Int :=
  if core_idx < remainder n w then
    start_row n w core_idx + (rows_per_worker n w + 1)
  else
    start_row n w core_idx + rows_per_worker n w

/-! ## The tick handler, `vPortEndScheduler`, and the operations of the port -/

/-- The functions of the kernel that `xPortTickInterruptHandler` calls.  They are
defined outside `port.c`: what each returns and what it does to the state are
arguments of the handler. -/
structure Kernel where
  taskENTER_CRITICAL_FROM_ISR : PortState → Nat × PortState
  xTaskIncrementTick : PortState → Int × PortState
  taskEXIT_CRITICAL_FROM_ISR : Nat → PortState → PortState

/-- Function `xPortTickInterruptHandler`.  The local `xSwitchRequired` is declared
without an initialiser: the argument `xSwitchRequired` is the value it holds at its
declaration.  The result is the value returned, the state and the actions: the read
of the flag in the condition, and the calls made. -/
def xPortTickInterruptHandler (K : Kernel) (xSwitchRequired : Int) (s : PortState) :
    Int × PortState × List PortEvent :=
  if s.ullPortSchedularRunning = 1 then
    let entered := K.taskENTER_CRITICAL_FROM_ISR s
    let uxSavedInterruptStatus := entered.1 % 2 ^ 32
    let ticked := K.xTaskIncrementTick entered.2
    let xSwitchRequired := ticked.1
    let s3 := K.taskEXIT_CRITICAL_FROM_ISR uxSavedInterruptStatus ticked.2
    (xSwitchRequired, s3,
      [PortEvent.loadRunning s.ullPortSchedularRunning,
        PortEvent.call .taskENTER_CRITICAL_FROM_ISR, PortEvent.call .xTaskIncrementTick,
        PortEvent.call (.taskEXIT_CRITICAL_FROM_ISR uxSavedInterruptStatus)])
  else
    (xSwitchRequired, s, [PortEvent.loadRunning s.ullPortSchedularRunning])

/-- Function `vPortEndScheduler`: `for (;;) { }`; `none` when the loop has not ended
after `fuel` iterations. -/
def vPortEndScheduler : (fuel : Nat) → PortState → Option PortState
  | 0, _ => none
  | fuel + 1, s => vPortEndScheduler fuel s

/-- A call of one of the functions of `port.c`, with its arguments, the hart it runs
on and its inputs. -/
inductive PortOp where
  | startScheduler (fuel mhartid trapHandler : Nat) (reads : Nat → Nat)
  | startSchedulerOncore (fuel mhartid trapHandler : Nat) (flagReads : Nat → Nat)
  | setupTimerInterrupt (fuel mhartid : Nat) (reads : Nat → Nat)
  | yieldOtherCore (xCoreID : Nat)
  | recursiveLock (fuel mhartid xCoreID ulLockNum : Nat) (uxAcquire : Int)
  | tickInterruptHandler (K : Kernel) (xSwitchRequired : Int)
  | endScheduler (fuel : Nat)

/-- The state in which the call ends: when it returns, or, for `vPortRecursiveLock`,
also when it halts on an assertion or is still spinning at the end of its fuel;
`none` when a loop of one of the other functions has not ended within the fuel. -/
def PortOp.run (op : PortOp) (s : PortState) : Option PortState :=
  match op with
  | .startScheduler fuel h trap reads =>
    (xPortStartScheduler fuel h trap reads s).map (fun r => r.2.1)
  | .startSchedulerOncore fuel h trap flagReads =>
    (xPortStartSchedulerOncore fuel h trap flagReads s).map (fun r => r.2.1)
  | .setupTimerInterrupt fuel h reads =>
    (vPortSetupTimerInterrupt fuel h reads s).map (fun r => r.1)
  | .yieldOtherCore xCoreID => some (vPortYieldOtherCore xCoreID s).1
  | .recursiveLock fuel h c d a =>
    some { s with lock := (vPortRecursiveLock fuel h c d a s.lock).state }
  | .tickInterruptHandler K x => some (xPortTickInterruptHandler K x s).2.1
  | .endScheduler fuel => vPortEndScheduler fuel s

/-- Execute calls one after the other, each one starting when the previous one has
ended. -/
def runOps : List PortOp → PortState → Option PortState
  | [], s => some s
  | op :: ops, s =>
    match op.run s with
    | some s1 => runOps ops s1
    | none => none

/-- Whether the call is a call of `xPortStartScheduler`. -/
def PortOp.isStartScheduler : PortOp → Bool
  | .startScheduler _ _ _ _ => true
  | _ => false

/-- The three functions of the kernel leave `ullPortSchedularRunning` as it is. -/
def Kernel.keepsRunningFlag (K : Kernel) : Prop :=
  (∀ s, (K.taskENTER_CRITICAL_FROM_ISR s).2.ullPortSchedularRunning
      = s.ullPortSchedularRunning) ∧
  (∀ s, (K.xTaskIncrementTick s).2.ullPortSchedularRunning = s.ullPortSchedularRunning) ∧
  (∀ v s, (K.taskEXIT_CRITICAL_FROM_ISR v s).ullPortSchedularRunning
      = s.ullPortSchedularRunning)

/-- The kernel functions a call goes through leave `ullPortSchedularRunning` as it
is. -/
def PortOp.kernelKeepsRunningFlag : PortOp → Prop
  | .tickInterruptHandler K _ => K.keepsRunningFlag
  | _ => True

/-- A kernel for the examples: `taskENTER_CRITICAL_FROM_ISR` returns the saved status
`0x1800`, `xTaskIncrementTick` asks for a context switch, and none of the three
changes the state of the port. -/
def switchingKernel : Kernel :=
  { taskENTER_CRITICAL_FROM_ISR := fun s => (0x1800, s)
    xTaskIncrementTick := fun s => (pdTRUE, s)
    taskEXIT_CRITICAL_FROM_ISR := fun _ s => s }

/-- The state after `xPortStartScheduler` has run on hart 0 from `initialPort` with
the machine timer reading 0. -/
def schedulerStarted : PortState :=
  ((xPortStartScheduler 1 0 0x80000100 zeroTime initialPort).map (fun r => r.2.1)).getD
    initialPort

/-- The state after `xPortStartSchedulerOncore` has run on hart 1 from
`schedulerStarted`, the flag reading 1 at the first read. -/
def secondaryStarted : PortState :=
  ((xPortStartSchedulerOncore 1 1 0x80000100 (fun _ => 1) schedulerStarted).map
    (fun r => r.2.1)).getD schedulerStarted

/-- Calls of the port made one after the other from `initialPort`: the timer is armed,
the scheduler started on hart 0, hart 1 joins, core 1 is asked to yield, core 0 takes
the task lock, a tick is handled. -/
def bringUpAndTick : List PortOp :=
  [.setupTimerInterrupt 1 0 zeroTime, .startScheduler 1 0 0x80000100 zeroTime,
    .startSchedulerOncore 1 1 0x80000100 (fun _ => 1), .yieldOtherCore 1,
    .recursiveLock 1 0 0 1 acquire, .tickInterruptHandler switchingKernel 0]

/-! # Theorems -/

/-! ## Memory lemmas -/

@[simp] theorem load_store_same (s : LockState) (p : LockPtr) (v : Nat) :
    (s.store p v).load p = v % 2 ^ 32 := by
  cases p <;> rfl

theorem load_store_ne (s : LockState) {p q : LockPtr} (v : Nat) (h : p ≠ q) :
    (s.store p v).load q = s.load q := by
  cases p <;> cases q <;> first | rfl | exact absurd rfl h

@[simp] theorem store_ucOwnedByCore (s : LockState) (p : LockPtr) (v : Nat) :
    (s.store p v).ucOwnedByCore = s.ucOwnedByCore := by
  cases p <;> rfl

@[simp] theorem store_ucRecursionCount (s : LockState) (p : LockPtr) (v : Nat) :
    (s.store p v).ucRecursionCount = s.ucRecursionCount := by
  cases p <;> rfl

@[simp] theorem setEntry_same (t : Nat → Nat → Nat) (i j v : Nat) :
    setEntry t i j v i j = v % 256 := by
  simp [setEntry]

theorem setEntry_other (t : Nat → Nat → Nat) (i j v a b : Nat) (h : ¬ (a = i ∧ b = j)) :
    setEntry t i j v a b = t a b := by
  simp [setEntry, h]

theorem lockPtrOf_injOn {d e : Nat} (hd : d < 2) (he : e < 2) (h : lockPtrOf d = lockPtrOf e) :
    d = e := by
  unfold lockPtrOf at h
  split at h <;> split at h <;> first | omega | cases h

theorem lockWord_store_same (s : LockState) (d v : Nat) :
    (s.store (lockPtrOf d) v).lockWord d = v % 2 ^ 32 := by
  simp [LockState.lockWord]

theorem lockWord_store_other (s : LockState) {d e : Nat} (v : Nat) (hd : d < 2) (he : e < 2)
    (h : d ≠ e) : (s.store (lockPtrOf d) v).lockWord e = s.lockWord e := by
  unfold LockState.lockWord
  exact load_store_ne s v (fun hp => h (lockPtrOf_injOn hd he hp))

/-- The token of a hart whose id is below `2 ^ 32 - 1` is not zero. -/
theorem token_ne_zero {h : Nat} (hh : h + 1 < 2 ^ 32) : (h + 1) % 2 ^ 32 ≠ 0 := by
  rw [Nat.mod_eq_of_lt hh]; omega

theorem token_of_core {h : Nat} (hh : h < configNUMBER_OF_CORES) : h + 1 < 2 ^ 32 := by
  unfold configNUMBER_OF_CORES at hh; omega

/-! ## `SpinTryLock`, `SpinLock` -/

theorem SpinTryLock_fst (h : Nat) (p : LockPtr) (s : LockState) :
    (SpinTryLock h p s).1 = (s.load p == 0) := rfl

theorem store_mod (s : LockState) (p : LockPtr) (v : Nat) :
    s.store p (v % 2 ^ 32) = s.store p v := by
  cases p <;> simp [LockState.store]

theorem SpinTryLock_snd (h : Nat) (p : LockPtr) (s : LockState) :
    (SpinTryLock h p s).2 = s.store p (h + 1) := by
  simp only [SpinTryLock, rtos_core_id_get, store_mod]

theorem SpinTryLock_eq (h : Nat) (p : LockPtr) (s : LockState) :
    SpinTryLock h p s = (s.load p == 0, s.store p (h + 1)) := by
  simp only [SpinTryLock, rtos_core_id_get, store_mod]

/-- On a lock word that is not free, and with nobody else to free it, `SpinLock`
never returns: whatever the fuel, it is still spinning, and all it has done is to
write its token. -/
theorem SpinLock_held (fuel h : Nat) (p : LockPtr) (s : LockState) (hh : h + 1 < 2 ^ 32)
    (hw : s.load p ≠ 0) :
    SpinLock fuel h p s = .stillSpinning (if fuel = 0 then s else s.store p (h + 1)) := by
  induction fuel generalizing s with
  | zero => rfl
  | succ n ih =>
    have h1 : (s.store p (h + 1)).load p ≠ 0 := by
      rw [load_store_same]; exact token_ne_zero hh
    have h2 : (s.store p (h + 1)).store p (h + 1) = s.store p (h + 1) := by
      cases p <;> rfl
    have h3 : (s.load p == 0) = false := by simpa using hw
    simp only [SpinLock, SpinTryLock_eq, h3]
    rw [ih _ h1]
    by_cases hn : n = 0 <;> simp [hn, h2]

/-! ## One call of `vPortRecursiveLock` -/

/-- Lines 260-262 when the recursion count is zero. -/
theorem freshAcquire_zero (c d : Nat) (s : LockState) (hc : s.ucRecursionCount c d = 0) :
    freshAcquire c d s
      = .returned { s with
          ucRecursionCount := setEntry s.ucRecursionCount c d 1
          ucOwnedByCore := setEntry s.ucOwnedByCore c d 1 } := by
  simp only [freshAcquire, hc, if_true]

/-- Lines 260-262 when the recursion count is not zero. -/
theorem freshAcquire_nonzero (c d : Nat) (s : LockState) (hc : s.ucRecursionCount c d ≠ 0) :
    freshAcquire c d s = .halted .recursionIsZero s := by
  simp only [freshAcquire, hc, if_false]

/-- An enter call that finds the lock word free swaps its token in and goes on to
lines 260-262. -/
theorem enter_free (fuel h c d : Nat) (s : LockState) (hd : d < 2) (hw : s.lockWord d = 0) :
    vPortRecursiveLock fuel h c d acquire s
      = freshAcquire c d (s.store (lockPtrOf d) (h + 1)) := by
  have h3 : (s.load (lockPtrOf d) == 0) = true := by simpa [LockState.lockWord] using hw
  simp only [vPortRecursiveLock, hd, if_true, acquire, SpinTryLock_eq, h3]
  simp

/-- An enter call by a core that owns the domain, below the maximal depth. -/
theorem enter_nested (fuel h c d : Nat) (s : LockState) (hd : d < 2) (hw : s.lockWord d ≠ 0)
    (ho : s.ucOwnedByCore c d ≠ 0) (hc : s.ucRecursionCount c d < 255) :
    vPortRecursiveLock fuel h c d acquire s
      = .returned { s.store (lockPtrOf d) (h + 1) with
          ucRecursionCount := setEntry s.ucRecursionCount c d (s.ucRecursionCount c d + 1) } := by
  have h3 : (s.load (lockPtrOf d) == 0) = false := by simpa [LockState.lockWord] using hw
  simp only [vPortRecursiveLock, hd, if_true, acquire, SpinTryLock_eq, h3]
  simp [ho, hc]

/-- An enter call by a core that owns the domain at the maximal depth. -/
theorem enter_nested_max (fuel h c d : Nat) (s : LockState) (hd : d < 2) (hw : s.lockWord d ≠ 0)
    (ho : s.ucOwnedByCore c d ≠ 0) (hc : ¬ s.ucRecursionCount c d < 255) :
    vPortRecursiveLock fuel h c d acquire s
      = .halted .recursionBelowMax (s.store (lockPtrOf d) (h + 1)) := by
  have h3 : (s.load (lockPtrOf d) == 0) = false := by simpa [LockState.lockWord] using hw
  simp only [vPortRecursiveLock, hd, if_true, acquire, SpinTryLock_eq, h3]
  simp [ho, hc]

/-- An enter call by a core that does not own the domain, on a lock word that is
held: it spins for as long as it is given fuel. -/
theorem enter_blocked (fuel h c d : Nat) (s : LockState) (hd : d < 2) (hh : h + 1 < 2 ^ 32)
    (hw : s.lockWord d ≠ 0) (ho : s.ucOwnedByCore c d = 0) :
    vPortRecursiveLock fuel h c d acquire s = .spinning (s.store (lockPtrOf d) (h + 1)) := by
  have h3 : (s.load (lockPtrOf d) == 0) = false := by simpa [LockState.lockWord] using hw
  have h1 : (s.store (lockPtrOf d) (h + 1)).load (lockPtrOf d) ≠ 0 := by
    rw [load_store_same]; exact token_ne_zero hh
  have h2 : (s.store (lockPtrOf d) (h + 1)).store (lockPtrOf d) (h + 1)
      = s.store (lockPtrOf d) (h + 1) := by
    cases lockPtrOf d <;> rfl
  simp only [vPortRecursiveLock, hd, if_true, acquire, SpinTryLock_eq, h3]
  simp only [store_ucOwnedByCore, ho, SpinLock_held fuel h _ _ hh h1, h2]
  simp

/-- An exit call by a core that does not own the domain. -/
theorem exit_not_owned (fuel h c d : Nat) (s : LockState) (hd : d < 2)
    (ho : s.ucOwnedByCore c d = 0) :
    vPortRecursiveLock fuel h c d release s = .halted .ownedByCore s := by
  simp [vPortRecursiveLock, hd, release, ho]

/-- An exit call at depth two or more. -/
theorem exit_inner (fuel h c d : Nat) (s : LockState) (hd : d < 2)
    (ho : s.ucOwnedByCore c d ≠ 0) (h2 : 2 ≤ s.ucRecursionCount c d)
    (h255 : s.ucRecursionCount c d ≤ 255) :
    vPortRecursiveLock fuel h c d release s
      = .returned { s with
          ucRecursionCount := setEntry s.ucRecursionCount c d (s.ucRecursionCount c d - 1) } := by
  have e1 : (s.ucRecursionCount c d + 255) % 256 = s.ucRecursionCount c d - 1 := by omega
  have e2 : 0 < s.ucRecursionCount c d := by omega
  have e3 : s.ucRecursionCount c d - 1 ≠ 0 := by omega
  simp [vPortRecursiveLock, hd, release, ho, e1, e2, e3]

/-- An exit call at depth one. -/
theorem exit_outermost (fuel h c d : Nat) (s : LockState) (hd : d < 2)
    (ho : s.ucOwnedByCore c d ≠ 0) (h1 : s.ucRecursionCount c d = 1) :
    vPortRecursiveLock fuel h c d release s
      = .returned (SpinUnlock (lockPtrOf d)
          { s with
            ucRecursionCount := setEntry s.ucRecursionCount c d 0
            ucOwnedByCore := setEntry s.ucOwnedByCore c d 0 }) := by
  simp [vPortRecursiveLock, hd, release, ho, h1]

/-- A call with a lock number that is not 0 or 1. -/
theorem lockNum_out_of_range (fuel h c d : Nat) (a : Int) (s : LockState) (hd : ¬ d < 2) :
    vPortRecursiveLock fuel h c d a s = .halted .lockNumBelowTwo s := by
  simp [vPortRecursiveLock, hd]

/-! ## Contracts of single calls -/

/-- C6. For every value `v` of the lock word and every core id `h`, `SpinTryLock`
run on hart `h` reports success exactly when `v` is zero, and in both cases leaves
the token `h + 1`, which is not zero, in the lock word. -/
theorem SpinTryLock_contract (h v : Nat) (lock : LockPtr) (s : LockState)
    (hh : h < configNUMBER_OF_CORES) (hv : s.load lock = v) :
    ((SpinTryLock h lock s).1 = true ↔ v = 0) ∧
      (SpinTryLock h lock s).2.load lock = h + 1 ∧ h + 1 ≠ 0 := by
  refine ⟨?_, ?_, Nat.succ_ne_zero h⟩
  · rw [SpinTryLock_fst, hv]; simp
  · rw [SpinTryLock_snd, load_store_same]
    exact Nat.mod_eq_of_lt (token_of_core hh)

/-- Witness of `SpinTryLock_contract`: hart 2 on the free ISR lock word. -/
theorem SpinTryLock_contract_witness :
    (2 < configNUMBER_OF_CORES ∧ initialState.load .isrLock = 0) ∧
      (((SpinTryLock 2 .isrLock initialState).1 = true ↔ 0 = 0) ∧
        (SpinTryLock 2 .isrLock initialState).2.load .isrLock = 2 + 1 ∧ 2 + 1 ≠ 0) :=
  ⟨⟨by decide, rfl⟩, SpinTryLock_contract 2 0 .isrLock initialState (by decide) rfl⟩

/-- C10. For every core `c` and domain `d` with `ucOwnedByCore[c][d] == 0`, whatever
the lock word and the other table entries hold and whichever hart runs the call, an
exit call halts on the ownership assertion, and the state at the halt is the state
before the call: lock words, `ucOwnedByCore` and `ucRecursionCount` unchanged. -/
theorem exit_by_non_owner_halts (fuel h c d : Nat) (s : LockState) (hd : d < 2)
    (ho : s.ucOwnedByCore c d = 0) :
    vPortRecursiveLock fuel h c d release s = .halted .ownedByCore s :=
  exit_not_owned fuel h c d s hd ho

/-- Witness of `exit_by_non_owner_halts`: core 1 exits the task domain that core 0
holds. -/
theorem exit_by_non_owner_halts_witness :
    (1 < 2 ∧ heldAndContended.ucOwnedByCore 1 1 = 0) ∧
      (vPortRecursiveLock 0 1 1 1 release heldAndContended).state.xTaskLock = 2 :=
  ⟨⟨by decide, by decide⟩, by
    rw [exit_by_non_owner_halts 0 1 1 1 heldAndContended (by decide) (by decide)]
    decide⟩

/-- C7. With `ucOwnedByCore[c][d] == 1` and `ucRecursionCount[c][d] == n`,
`1 <= n <= 255`, an exit call returns and sets the count to `n - 1`; for `n >= 2` it
leaves `ucOwnedByCore[c][d] == 1` and the lock word as it was, for `n == 1` it sets
`ucOwnedByCore[c][d]` and the lock word to 0.  An enter call that finds the lock word
free, the count being 0 as line 260 asserts, returns with count 1 and owned 1; were
the count not 0 it would halt on that assertion. -/
theorem exit_by_depth_and_fresh_enter (fuel h c d : Nat) (s : LockState) (hd : d < 2) :
    (∀ n, s.ucOwnedByCore c d = 1 → s.ucRecursionCount c d = n → 1 ≤ n → n ≤ 255 →
      ∃ s', vPortRecursiveLock fuel h c d release s = .returned s' ∧
        s'.ucRecursionCount c d = n - 1 ∧
        (2 ≤ n → s'.ucOwnedByCore c d = 1 ∧ s'.lockWord d = s.lockWord d) ∧
        (n = 1 → s'.ucOwnedByCore c d = 0 ∧ s'.lockWord d = 0)) ∧
    (s.lockWord d = 0 →
      (s.ucRecursionCount c d = 0 →
        ∃ s', vPortRecursiveLock fuel h c d acquire s = .returned s' ∧
          s'.ucRecursionCount c d = 1 ∧ s'.ucOwnedByCore c d = 1) ∧
      (s.ucRecursionCount c d ≠ 0 →
        ∃ s', vPortRecursiveLock fuel h c d acquire s = .halted .recursionIsZero s')) := by
  refine ⟨?_, ?_⟩
  · intro n ho hn h1 h255
    have ho' : s.ucOwnedByCore c d ≠ 0 := by omega
    by_cases h2 : 2 ≤ n
    · refine ⟨_, exit_inner fuel h c d s hd ho' (by omega) (by omega), ?_, ?_, ?_⟩
      · simp only [setEntry_same, hn]; omega
      · intro _; exact ⟨ho, rfl⟩
      · intro h; omega
    · have hn1 : s.ucRecursionCount c d = 1 := by omega
      refine ⟨_, exit_outermost fuel h c d s hd ho' hn1, ?_, ?_, ?_⟩
      · simp only [SpinUnlock, store_ucRecursionCount, setEntry_same]; omega
      · intro h; omega
      · intro _
        refine ⟨?_, ?_⟩
        · simp only [SpinUnlock, store_ucOwnedByCore, setEntry_same]
        · simp only [SpinUnlock, lockWord_store_same, Nat.zero_mod]
  · intro hw
    rw [enter_free fuel h c d s hd hw]
    refine ⟨?_, ?_⟩
    · intro hc
      refine ⟨_, freshAcquire_zero c d _ (by simpa using hc), ?_, ?_⟩
      · simp only [setEntry_same]
      · simp only [setEntry_same]
    · intro hc
      exact ⟨_, freshAcquire_nonzero c d _ (by simpa using hc)⟩

/-- Witness of `exit_by_depth_and_fresh_enter`: core 0 on the task domain, which it
holds at depth 1 in `heldAndContended`. -/
theorem exit_by_depth_and_fresh_enter_witness :
    (1 < 2 ∧ heldAndContended.ucOwnedByCore 0 1 = 1 ∧ heldAndContended.ucRecursionCount 0 1 = 1) ∧
      ∃ s', vPortRecursiveLock 0 0 0 1 release heldAndContended = .returned s' ∧
        s'.ucRecursionCount 0 1 = 1 - 1 ∧
        (2 ≤ 1 → s'.ucOwnedByCore 0 1 = 1 ∧ s'.lockWord 1 = heldAndContended.lockWord 1) ∧
        (1 = 1 → s'.ucOwnedByCore 0 1 = 0 ∧ s'.lockWord 1 = 0) :=
  ⟨⟨by decide, by decide, by decide⟩,
    (exit_by_depth_and_fresh_enter 0 0 0 1 heldAndContended (by decide)).1 1
      (by decide) (by decide) (by decide) (by decide)⟩

/-- C8, as stated, fails.  In `heldAndContended` core 0 owns the task domain at
depth 1 and the lock word holds 2, the token core 1 left there; the nested enter of
core 0 returns, and the lock word is then 1 and no longer 2. -/
theorem nested_enter_overwrites_foreign_token :
    heldAndContended.ucOwnedByCore 0 1 = 1 ∧
      heldAndContended.ucRecursionCount 0 1 < 255 ∧
      heldAndContended.lockWord 1 = 2 ∧
      (vPortRecursiveLock 0 0 0 1 acquire heldAndContended).isReturned = true ∧
      (vPortRecursiveLock 0 0 0 1 acquire heldAndContended).state.ucRecursionCount 0 1 = 2 ∧
      (vPortRecursiveLock 0 0 0 1 acquire heldAndContended).state.lockWord 1 = 1 ∧
      (vPortRecursiveLock 0 0 0 1 acquire heldAndContended).state.lockWord 1
        ≠ heldAndContended.lockWord 1 := by
  decide

/-- C8, amended.  With `ucOwnedByCore[c][d] == 1`, `ucRecursionCount[c][d] < 255`
and a non-zero value `w` in the lock word, an enter call run on core `h` returns,
increments `ucRecursionCount[c][d]` by one, and leaves the lock word holding the
token `h + 1` of the caller; so the lock word still equals `w` exactly when `w` was
that token already. -/
theorem nested_enter_leaves_own_token (fuel h c d w : Nat) (s : LockState) (hd : d < 2)
    (hh : h < configNUMBER_OF_CORES) (ho : s.ucOwnedByCore c d = 1)
    (hc : s.ucRecursionCount c d < 255) (hw : s.lockWord d = w) (hw0 : w ≠ 0) :
    ∃ s', vPortRecursiveLock fuel h c d acquire s = .returned s' ∧
      s'.ucRecursionCount c d = s.ucRecursionCount c d + 1 ∧
      s'.lockWord d = h + 1 ∧ (s'.lockWord d = w ↔ w = h + 1) := by
  have ho' : s.ucOwnedByCore c d ≠ 0 := by omega
  have ht : (s.store (lockPtrOf d) (h + 1)).lockWord d = h + 1 := by
    rw [lockWord_store_same]; exact Nat.mod_eq_of_lt (token_of_core hh)
  refine ⟨_, enter_nested fuel h c d s hd (hw ▸ hw0) ho' hc, ?_, ht, ?_⟩
  · simp only [setEntry_same]; omega
  · change (s.store (lockPtrOf d) (h + 1)).lockWord d = w ↔ w = h + 1
    rw [ht]; exact eq_comm

/-- Witness of `nested_enter_leaves_own_token`: core 0 re-enters the task domain in
`heldAndContended`. -/
theorem nested_enter_leaves_own_token_witness :
    (1 < 2 ∧ 0 < configNUMBER_OF_CORES ∧ heldAndContended.ucOwnedByCore 0 1 = 1 ∧
        heldAndContended.ucRecursionCount 0 1 < 255 ∧ heldAndContended.lockWord 1 = 2 ∧ 2 ≠ 0) ∧
      ∃ s', vPortRecursiveLock 0 0 0 1 acquire heldAndContended = .returned s' ∧
        s'.ucRecursionCount 0 1 = heldAndContended.ucRecursionCount 0 1 + 1 ∧
        s'.lockWord 1 = 0 + 1 ∧ (s'.lockWord 1 = 2 ↔ 2 = 0 + 1) :=
  ⟨⟨by decide, by decide, by decide, by decide, by decide, by decide⟩,
    nested_enter_leaves_own_token 0 0 0 1 2 heldAndContended (by decide) (by decide)
      (by decide) (by decide) (by decide) (by decide)⟩

/-! ## What a call that returns has done -/

theorem store_store (s : LockState) (p : LockPtr) (v : Nat) :
    (s.store p v).store p v = s.store p v := by
  cases p <;> simp [LockState.store]

/-- When `SpinLock` returns, the state is the one before with the token stored, and
the word was free or the token is zero. -/
theorem SpinLock_acquired (fuel h : Nat) (p : LockPtr) (s s2 : LockState)
    (hs : SpinLock fuel h p s = .acquired s2) :
    s2 = s.store p (h + 1) ∧ (s.load p = 0 ∨ (h + 1) % 2 ^ 32 = 0) := by
  induction fuel generalizing s with
  | zero => simp [SpinLock] at hs
  | succ n ih =>
    simp only [SpinLock, SpinTryLock_eq] at hs
    by_cases hw : s.load p = 0
    · have h3 : (s.load p == 0) = true := by simpa using hw
      simp only [h3] at hs
      cases hs
      exact ⟨rfl, Or.inl hw⟩
    · have h3 : (s.load p == 0) = false := by simpa using hw
      simp only [h3] at hs
      obtain ⟨e, h0⟩ := ih _ hs
      rw [store_store] at e
      refine ⟨e, Or.inr ?_⟩
      rcases h0 with h0 | h0
      · rwa [load_store_same] at h0
      · exact h0

/-- The four ways in which a call of `vPortRecursiveLock` returns, with the state it
leaves: a nested enter, a fresh enter, an inner exit and the outermost exit. -/
theorem returned_cases (fuel h c d : Nat) (a : Int) (s s' : LockState)
    (hr : vPortRecursiveLock fuel h c d a s = .returned s') :
    d < 2 ∧
    ((a ≠ 0 ∧ s.lockWord d ≠ 0 ∧ s.ucOwnedByCore c d ≠ 0 ∧ s.ucRecursionCount c d < 255 ∧
        s' = { s.store (lockPtrOf d) (h + 1) with
          ucRecursionCount := setEntry s.ucRecursionCount c d (s.ucRecursionCount c d + 1) }) ∨
     (a ≠ 0 ∧ s.ucRecursionCount c d = 0 ∧
        (s.lockWord d = 0 ∨ (s.ucOwnedByCore c d = 0 ∧ (h + 1) % 2 ^ 32 = 0)) ∧
        s' = { s.store (lockPtrOf d) (h + 1) with
          ucRecursionCount := setEntry s.ucRecursionCount c d 1
          ucOwnedByCore := setEntry s.ucOwnedByCore c d 1 }) ∨
     (a = 0 ∧ s.ucOwnedByCore c d ≠ 0 ∧ 0 < s.ucRecursionCount c d ∧
        (s.ucRecursionCount c d + 255) % 256 ≠ 0 ∧
        s' = { s with
          ucRecursionCount :=
            setEntry s.ucRecursionCount c d ((s.ucRecursionCount c d + 255) % 256) }) ∨
     (a = 0 ∧ s.ucOwnedByCore c d ≠ 0 ∧ 0 < s.ucRecursionCount c d ∧
        (s.ucRecursionCount c d + 255) % 256 = 0 ∧
        s' = SpinUnlock (lockPtrOf d)
          { s with
            ucRecursionCount := setEntry s.ucRecursionCount c d 0
            ucOwnedByCore := setEntry s.ucOwnedByCore c d 0 })) := by
  by_cases hd : d < 2
  swap
  · rw [lockNum_out_of_range fuel h c d a s hd] at hr; cases hr
  refine ⟨hd, ?_⟩
  by_cases ha : a = 0
  · subst ha
    simp only [vPortRecursiveLock, hd, if_true, ne_eq, not_true_eq_false, if_false] at hr
    by_cases ho : s.ucOwnedByCore c d = 0
    · simp [ho] at hr
    by_cases hc : 0 < s.ucRecursionCount c d
    swap
    · simp [ho, hc] at hr
    simp only [ho, not_false_eq_true, if_true, gt_iff_lt, hc] at hr
    by_cases hn : (s.ucRecursionCount c d + 255) % 256 = 0
    · right; right; right
      have hn' : (s.ucRecursionCount c d + 256 - 1) % 256 = 0 := hn
      simp only [hn', if_true] at hr
      cases hr
      exact ⟨rfl, ho, hc, hn, rfl⟩
    · right; right; left
      have hn' : ¬ (s.ucRecursionCount c d + 256 - 1) % 256 = 0 := hn
      simp only [hn', if_false] at hr
      cases hr
      exact ⟨rfl, ho, hc, hn, rfl⟩
  · simp only [vPortRecursiveLock, hd, if_true, ne_eq, ha, not_false_eq_true,
      SpinTryLock_eq] at hr
    by_cases hw : s.lockWord d = 0
    · right; left
      have h3 : (s.load (lockPtrOf d) == 0) = true := by simpa [LockState.lockWord] using hw
      simp only [h3] at hr
      by_cases hc : s.ucRecursionCount c d = 0
      · rw [freshAcquire_zero c d _ (by simpa using hc)] at hr
        cases hr
        exact ⟨ha, hc, Or.inl hw, by simp⟩
      · rw [freshAcquire_nonzero c d _ (by simpa using hc)] at hr
        cases hr
    · have h3 : (s.load (lockPtrOf d) == 0) = false := by simpa [LockState.lockWord] using hw
      simp only [h3, store_ucOwnedByCore, store_ucRecursionCount] at hr
      by_cases ho : s.ucOwnedByCore c d = 0
      · right; left
        simp only [ho, not_true_eq_false, if_false] at hr
        cases hsl : SpinLock fuel h (lockPtrOf d) (s.store (lockPtrOf d) (h + 1)) with
        | stillSpinning s2 => simp [hsl] at hr
        | acquired s2 =>
          simp only [hsl] at hr
          obtain ⟨e, h0⟩ := SpinLock_acquired _ _ _ _ _ hsl
          rw [store_store] at e
          subst e
          have ht : (h + 1) % 2 ^ 32 = 0 := by
            rcases h0 with h0 | h0
            · rwa [load_store_same] at h0
            · exact h0
          by_cases hc : s.ucRecursionCount c d = 0
          · rw [freshAcquire_zero c d _ (by simpa using hc)] at hr
            cases hr
            exact ⟨ha, hc, Or.inr ⟨ho, ht⟩, by simp⟩
          · rw [freshAcquire_nonzero c d _ (by simpa using hc)] at hr
            cases hr
      · left
        by_cases hc : s.ucRecursionCount c d < 255
        · simp only [ho, not_false_eq_true, if_true, hc] at hr
          cases hr
          exact ⟨ha, hw, ho, hc, by simp⟩
        · simp [ho, hc] at hr

/-! ## The tables along sequences of calls -/

theorem TablesOk_initialState : TablesOk initialState := by
  intro c d
  simp [initialState]

/-- A call that returns keeps the tables in agreement. -/
theorem TablesOk_call (fuel h c d : Nat) (a : Int) (s s' : LockState) (ht : TablesOk s)
    (hr : vPortRecursiveLock fuel h c d a s = .returned s') : TablesOk s' := by
  obtain ⟨_, hcases⟩ := returned_cases fuel h c d a s s' hr
  obtain ⟨h255, h0, h1⟩ := ht c d
  intro c' d'
  obtain ⟨g255, g0, g1⟩ := ht c' d'
  by_cases hcd : c' = c ∧ d' = d
  · obtain ⟨rfl, rfl⟩ := hcd
    rcases hcases with ⟨_, _, ho, hc, rfl⟩ | ⟨_, hc, _, rfl⟩ | ⟨_, ho, hc, hn, rfl⟩ |
      ⟨_, ho, hc, hn, rfl⟩
    · simp only [setEntry_same, store_ucOwnedByCore]
      have hpos : 0 < s.ucRecursionCount c' d' := by
        by_contra hz
        exact ho (h0 (by omega))
      exact ⟨by omega, fun hz => by omega, fun _ => h1 hpos⟩
    · simp only [setEntry_same]
      exact ⟨by omega, fun hz => by omega, fun _ => trivial⟩
    · simp only [setEntry_same]
      exact ⟨by omega, fun hz => by omega, fun _ => h1 hc⟩
    · simp only [SpinUnlock, store_ucRecursionCount, store_ucOwnedByCore, setEntry_same]
      exact ⟨by omega, fun _ => trivial, fun hz => by omega⟩
  · rcases hcases with ⟨_, _, ho, hc, rfl⟩ | ⟨_, hc, _, rfl⟩ | ⟨_, ho, hc, hn, rfl⟩ |
      ⟨_, ho, hc, hn, rfl⟩ <;>
    simp only [SpinUnlock, store_ucRecursionCount, store_ucOwnedByCore,
      setEntry_other _ _ _ _ _ _ hcd] <;>
    exact ⟨g255, g0, g1⟩

theorem runCalls_cons_returned (k : Call) (ks : List Call) (s s' : LockState)
    (hr : runCalls (k :: ks) s = .returned s') :
    ∃ s1, k.run s = .returned s1 ∧ runCalls ks s1 = .returned s' := by
  simp only [runCalls] at hr
  cases hk : k.run s with
  | returned s1 => rw [hk] at hr; exact ⟨s1, rfl, hr⟩
  | halted a s1 => rw [hk] at hr; cases hr
  | spinning s1 => rw [hk] at hr; cases hr

/-- Calls that all return keep the tables in agreement. -/
theorem TablesOk_runCalls (ks : List Call) (s s' : LockState) (ht : TablesOk s)
    (hr : runCalls ks s = .returned s') : TablesOk s' := by
  induction ks generalizing s with
  | nil => simp only [runCalls] at hr; cases hr; exact ht
  | cons k ks ih =>
    obtain ⟨s1, hk, hrest⟩ := runCalls_cons_returned k ks s s' hr
    exact ih s1 (TablesOk_call _ _ _ _ _ _ _ ht hk) hrest

/-- C2. In every state reached from the initial state by a sequence of completed
`vPortRecursiveLock` calls (whatever the cores, harts, lock numbers and directions of
the calls), for every core `c` and domain `d`: `ucRecursionCount[c][d] > 0` if and
only if `ucOwnedByCore[c][d] == 1`, and `ucRecursionCount[c][d] <= 255`. -/
theorem depth_positive_iff_owned (ks : List Call) (s : LockState)
    (hr : runCalls ks initialState = .returned s) (c d : Nat) :
    (0 < s.ucRecursionCount c d ↔ s.ucOwnedByCore c d = 1) ∧
      0 ≤ s.ucRecursionCount c d ∧ s.ucRecursionCount c d ≤ 255 := by
  obtain ⟨h255, h0, h1⟩ := TablesOk_runCalls ks _ _ TablesOk_initialState hr c d
  refine ⟨⟨h1, fun ho => ?_⟩, Nat.zero_le _, h255⟩
  by_contra hn
  have := h0 (by omega)
  omega

/-- Witness of `depth_positive_iff_owned`: the state after one enter call. -/
theorem depth_positive_iff_owned_witness :
    runCalls [enterCall 0 0 0 1] initialState = .returned heldOnce ∧
      ((0 < heldOnce.ucRecursionCount 0 1 ↔ heldOnce.ucOwnedByCore 0 1 = 1) ∧
        0 ≤ heldOnce.ucRecursionCount 0 1 ∧ heldOnce.ucRecursionCount 0 1 ≤ 255) :=
  ⟨rfl, depth_positive_iff_owned [enterCall 0 0 0 1] heldOnce rfl 0 1⟩

theorem enterCount_cons (c d : Nat) (k : Call) (ks : List Call) :
    enterCount c d (k :: ks)
      = (if k.xCoreID = c ∧ k.ulLockNum = d ∧ k.uxAcquire ≠ 0 then 1 else 0)
        + enterCount c d ks := by
  unfold enterCount
  by_cases hk : k.xCoreID = c ∧ k.ulLockNum = d ∧ k.uxAcquire ≠ 0
  · rw [List.filter_cons_of_pos (by simpa using hk), if_pos hk, List.length_cons]; omega
  · rw [List.filter_cons_of_neg (by simpa using hk), if_neg hk]; omega

theorem exitCount_cons (c d : Nat) (k : Call) (ks : List Call) :
    exitCount c d (k :: ks)
      = (if k.xCoreID = c ∧ k.ulLockNum = d ∧ k.uxAcquire = 0 then 1 else 0)
        + exitCount c d ks := by
  unfold exitCount
  by_cases hk : k.xCoreID = c ∧ k.ulLockNum = d ∧ k.uxAcquire = 0
  · rw [List.filter_cons_of_pos (by simpa using hk), if_pos hk, List.length_cons]; omega
  · rw [List.filter_cons_of_neg (by simpa using hk), if_neg hk]; omega

/-- The effect of one returning call on a recursion count: plus one for an enter call
of that core on that domain, minus one for an exit call, unchanged otherwise. -/
theorem count_after_call (k : Call) (s s1 : LockState) (ht : TablesOk s)
    (hr : k.run s = .returned s1) (c d : Nat) :
    s1.ucRecursionCount c d
        + (if k.xCoreID = c ∧ k.ulLockNum = d ∧ k.uxAcquire = 0 then 1 else 0)
      = s.ucRecursionCount c d
        + (if k.xCoreID = c ∧ k.ulLockNum = d ∧ k.uxAcquire ≠ 0 then 1 else 0) := by
  obtain ⟨_, hcases⟩ := returned_cases _ _ _ _ _ _ _ hr
  obtain ⟨h255, _, _⟩ := ht k.xCoreID k.ulLockNum
  by_cases hcd : c = k.xCoreID ∧ d = k.ulLockNum
  · obtain ⟨rfl, rfl⟩ := hcd
    rcases hcases with ⟨ha, _, _, hc, rfl⟩ | ⟨ha, hc, _, rfl⟩ | ⟨ha, _, hc, hn, rfl⟩ |
      ⟨ha, _, hc, hn, rfl⟩ <;>
    simp only [SpinUnlock, store_ucRecursionCount, setEntry_same, ha, true_and, and_true,
      if_true, if_false, ne_eq, not_true_eq_false, not_false_eq_true, and_false] <;>
    omega
  · have hcd' : ¬ (k.xCoreID = c ∧ k.ulLockNum = d) := fun hx => hcd ⟨hx.1.symm, hx.2.symm⟩
    have e1 : ¬ (k.xCoreID = c ∧ k.ulLockNum = d ∧ k.uxAcquire = 0) :=
      fun hx => hcd' ⟨hx.1, hx.2.1⟩
    have e2 : ¬ (k.xCoreID = c ∧ k.ulLockNum = d ∧ k.uxAcquire ≠ 0) :=
      fun hx => hcd' ⟨hx.1, hx.2.1⟩
    rw [if_neg e1, if_neg e2]
    rcases hcases with ⟨_, _, _, _, rfl⟩ | ⟨_, _, _, rfl⟩ | ⟨_, _, _, _, rfl⟩ |
      ⟨_, _, _, _, rfl⟩ <;>
    simp only [SpinUnlock, store_ucRecursionCount, setEntry_other _ _ _ _ _ _ hcd]

/-- Along calls that all return, a recursion count is its value at the start plus the
number of enter calls minus the number of exit calls of that core on that domain. -/
theorem count_balance (ks : List Call) (s s' : LockState) (ht : TablesOk s)
    (hr : runCalls ks s = .returned s') (c d : Nat) :
    s'.ucRecursionCount c d + exitCount c d ks
      = s.ucRecursionCount c d + enterCount c d ks := by
  induction ks generalizing s with
  | nil =>
    simp only [runCalls] at hr
    cases hr
    simp [enterCount, exitCount]
  | cons k ks ih =>
    obtain ⟨s1, hk, hrest⟩ := runCalls_cons_returned k ks s s' hr
    have h1 := count_after_call k s s1 ht hk c d
    have h2 := ih s1 (TablesOk_call _ _ _ _ _ _ _ ht hk) hrest
    rw [enterCount_cons, exitCount_cons]
    omega

/-- C5. In every state reached from the initial state by completed calls in which
core `c` has made as many enter calls as exit calls on domain `d` (the initial state
among them), an exit call `vPortRecursiveLock (c, d, pdFALSE)` does not return: it
halts on `configASSERT (ucOwnedByCore[c][d])`, the state untouched. -/
theorem unmatched_exit_halts (ks : List Call) (s : LockState) (fuel h c d : Nat)
    (hr : runCalls ks initialState = .returned s) (hd : d < 2)
    (hbal : enterCount c d ks = exitCount c d ks) :
    vPortRecursiveLock fuel h c d release s = .halted .ownedByCore s := by
  have ht := TablesOk_runCalls ks _ _ TablesOk_initialState hr
  have hb := count_balance ks _ _ TablesOk_initialState hr c d
  have hz : s.ucRecursionCount c d = 0 := by
    simp only [initialState] at hb
    omega
  exact exit_not_owned fuel h c d s hd ((ht c d).2.1 hz)

/-- Witness of `unmatched_exit_halts`: core 0 has entered and left the task domain
once, its second exit halts. -/
theorem unmatched_exit_halts_witness :
    (runCalls [enterCall 0 0 0 1, exitCall 0 0 0 1] initialState = .returned heldAndGivenBack ∧
        1 < 2 ∧
        enterCount 0 1 [enterCall 0 0 0 1, exitCall 0 0 0 1]
          = exitCount 0 1 [enterCall 0 0 0 1, exitCall 0 0 0 1]) ∧
      vPortRecursiveLock 0 0 0 1 release heldAndGivenBack
        = .halted .ownedByCore heldAndGivenBack :=
  ⟨⟨rfl, by decide, by decide⟩,
    unmatched_exit_halts [enterCall 0 0 0 1, exitCall 0 0 0 1] heldAndGivenBack 0 0 0 1
      rfl (by decide) (by decide)⟩

/-! ## Nested enter and exit calls of one core -/

theorem runCalls_append (ks ks' : List Call) (s s1 : LockState)
    (hr : runCalls ks s = .returned s1) : runCalls (ks ++ ks') s = runCalls ks' s1 := by
  induction ks generalizing s with
  | nil => simp only [runCalls] at hr; cases hr; rfl
  | cons k ks ih =>
    obtain ⟨s2, hk, hrest⟩ := runCalls_cons_returned k ks s s1 hr
    simp only [List.cons_append, runCalls, hk]
    exact ih s2 hrest

theorem runCalls_single (k : Call) (s : LockState) : runCalls [k] s = k.run s := by
  simp only [runCalls]
  cases k.run s <;> rfl

theorem lockWord_initialState (d : Nat) : initialState.lockWord d = 0 := by
  unfold LockState.lockWord lockPtrOf
  split <;> rfl

/-- The first enter call on the initial state. -/
theorem enter_first (fuel h c d : Nat) (hh : h < configNUMBER_OF_CORES) (hd : d < 2) :
    ∃ s, (enterCall fuel h c d).run initialState = .returned s ∧ HeldAt s h c d 1 := by
  have hr := (enter_free fuel h c d _ hd (lockWord_initialState d)).trans
    (freshAcquire_zero c d _ (by simp [initialState]))
  refine ⟨_, hr, ?_⟩
  unfold HeldAt
  refine ⟨?_, ?_, ?_⟩
  · change (initialState.store (lockPtrOf d) (h + 1)).lockWord d = h + 1
    rw [lockWord_store_same]; exact Nat.mod_eq_of_lt (token_of_core hh)
  · simp only [setEntry_same]
  · simp only [setEntry_same]

/-- An enter call at depth `n`, `1 <= n < 255`, leads to depth `n + 1`. -/
theorem enter_next (fuel h c d n : Nat) (s : LockState) (hh : h < configNUMBER_OF_CORES)
    (hd : d < 2) (hs : HeldAt s h c d n) (hn : n < 255) :
    ∃ s', (enterCall fuel h c d).run s = .returned s' ∧ HeldAt s' h c d (n + 1) := by
  obtain ⟨hw, ho, hc⟩ := hs
  have hr := enter_nested fuel h c d s hd (by omega) (by omega) (by omega)
  refine ⟨_, hr, ?_⟩
  unfold HeldAt
  refine ⟨?_, ?_, ?_⟩
  · change (s.store (lockPtrOf d) (h + 1)).lockWord d = h + 1
    rw [lockWord_store_same]; exact Nat.mod_eq_of_lt (token_of_core hh)
  · simpa using ho
  · simp only [setEntry_same]; omega

/-- An exit call at depth `n + 2` leads to depth `n + 1` and leaves the lock word. -/
theorem exit_next (fuel h c d n : Nat) (s : LockState) (hd : d < 2)
    (hs : HeldAt s h c d (n + 2)) (hn : n + 2 ≤ 255) :
    ∃ s', (exitCall fuel h c d).run s = .returned s' ∧ HeldAt s' h c d (n + 1) := by
  obtain ⟨hw, ho, hc⟩ := hs
  have hr := exit_inner fuel h c d s hd (by omega) (by omega) (by omega)
  refine ⟨_, hr, ?_⟩
  unfold HeldAt
  refine ⟨hw, ho, ?_⟩
  simp only [setEntry_same]; omega

/-- An exit call at depth 1 frees the domain. -/
theorem exit_last (fuel h c d : Nat) (s : LockState) (hd : d < 2) (hs : HeldAt s h c d 1) :
    ∃ s', (exitCall fuel h c d).run s = .returned s' ∧ s'.lockWord d = 0 ∧
      s'.ucOwnedByCore c d = 0 ∧ s'.ucRecursionCount c d = 0 := by
  obtain ⟨hw, ho, hc⟩ := hs
  have hr := exit_outermost fuel h c d s hd (by omega) hc
  refine ⟨_, hr, ?_, ?_, ?_⟩
  · simp only [SpinUnlock, lockWord_store_same, Nat.zero_mod]
  · simp only [SpinUnlock, store_ucOwnedByCore, setEntry_same, Nat.zero_mod]
  · simp only [SpinUnlock, store_ucRecursionCount, setEntry_same, Nat.zero_mod]

/-- After `i + 1` enter calls, `i + 1 <= 255`, the core holds the domain at depth
`i + 1`. -/
theorem enters_from_initialState (fuel h c d i : Nat) (hh : h < configNUMBER_OF_CORES)
    (hd : d < 2) (hi : i + 1 ≤ 255) :
    ∃ s, runCalls (List.replicate (i + 1) (enterCall fuel h c d)) initialState = .returned s ∧
      HeldAt s h c d (i + 1) := by
  induction i with
  | zero =>
    obtain ⟨s, hr, hs⟩ := enter_first fuel h c d hh hd
    exact ⟨s, by rw [List.replicate_one, runCalls_single]; exact hr, hs⟩
  | succ n ih =>
    obtain ⟨s, hr, hs⟩ := ih (by omega)
    obtain ⟨s', hr', hs'⟩ := enter_next fuel h c d (n + 1) s hh hd hs (by omega)
    refine ⟨s', ?_, hs'⟩
    rw [List.replicate_succ', runCalls_append _ _ _ _ hr, runCalls_single]
    exact hr'

/-- From depth `n + 1 + j`, `j` exit calls lead to depth `n + 1`. -/
theorem exits_from_depth (fuel h c d n j : Nat) (s : LockState) (hd : d < 2)
    (hs : HeldAt s h c d (n + 1 + j)) (hn : n + 1 + j ≤ 255) :
    ∃ s', runCalls (List.replicate j (exitCall fuel h c d)) s = .returned s' ∧
      HeldAt s' h c d (n + 1) := by
  induction j generalizing s with
  | zero => exact ⟨s, rfl, hs⟩
  | succ j ih =>
    obtain ⟨s1, hr1, hs1⟩ := exit_next fuel h c d (n + j) s hd
      (by rw [show n + j + 2 = n + 1 + (j + 1) by omega]; exact hs) (by omega)
    obtain ⟨s', hr', hs'⟩ := ih s1 (by rw [show n + 1 + j = n + j + 1 by omega]; exact hs1)
      (by omega)
    refine ⟨s', ?_, hs'⟩
    simp only [List.replicate_succ, runCalls, hr1]
    exact hr'

/-- C1. For every core id `c`, every hart `h` below `configNUMBER_OF_CORES` that runs
the calls (`h = c` when the core calls for itself), every domain `d` in {0, 1} and
every `K` with `1 <= K <= 255`: from the initial state, `K` enter calls followed by
`K` exit calls all return (no assertion fails, nothing spins); after each of the
first `2 K - 1` calls the lock word of the domain is not zero; after the last call
the lock word, `ucOwnedByCore[c][d]` and `ucRecursionCount[c][d]` are all zero. -/
theorem nested_enter_exit_round_trip (fuel h c d K : Nat) (hh : h < configNUMBER_OF_CORES)
    (hd : d < 2) (hK1 : 1 ≤ K) (hK : K ≤ 255) :
    (∀ i, 1 ≤ i → i ≤ K →
      ∃ s, runCalls (List.replicate i (enterCall fuel h c d)) initialState = .returned s ∧
        s.lockWord d ≠ 0) ∧
    (∀ j, j < K →
      ∃ s, runCalls (List.replicate K (enterCall fuel h c d)
            ++ List.replicate j (exitCall fuel h c d)) initialState = .returned s ∧
        s.lockWord d ≠ 0) ∧
    (∃ s, runCalls (List.replicate K (enterCall fuel h c d)
            ++ List.replicate K (exitCall fuel h c d)) initialState = .returned s ∧
        s.lockWord d = 0 ∧ s.ucOwnedByCore c d = 0 ∧ s.ucRecursionCount c d = 0) := by
  obtain ⟨K', rfl⟩ : ∃ K', K = K' + 1 := ⟨K - 1, by omega⟩
  obtain ⟨sK, hrK, hsK⟩ := enters_from_initialState fuel h c d K' hh hd hK
  refine ⟨?_, ?_, ?_⟩
  · intro i hi1 hiK
    obtain ⟨i', rfl⟩ : ∃ i', i = i' + 1 := ⟨i - 1, by omega⟩
    obtain ⟨s, hr, hs⟩ := enters_from_initialState fuel h c d i' hh hd (by omega)
    exact ⟨s, hr, by rw [hs.1]; omega⟩
  · intro j hj
    obtain ⟨n, hn⟩ : ∃ n, K' + 1 = n + 1 + j := ⟨K' - j, by omega⟩
    obtain ⟨s, hr, hs⟩ := exits_from_depth fuel h c d n j sK hd (hn ▸ hsK) (by omega)
    exact ⟨s, by rw [runCalls_append _ _ _ _ hrK]; exact hr, by rw [hs.1]; omega⟩
  · obtain ⟨s1, hr1, hs1⟩ := exits_from_depth fuel h c d 0 K' sK hd
      (by rw [show 0 + 1 + K' = K' + 1 by omega]; exact hsK) (by omega)
    obtain ⟨s, hr, hw, ho, hc⟩ := exit_last fuel h c d s1 hd hs1
    refine ⟨s, ?_, hw, ho, hc⟩
    rw [runCalls_append _ _ _ _ hrK, List.replicate_succ', runCalls_append _ _ _ _ hr1,
      runCalls_single]
    exact hr

/-- Witness of `nested_enter_exit_round_trip`: core 1 on the ISR domain, `K = 3`. -/
theorem nested_enter_exit_round_trip_witness :
    (1 < configNUMBER_OF_CORES ∧ 0 < 2 ∧ 1 ≤ 3 ∧ 3 ≤ 255) ∧
      ∃ s, runCalls (List.replicate 3 (enterCall 0 1 1 0)
            ++ List.replicate 3 (exitCall 0 1 1 0)) initialState = .returned s ∧
        s.lockWord 0 = 0 ∧ s.ucOwnedByCore 1 0 = 0 ∧ s.ucRecursionCount 1 0 = 0 :=
  ⟨⟨by decide, by decide, by decide, by decide⟩,
    (nested_enter_exit_round_trip 0 1 1 0 3 (by decide) (by decide) (by decide)
      (by decide)).2.2⟩

/-- C4. From the initial state, for every core `c`, hart `h` below
`configNUMBER_OF_CORES` and domain `d`: the first 255 consecutive enter calls all
return, the `i`-th leaving `ucRecursionCount[c][d] == i`; the 256th does not return but
halts on `configASSERT (ucRecursionCount[c][d] < 255)` with the count still 255. -/
theorem recursion_counter_saturates (fuel h c d : Nat) (hh : h < configNUMBER_OF_CORES)
    (hd : d < 2) :
    (∀ i, 1 ≤ i → i ≤ 255 →
      ∃ s, runCalls (List.replicate i (enterCall fuel h c d)) initialState = .returned s ∧
        s.ucRecursionCount c d = i) ∧
    (∃ s, runCalls (List.replicate 256 (enterCall fuel h c d)) initialState
          = .halted .recursionBelowMax s ∧
        s.ucRecursionCount c d = 255) := by
  refine ⟨?_, ?_⟩
  · intro i hi1 hi
    obtain ⟨i', rfl⟩ : ∃ i', i = i' + 1 := ⟨i - 1, by omega⟩
    obtain ⟨s, hr, hs⟩ := enters_from_initialState fuel h c d i' hh hd (by omega)
    exact ⟨s, hr, hs.2.2⟩
  · obtain ⟨s, hr, hw, ho, hc⟩ := enters_from_initialState fuel h c d 254 hh hd (by omega)
    refine ⟨s.store (lockPtrOf d) (h + 1), ?_, ?_⟩
    · rw [show (256 : Nat) = 254 + 1 + 1 from rfl, List.replicate_succ',
        runCalls_append _ _ _ _ hr, runCalls_single]
      simp only [Call.run, enterCall]
      exact enter_nested_max fuel h c d s hd (by omega) (by omega) (by omega)
    · rw [store_ucRecursionCount]; exact hc

/-- Witness of `recursion_counter_saturates`: core 0 on the task domain. -/
theorem recursion_counter_saturates_witness :
    (0 < configNUMBER_OF_CORES ∧ 1 < 2) ∧
      ∃ s, runCalls (List.replicate 256 (enterCall 0 0 0 1)) initialState
          = .halted .recursionBelowMax s ∧
        s.ucRecursionCount 0 1 = 255 :=
  ⟨⟨by decide, by decide⟩, (recursion_counter_saturates 0 0 0 1 (by decide) (by decide)).2⟩

/-! ## The lock word and the owner -/

theorem OwnerOk_initialState : OwnerOk initialState := by
  intro d _
  refine ⟨fun a b ha => absurd rfl ha, fun ⟨c, hc⟩ => absurd rfl hc, Or.inl ?_⟩
  exact lockWord_initialState d

/-- Storing the token of a core in the lock word of a domain keeps `OwnerOk`, if the
owner entries of the other domain are not touched and those of this domain name at
most one core. -/
theorem OwnerOk_store_token (h d : Nat) (s : LockState) (t : Nat → Nat → Nat)
    (hh : h < configNUMBER_OF_CORES) (hd : d < 2) (hs : OwnerOk s)
    (hother : ∀ c e, e ≠ d → t c e = s.ucOwnedByCore c e)
    (hunique : ∀ a b, t a d ≠ 0 → t b d ≠ 0 → a = b) (cnt : Nat → Nat → Nat) :
    OwnerOk { s.store (lockPtrOf d) (h + 1) with ucOwnedByCore := t, ucRecursionCount := cnt } := by
  intro e he
  by_cases hed : e = d
  · subst hed
    have hw : (s.store (lockPtrOf e) (h + 1)).lockWord e = h + 1 := by
      rw [lockWord_store_same]; exact Nat.mod_eq_of_lt (token_of_core hh)
    refine ⟨hunique, fun _ => ?_, Or.inr ⟨h, hh, hw⟩⟩
    change (s.store (lockPtrOf e) (h + 1)).lockWord e ≠ 0
    rw [hw]; omega
  · obtain ⟨h1, h2, h3⟩ := hs e he
    have hw : (s.store (lockPtrOf d) (h + 1)).lockWord e = s.lockWord e :=
      lockWord_store_other s (h + 1) hd he (fun hx => hed hx.symm)
    refine ⟨?_, ?_, ?_⟩
    · intro a b ha hb
      simp only [hother _ _ hed] at ha hb
      exact h1 a b ha hb
    · rintro ⟨c, hc⟩
      simp only [hother _ _ hed] at hc
      change (s.store (lockPtrOf d) (h + 1)).lockWord e ≠ 0
      rw [hw]; exact h2 ⟨c, hc⟩
    · change (s.store (lockPtrOf d) (h + 1)).lockWord e = 0 ∨
        ∃ k, k < configNUMBER_OF_CORES ∧ (s.store (lockPtrOf d) (h + 1)).lockWord e = k + 1
      rw [hw]; exact h3

/-- A `SpinTryLock` by a core keeps `OwnerOk`. -/
theorem OwnerOk_SpinTryLock (h d : Nat) (s : LockState) (hh : h < configNUMBER_OF_CORES)
    (hd : d < 2) (hs : OwnerOk s) : OwnerOk (SpinTryLock h (lockPtrOf d) s).2 := by
  rw [SpinTryLock_snd]
  have e : { s.store (lockPtrOf d) (h + 1) with
      ucOwnedByCore := s.ucOwnedByCore, ucRecursionCount := s.ucRecursionCount }
        = s.store (lockPtrOf d) (h + 1) := by
    cases lockPtrOf d <;> rfl
  rw [← e]
  exact OwnerOk_store_token h d s s.ucOwnedByCore hh hd hs (fun _ _ _ => rfl)
    (hs d hd).1 s.ucRecursionCount

/-- A call of `vPortRecursiveLock` that returns keeps `OwnerOk`. -/
theorem OwnerOk_call (fuel h c d : Nat) (a : Int) (s s' : LockState)
    (hh : h < configNUMBER_OF_CORES) (hs : OwnerOk s)
    (hr : vPortRecursiveLock fuel h c d a s = .returned s') : OwnerOk s' := by
  obtain ⟨hd, hcases⟩ := returned_cases fuel h c d a s s' hr
  obtain ⟨hu, hheld, hword⟩ := hs d hd
  rcases hcases with ⟨_, _, ho, hc, rfl⟩ | ⟨_, hc, hfree, rfl⟩ | ⟨_, ho, hc, hn, rfl⟩ |
    ⟨_, ho, hc, hn, rfl⟩
  · have := OwnerOk_store_token h d s s.ucOwnedByCore hh hd hs (fun _ _ _ => rfl) hu
      (setEntry s.ucRecursionCount c d (s.ucRecursionCount c d + 1))
    simpa using this
  · have hw : s.lockWord d = 0 := by
      rcases hfree with hw | ⟨_, ht⟩
      · exact hw
      · exact absurd ht (token_ne_zero (token_of_core hh))
    have hnone : ∀ k, s.ucOwnedByCore k d = 0 := by
      intro k
      by_contra hk
      exact hheld ⟨k, hk⟩ hw
    refine OwnerOk_store_token h d s _ hh hd hs ?_ ?_ _
    · intro k e hed
      exact setEntry_other _ _ _ _ _ _ (fun hx => hed hx.2)
    · intro x y hx hy
      have ex : x = c := by
        by_contra hne
        rw [setEntry_other _ _ _ _ _ _ (fun hx => hne hx.1)] at hx
        exact hx (hnone x)
      have ey : y = c := by
        by_contra hne
        rw [setEntry_other _ _ _ _ _ _ (fun hx => hne hx.1)] at hy
        exact hy (hnone y)
      rw [ex, ey]
  · intro e he
    exact hs e he
  · intro e he
    by_cases hed : e = d
    · subst hed
      have hnone : ∀ k, setEntry s.ucOwnedByCore c e 0 k e = 0 := by
        intro k
        by_cases hk : k = c
        · subst hk; simp
        · rw [setEntry_other _ _ _ _ _ _ (fun hx => hk hx.1)]
          by_contra hne
          exact hk (hu k c hne ho)
      refine ⟨?_, ?_, Or.inl ?_⟩
      · intro x y hx
        simp only [SpinUnlock, store_ucOwnedByCore] at hx
        exact absurd (hnone x) hx
      · rintro ⟨k, hk⟩
        simp only [SpinUnlock, store_ucOwnedByCore] at hk
        exact absurd (hnone k) hk
      · simp only [SpinUnlock, lockWord_store_same, Nat.zero_mod]
    · obtain ⟨h1, h2, h3⟩ := hs e he
      have hne : ∀ k, ¬ (k = c ∧ e = d) := fun k hx => hed hx.2
      have hw : (SpinUnlock (lockPtrOf d)
          { s with
            ucRecursionCount := setEntry s.ucRecursionCount c d 0
            ucOwnedByCore := setEntry s.ucOwnedByCore c d 0 }).lockWord e = s.lockWord e :=
        lockWord_store_other _ 0 hd he (fun hx => hed hx.symm)
      refine ⟨?_, ?_, ?_⟩
      · intro x y hx hy
        simp only [SpinUnlock, store_ucOwnedByCore, setEntry_other _ _ _ _ _ _ (hne _)] at hx hy
        exact h1 x y hx hy
      · rintro ⟨k, hk⟩
        simp only [SpinUnlock, store_ucOwnedByCore, setEntry_other _ _ _ _ _ _ (hne _)] at hk
        rw [hw]; exact h2 ⟨k, hk⟩
      · rw [hw]; exact h3

/-- Valid actions keep `OwnerOk`. -/
theorem OwnerOk_runActions (as : List Action) (s s' : LockState) (hs : OwnerOk s)
    (hv : ∀ a ∈ as, a.valid) (hr : runActions as s = some s') : OwnerOk s' := by
  induction as generalizing s with
  | nil => simp only [runActions] at hr; cases hr; exact hs
  | cons a as ih =>
    have hva : a.valid := hv a (List.mem_cons_self _ _)
    have hvas : ∀ b ∈ as, b.valid := fun b hb => hv b (List.mem_cons_of_mem _ hb)
    cases a with
    | call k =>
      simp only [runActions] at hr
      cases hk : k.run s with
      | returned s1 =>
        rw [hk] at hr
        obtain ⟨e1, e2, _⟩ := hva
        exact ih s1 (OwnerOk_call _ _ _ _ _ _ _ (by rw [e1]; exact e2) hs hk) hvas hr
      | halted x s1 => rw [hk] at hr; cases hr
      | spinning s1 => rw [hk] at hr; cases hr
    | tryLock h d =>
      simp only [runActions] at hr
      exact ih _ (OwnerOk_SpinTryLock h d s hva.1 hva.2 hs) hvas hr

/-- A `SpinTryLock` does not touch the tables. -/
theorem TablesOk_SpinTryLock (h : Nat) (p : LockPtr) (s : LockState) (hs : TablesOk s) :
    TablesOk (SpinTryLock h p s).2 := by
  intro c d
  rw [SpinTryLock_snd, store_ucOwnedByCore, store_ucRecursionCount]
  exact hs c d

/-- Valid actions keep the tables in agreement. -/
theorem TablesOk_runActions (as : List Action) (s s' : LockState) (hs : TablesOk s)
    (hr : runActions as s = some s') : TablesOk s' := by
  induction as generalizing s with
  | nil => simp only [runActions] at hr; cases hr; exact hs
  | cons a as ih =>
    cases a with
    | call k =>
      simp only [runActions] at hr
      cases hk : k.run s with
      | returned s1 => rw [hk] at hr; exact ih s1 (TablesOk_call _ _ _ _ _ _ _ hs hk) hr
      | halted x s1 => rw [hk] at hr; cases hr
      | spinning s1 => rw [hk] at hr; cases hr
    | tryLock h d =>
      simp only [runActions] at hr
      exact ih _ (TablesOk_SpinTryLock h _ s hs) hr

theorem WordNamesOwner_initialState : WordNamesOwner initialState :=
  fun d _ => Or.inl (lockWord_initialState d)

/-- A returning call of core `c`, run on hart `c`, keeps the lock words naming the
owners. -/
theorem WordNamesOwner_call (fuel c d : Nat) (a : Int) (s s' : LockState)
    (hc : c < configNUMBER_OF_CORES) (ht : TablesOk s) (hs : WordNamesOwner s)
    (hr : vPortRecursiveLock fuel c c d a s = .returned s') : WordNamesOwner s' := by
  obtain ⟨hd, hcases⟩ := returned_cases fuel c c d a s s' hr
  obtain ⟨_, t0, t1⟩ := ht c d
  have htok : (s.store (lockPtrOf d) (c + 1)).lockWord d = c + 1 := by
    rw [lockWord_store_same]; exact Nat.mod_eq_of_lt (token_of_core hc)
  intro e he
  by_cases hed : e = d
  · subst hed
    rcases hcases with ⟨_, _, ho, _, rfl⟩ | ⟨_, _, _, rfl⟩ | ⟨_, _, _, _, rfl⟩ | ⟨_, _, _, _, rfl⟩
    · have hpos : 0 < s.ucRecursionCount c e := by
        by_contra hz
        exact ho (t0 (by omega))
      exact Or.inr ⟨c, hc, by simpa using t1 hpos, htok⟩
    · exact Or.inr ⟨c, hc, by simp, htok⟩
    · exact hs e he
    · exact Or.inl (by simp only [SpinUnlock, lockWord_store_same, Nat.zero_mod])
  · have hne : ∀ k, ¬ (k = c ∧ e = d) := fun k hx => hed hx.2
    have hw1 : ∀ v, (s.store (lockPtrOf d) v).lockWord e = s.lockWord e :=
      fun v => lockWord_store_other s v hd he (fun hx => hed hx.symm)
    rcases hcases with ⟨_, _, _, _, rfl⟩ | ⟨_, _, _, rfl⟩ | ⟨_, _, _, _, rfl⟩ | ⟨_, _, _, _, rfl⟩
    · rcases hs e he with h0 | ⟨k, hk, ho, hw⟩
      · exact Or.inl ((hw1 _).trans h0)
      · exact Or.inr ⟨k, hk, by simpa using ho, (hw1 _).trans hw⟩
    · rcases hs e he with h0 | ⟨k, hk, ho, hw⟩
      · exact Or.inl ((hw1 _).trans h0)
      · refine Or.inr ⟨k, hk, ?_, (hw1 _).trans hw⟩
        change setEntry s.ucOwnedByCore c d 1 k e = 1
        rw [setEntry_other _ _ _ _ _ _ (hne k)]; exact ho
    · exact hs e he
    · have hw2 : (SpinUnlock (lockPtrOf d)
          { s with
            ucRecursionCount := setEntry s.ucRecursionCount c d 0
            ucOwnedByCore := setEntry s.ucOwnedByCore c d 0 }).lockWord e = s.lockWord e :=
        lockWord_store_other _ 0 hd he (fun hx => hed hx.symm)
      rcases hs e he with h0 | ⟨k, hk, ho, hw⟩
      · exact Or.inl (hw2.trans h0)
      · refine Or.inr ⟨k, hk, ?_, hw2.trans hw⟩
        simp only [SpinUnlock, store_ucOwnedByCore, setEntry_other _ _ _ _ _ _ (hne k)]
        exact ho

/-- Valid calls that all return, and nothing else, keep the lock words naming the
owners. -/
theorem WordNamesOwner_runActions (as : List Action) (s s' : LockState) (ht : TablesOk s)
    (hs : WordNamesOwner s) (hv : ∀ a ∈ as, a.valid) (hcalls : ∀ a ∈ as, a.isCall)
    (hr : runActions as s = some s') : WordNamesOwner s' := by
  induction as generalizing s with
  | nil => simp only [runActions] at hr; cases hr; exact hs
  | cons a as ih =>
    have hva : a.valid := hv a (List.mem_cons_self _ _)
    have hvas : ∀ b ∈ as, b.valid := fun b hb => hv b (List.mem_cons_of_mem _ hb)
    have hcas : ∀ b ∈ as, b.isCall := fun b hb => hcalls b (List.mem_cons_of_mem _ hb)
    cases a with
    | call k =>
      simp only [runActions] at hr
      cases hk : k.run s with
      | returned s1 =>
        rw [hk] at hr
        obtain ⟨e1, e2, _⟩ := hva
        have hk' : vPortRecursiveLock k.fuel k.xCoreID k.xCoreID k.ulLockNum k.uxAcquire s
            = .returned s1 := by
          have hk2 := hk
          simp only [Call.run, e1] at hk2
          exact hk2
        exact ih s1 (TablesOk_call _ _ _ _ _ _ _ ht hk)
          (WordNamesOwner_call _ _ _ _ _ _ e2 ht hs hk') hvas hcas hr
      | halted x s1 => rw [hk] at hr; cases hr
      | spinning s1 => rw [hk] at hr; cases hr
    | tryLock h d => exact (hcalls _ (List.mem_cons_self _ _)).elim

theorem contendedActions_valid : ∀ a ∈ contendedActions, a.valid := by
  intro a ha
  simp only [contendedActions, List.mem_cons, List.mem_singleton, List.not_mem_nil,
    or_false] at ha
  rcases ha with rfl | rfl
  · exact ⟨rfl, by decide, by decide⟩
  · exact ⟨by decide, by decide⟩

/-- C9, as stated, fails.  Core 0 enters the task domain and core 1 then makes one
`SpinTryLock` on the task lock word, which fails: the lock word holds 2, the token of
core 1, although the only core recorded as owner is core 0; the word is neither 0
nor the owner's token. -/
theorem lock_word_names_a_non_owner :
    (∀ a ∈ contendedActions, a.valid) ∧
      runActions contendedActions initialState = some heldAndContended ∧
      heldAndContended.ucOwnedByCore 0 1 = 1 ∧ heldAndContended.lockWord 1 = 2 ∧
      ¬ (heldAndContended.lockWord 1 = 0 ∨
        ∃ c, heldAndContended.ucOwnedByCore c 1 = 1 ∧ heldAndContended.lockWord 1 = c + 1) := by
  refine ⟨contendedActions_valid, rfl, by decide, by decide, ?_⟩
  rintro (h0 | ⟨c, ho, hw⟩)
  · exact absurd h0 (by decide)
  · have hc : c = 1 := by
      have h2 : heldAndContended.lockWord 1 = 2 := by decide
      omega
    subst hc
    exact absurd ho (by decide)

/-- C9, amended.  In every state reached from the initial state by completed
enter/exit calls and single `SpinTryLock` attempts of the cores, for each domain the
lock word is 0 or the token `h + 1` of some core `h`; the lock word is not 0 while a
core has `ucOwnedByCore[c][d] == 1`, and at most one core has.  The core the word
names is the owner when the state is reached by completed calls alone; a
`SpinTryLock` of another core in between leaves that core's token instead. -/
theorem lock_word_is_zero_or_a_token (as : List Action) (s : LockState) (d : Nat)
    (hv : ∀ a ∈ as, a.valid) (hr : runActions as initialState = some s) (hd : d < 2) :
    (s.lockWord d = 0 ∨ ∃ h, h < configNUMBER_OF_CORES ∧ s.lockWord d = h + 1) ∧
      (∀ c, s.ucOwnedByCore c d = 1 → s.lockWord d ≠ 0) ∧
      (∀ a b, s.ucOwnedByCore a d = 1 → s.ucOwnedByCore b d = 1 → a = b) ∧
      ((∀ a ∈ as, a.isCall) → s.lockWord d = 0 ∨
        ∃ c, c < configNUMBER_OF_CORES ∧ s.ucOwnedByCore c d = 1 ∧ s.lockWord d = c + 1) := by
  obtain ⟨h1, h2, h3⟩ := OwnerOk_runActions as _ _ OwnerOk_initialState hv hr d hd
  refine ⟨h3, fun c hc => h2 ⟨c, by omega⟩, fun a b ha hb => h1 a b (by omega) (by omega), ?_⟩
  intro hcalls
  exact WordNamesOwner_runActions as _ _ TablesOk_initialState WordNamesOwner_initialState
    hv hcalls hr d hd

/-- Witness of `lock_word_is_zero_or_a_token`: the actions `contendedActions`. -/
theorem lock_word_is_zero_or_a_token_witness :
    ((∀ a ∈ contendedActions, a.valid) ∧
        runActions contendedActions initialState = some heldAndContended ∧ 1 < 2) ∧
      (heldAndContended.lockWord 1 = 0 ∨
          ∃ h, h < configNUMBER_OF_CORES ∧ heldAndContended.lockWord 1 = h + 1) ∧
      (∀ c, heldAndContended.ucOwnedByCore c 1 = 1 → heldAndContended.lockWord 1 ≠ 0) :=
  ⟨⟨contendedActions_valid, rfl, by decide⟩,
    (lock_word_is_zero_or_a_token contendedActions heldAndContended 1
      contendedActions_valid rfl (by decide)).1,
    (lock_word_is_zero_or_a_token contendedActions heldAndContended 1
      contendedActions_valid rfl (by decide)).2.1⟩

/-! ## Mutual exclusion under interleaving -/

theorem MutexInv_initialMachine : MutexInv initialMachine := by
  refine ⟨fun _ => trivial, ?_, ?_, ?_⟩
  · intro d _ a b ha
    rcases ha with ha | ha
    · exact absurd rfl ha
    · exact absurd ha (by simp [initialMachine, Position.holds])
  · intro d _ c hc
    rcases hc with hc | hc
    · exact absurd rfl hc
    · exact absurd hc (by simp [initialMachine, Position.holds])
  · intro c d hp
    simp [initialMachine] at hp

/-- A step of core `c` keeps the invariant if it touches no `ucOwnedByCore` entry of
another core, lets `c` become a holder only of a domain whose lock word was free and
is not free afterwards, and frees a lock word only if `c` was its holder and is not
any more. -/
theorem MutexInv_goto (m : Machine) (c : Nat) (p : Position) (mem : LockState)
    (hm : MutexInv m)
    (hown : ∀ k d, k ≠ c → mem.ucOwnedByCore k d = m.mem.ucOwnedByCore k d)
    (hnum : p.lockNumOk)
    (hi : ∀ d, d < 2 → holderAt mem p c d → Holder m c d ∨ m.mem.lockWord d = 0)
    (hii : ∀ d, d < 2 → mem.lockWord d = 0 →
      m.mem.lockWord d = 0 ∨ (Holder m c d ∧ ¬ holderAt mem p c d))
    (hiii : ∀ d, d < 2 → holderAt mem p c d → ¬ Holder m c d → mem.lockWord d ≠ 0)
    (h3 : ∀ d, p = .exitUnlock d → mem.ucOwnedByCore c d = 0) :
    MutexInv (m.goto c p mem) := by
  obtain ⟨m1, m2, m3, m4⟩ := hm
  have hself : ∀ d, Holder (m.goto c p mem) c d ↔ holderAt mem p c d := by
    intro d
    simp [Holder, Machine.goto]
  have hother : ∀ k d, k ≠ c → (Holder (m.goto c p mem) k d ↔ Holder m k d) := by
    intro k d hk
    simp [Holder, holderAt, Machine.goto, hk, hown k d hk]
  have hnew : ∀ d, d < 2 → ∀ k, Holder (m.goto c p mem) k d → ¬ Holder m k d →
      k = c ∧ m.mem.lockWord d = 0 := by
    intro d hd k hk hnk
    by_cases hkc : k = c
    · subst hkc
      rcases hi d hd ((hself d).1 hk) with h | h
      · exact absurd h hnk
      · exact ⟨rfl, h⟩
    · exact absurd ((hother k d hkc).1 hk) hnk
  refine ⟨?_, ?_, ?_, ?_⟩
  · intro k
    by_cases hk : k = c
    · subst hk; simpa [Machine.goto] using hnum
    · simpa [Machine.goto, hk] using m1 k
  · intro d hd a b ha hb
    by_cases ha' : Holder m a d
    · by_cases hb' : Holder m b d
      · exact m2 d hd a b ha' hb'
      · exact absurd (hnew d hd b hb hb').2 (m3 d hd a ha')
    · by_cases hb' : Holder m b d
      · exact absurd (hnew d hd a ha ha').2 (m3 d hd b hb')
      · rw [(hnew d hd a ha ha').1, (hnew d hd b hb hb').1]
  · intro d hd k hk
    change mem.lockWord d ≠ 0
    intro hz
    rcases hii d hd hz with h0 | ⟨hc, hnc⟩
    · have hnk : ¬ Holder m k d := fun h => m3 d hd k h h0
      obtain ⟨rfl, _⟩ := hnew d hd k hk hnk
      exact hiii d hd ((hself d).1 hk) hnk hz
    · by_cases hkc : k = c
      · subst hkc; exact hnc ((hself d).1 hk)
      · exact hkc (m2 d hd k c ((hother k d hkc).1 hk) hc)
  · intro k d hp
    by_cases hk : k = c
    · subst hk
      have : p = .exitUnlock d := by simpa [Machine.goto] using hp
      simpa [Machine.goto] using h3 d this
    · have hp' : m.pos k = .exitUnlock d := by simpa [Machine.goto, hk] using hp
      change mem.ucOwnedByCore k d = 0
      rw [hown k d hk]; exact m4 k d hp'

/-- A step that leaves the lock words alone, touches no `ucOwnedByCore` entry of
another core, and after which the core holds nothing it did not hold before. -/
theorem MutexInv_local (m : Machine) (c : Nat) (p : Position) (mem : LockState)
    (hm : MutexInv m)
    (hown : ∀ k d, k ≠ c → mem.ucOwnedByCore k d = m.mem.ucOwnedByCore k d)
    (hword : ∀ d, mem.lockWord d = m.mem.lockWord d) (hnum : p.lockNumOk)
    (hback : ∀ d, holderAt mem p c d → Holder m c d)
    (h3 : ∀ d, p = .exitUnlock d → mem.ucOwnedByCore c d = 0) :
    MutexInv (m.goto c p mem) := by
  refine MutexInv_goto m c p mem hm hown hnum ?_ ?_ ?_ h3
  · intro d _ hd
    exact Or.inl (hback d hd)
  · intro d _ hz
    rw [hword] at hz
    exact Or.inl hz
  · intro d _ hd hn
    exact absurd (hback d hd) hn

/-- A step that changes neither `ucOwnedByCore` nor a lock word, and leads to a
position that holds nothing the core did not hold already. -/
theorem MutexInv_quiet (m : Machine) (c : Nat) (p : Position) (mem : LockState)
    (hm : MutexInv m) (hown : mem.ucOwnedByCore = m.mem.ucOwnedByCore)
    (hword : ∀ d, mem.lockWord d = m.mem.lockWord d) (hnum : p.lockNumOk)
    (hhold : ∀ d, p.holds d → Holder m c d) (hp3 : ∀ d, p ≠ .exitUnlock d) :
    MutexInv (m.goto c p mem) := by
  refine MutexInv_local m c p mem hm (fun k d _ => by rw [hown]) hword hnum ?_
    (fun d hpd => absurd hpd (hp3 d))
  intro d hd
  rcases hd with hd | hd
  · rw [hown] at hd; exact Or.inl hd
  · exact hhold d hd

/-- The `amoswap` of `SpinTryLock` by core `c` on domain `d`, leading to a position
that holds the domain only if the lock word was free. -/
theorem MutexInv_swap (m : Machine) (c d : Nat) (p : Position) (hm : MutexInv m)
    (hc : c < configNUMBER_OF_CORES) (hd : d < 2) (hnum : p.lockNumOk)
    (hhold : ∀ e, p.holds e → e = d ∧ m.mem.lockWord d = 0)
    (hp3 : ∀ e, p ≠ .exitUnlock e) :
    MutexInv (m.goto c p (m.mem.store (lockPtrOf d) (c + 1))) := by
  have htok : (m.mem.store (lockPtrOf d) (c + 1)).lockWord d ≠ 0 := by
    rw [lockWord_store_same]; exact token_ne_zero (token_of_core hc)
  refine MutexInv_goto m c p _ hm (fun k e _ => by rw [store_ucOwnedByCore]) hnum ?_ ?_ ?_ ?_
  · intro e _ he
    rcases he with he | he
    · rw [store_ucOwnedByCore] at he; exact Or.inl (Or.inl he)
    · obtain ⟨rfl, hz⟩ := hhold e he
      exact Or.inr hz
  · intro e he hz
    by_cases hed : e = d
    · subst hed; exact absurd hz htok
    · rw [lockWord_store_other _ _ hd he (fun hx => hed hx.symm)] at hz
      exact Or.inl hz
  · intro e _ he hn
    rcases he with he | he
    · rw [store_ucOwnedByCore] at he; exact absurd (Or.inl he) hn
    · obtain ⟨rfl, _⟩ := hhold e he
      exact htok
  · intro e hpe
    exact absurd hpe (hp3 e)

/-- Every atomic step of a core keeps the invariant. -/
theorem MutexInv_step (e : Event) (m : Machine) (hc : e.core < configNUMBER_OF_CORES)
    (hm : MutexInv m) : MutexInv (step e m) := by
  have hnum := hm.1 e.core
  have hpos : ∀ d, (m.pos e.core).holds d → Holder m e.core d := fun d hd => Or.inr hd
  cases hp : m.pos e.core <;> simp only [step, hp] <;> rw [hp] at hnum hpos
  case idle =>
    split_ifs with h1 h2
    · exact MutexInv_quiet m _ _ _ hm rfl (fun _ => rfl) h1 (fun _ hd => hd.elim)
        (fun _ hx => by cases hx)
    · exact MutexInv_quiet m _ _ _ hm rfl (fun _ => rfl) h1 (fun _ hd => hd.elim)
        (fun _ hx => by cases hx)
    · exact MutexInv_quiet m _ _ _ hm rfl (fun _ => rfl) trivial (fun _ hd => hd.elim)
        (fun _ hx => by cases hx)
  case enterTry d =>
    rw [SpinTryLock_eq]
    by_cases hw : m.mem.load (lockPtrOf d) = 0
    · have h3 : (m.mem.load (lockPtrOf d) == 0) = true := by simpa using hw
      simp only [h3]
      exact MutexInv_swap m _ d _ hm hc hnum hnum (fun _ he => ⟨he, hw⟩)
        (fun _ hx => by cases hx)
    · have h3 : (m.mem.load (lockPtrOf d) == 0) = false := by simpa using hw
      simp only [h3]
      exact MutexInv_swap m _ d _ hm hc hnum hnum (fun _ he => he.elim)
        (fun _ hx => by cases hx)
  case spinTry d =>
    rw [SpinTryLock_eq]
    by_cases hw : m.mem.load (lockPtrOf d) = 0
    · have h3 : (m.mem.load (lockPtrOf d) == 0) = true := by simpa using hw
      simp only [h3]
      exact MutexInv_swap m _ d _ hm hc hnum hnum (fun _ he => ⟨he, hw⟩)
        (fun _ hx => by cases hx)
    · have h3 : (m.mem.load (lockPtrOf d) == 0) = false := by simpa using hw
      simp only [h3]
      exact MutexInv_swap m _ d _ hm hc hnum hnum (fun _ he => he.elim)
        (fun _ hx => by cases hx)
  case enterReadOwned d =>
    split_ifs
    · exact MutexInv_quiet m _ _ _ hm rfl (fun _ => rfl) hnum (fun _ hd => hd.elim)
        (fun _ hx => by cases hx)
    · exact MutexInv_quiet m _ _ _ hm rfl (fun _ => rfl) hnum (fun _ hd => hd.elim)
        (fun _ hx => by cases hx)
  case enterAssertMax d =>
    split_ifs
    · exact MutexInv_quiet m _ _ _ hm rfl (fun _ => rfl) hnum (fun _ hd => hd.elim)
        (fun _ hx => by cases hx)
    · exact MutexInv_quiet m _ _ _ hm rfl (fun _ => rfl) trivial (fun _ hd => hd.elim)
        (fun _ hx => by cases hx)
  case enterIncrementRead d =>
    exact MutexInv_quiet m _ _ _ hm rfl (fun _ => rfl) hnum (fun _ hd => hd.elim)
      (fun _ hx => by cases hx)
  case enterIncrementWrite d v =>
    exact MutexInv_quiet m _ _ _ hm rfl (fun _ => rfl) trivial (fun _ hd => hd.elim)
      (fun _ hx => by cases hx)
  case enterAssertZero d =>
    split_ifs
    · exact MutexInv_quiet m _ _ _ hm rfl (fun _ => rfl) hnum hpos (fun _ hx => by cases hx)
    · exact MutexInv_quiet m _ _ _ hm rfl (fun _ => rfl) trivial (fun _ hd => hd.elim)
        (fun _ hx => by cases hx)
  case enterSetCount d =>
    exact MutexInv_quiet m _ _ _ hm rfl (fun _ => rfl) hnum hpos (fun _ hx => by cases hx)
  case enterSetOwned d =>
    refine MutexInv_local m _ _ _ hm ?_ (fun _ => rfl) trivial ?_ (fun _ hx => by cases hx)
    · intro k x hk
      exact setEntry_other _ _ _ _ _ _ (fun hx => hk hx.1)
    · intro x hx
      rcases hx with hx | hx
      · by_cases hxd : x = d
        · exact hpos x hxd
        · have hx' : setEntry m.mem.ucOwnedByCore e.core d 1 e.core x ≠ 0 := hx
          rw [setEntry_other _ _ _ _ _ _ (fun h => hxd h.2)] at hx'
          exact Or.inl hx'
      · exact hx.elim
  case exitAssertOwned d =>
    split_ifs with ho
    · refine MutexInv_quiet m _ _ _ hm rfl (fun _ => rfl) hnum ?_ (fun _ hx => by cases hx)
      intro x hx
      have hxd : x = d := hx
      subst hxd
      exact Or.inl ho
    · exact MutexInv_quiet m _ _ _ hm rfl (fun _ => rfl) trivial (fun _ hd => hd.elim)
        (fun _ hx => by cases hx)
  case exitAssertPositive d =>
    split_ifs
    · exact MutexInv_quiet m _ _ _ hm rfl (fun _ => rfl) hnum hpos (fun _ hx => by cases hx)
    · exact MutexInv_quiet m _ _ _ hm rfl (fun _ => rfl) trivial (fun _ hd => hd.elim)
        (fun _ hx => by cases hx)
  case exitDecrementRead d =>
    exact MutexInv_quiet m _ _ _ hm rfl (fun _ => rfl) hnum hpos (fun _ hx => by cases hx)
  case exitDecrementWrite d v =>
    split_ifs
    · exact MutexInv_quiet m _ _ _ hm rfl (fun _ => rfl) hnum hpos (fun _ hx => by cases hx)
    · exact MutexInv_quiet m _ _ _ hm rfl (fun _ => rfl) trivial (fun _ hd => hd.elim)
        (fun _ hx => by cases hx)
  case exitClearOwned d =>
    refine MutexInv_local m _ _ _ hm ?_ (fun _ => rfl) hnum ?_ ?_
    · intro k x hk
      exact setEntry_other _ _ _ _ _ _ (fun hx => hk hx.1)
    · intro x hx
      rcases hx with hx | hx
      · by_cases hxd : x = d
        · exact hpos x hxd
        · have hx' : setEntry m.mem.ucOwnedByCore e.core d 0 e.core x ≠ 0 := hx
          rw [setEntry_other _ _ _ _ _ _ (fun h => hxd h.2)] at hx'
          exact Or.inl hx'
      · exact hpos x hx
    · intro x hx
      cases hx
      exact setEntry_same _ _ _ _
  case exitUnlock d =>
    have hcleared : m.mem.ucOwnedByCore e.core d = 0 := hm.2.2.2 e.core d hp
    refine MutexInv_goto m _ _ _ hm (fun k x _ => by rw [SpinUnlock, store_ucOwnedByCore])
      trivial ?_ ?_ ?_ (fun _ hx => by cases hx)
    · intro x _ hx
      rcases hx with hx | hx
      · rw [SpinUnlock, store_ucOwnedByCore] at hx; exact Or.inl (Or.inl hx)
      · exact hx.elim
    · intro x hx2 hz
      by_cases hxd : x = d
      · subst hxd
        refine Or.inr ⟨Or.inr (by rw [hp]; exact rfl), ?_⟩
        rintro (h | h)
        · rw [SpinUnlock, store_ucOwnedByCore] at h; exact h hcleared
        · exact h.elim
      · rw [SpinUnlock, lockWord_store_other _ _ hnum hx2 (fun h => hxd h.symm)] at hz
        exact Or.inl hz
    · intro x _ hx hn
      rcases hx with hx | hx
      · rw [SpinUnlock, store_ucOwnedByCore] at hx; exact absurd (Or.inl hx) hn
      · exact hx.elim
  case halted a =>
    exact hm

/-- The invariant holds after every schedule of steps of the cores. -/
theorem MutexInv_runSchedule (es : List Event) (m : Machine)
    (hv : ∀ e ∈ es, e.core < configNUMBER_OF_CORES) (hm : MutexInv m) :
    MutexInv (runSchedule es m) := by
  induction es generalizing m with
  | nil => exact hm
  | cons e es ih =>
    exact ih (step e m) (fun x hx => hv x (List.mem_cons_of_mem _ hx))
      (MutexInv_step e m (hv e (List.mem_cons_self _ _)) hm)

/-- C3. Mutual exclusion.  Let the cores run calls of `vPortRecursiveLock` (enter or
exit, on either domain, each core `c` on hart `c` with `xCoreID = c`), interleaved in
any order at the granularity of single `amoswap`s and single reads and writes of
`ucOwnedByCore` and `ucRecursionCount`.  Then after every schedule `es` (so at every
instant of every interleaving, the prefixes of a schedule being schedules) no two
distinct cores `a` and `b` both have `ucOwnedByCore[a][d] == 1` and
`ucOwnedByCore[b][d] == 1` for the same domain `d`. -/
theorem mutual_exclusion (es : List Event) (a b d : Nat)
    (hv : ∀ e ∈ es, e.core < configNUMBER_OF_CORES) (hab : a ≠ b) (hd : d < 2) :
    ¬ ((runSchedule es initialMachine).mem.ucOwnedByCore a d = 1 ∧
        (runSchedule es initialMachine).mem.ucOwnedByCore b d = 1) := by
  rintro ⟨ha, hb⟩
  have hm := MutexInv_runSchedule es initialMachine hv MutexInv_initialMachine
  exact hab (hm.2.1 d hd a b (Or.inl (by omega)) (Or.inl (by omega)))

/-- Witness of `mutual_exclusion`: the schedule `handOverSchedule`, after which core 1
owns the task domain and core 0 does not. -/
theorem mutual_exclusion_witness :
    ((∀ e ∈ handOverSchedule, e.core < configNUMBER_OF_CORES) ∧ 0 ≠ 1 ∧ 1 < 2) ∧
      (runSchedule handOverSchedule initialMachine).mem.ucOwnedByCore 1 1 = 1 ∧
      ¬ ((runSchedule handOverSchedule initialMachine).mem.ucOwnedByCore 0 1 = 1 ∧
          (runSchedule handOverSchedule initialMachine).mem.ucOwnedByCore 1 1 = 1) :=
  ⟨⟨by decide, by decide, by decide⟩, by decide,
    mutual_exclusion handOverSchedule 0 1 1 (by decide) (by decide) (by decide)⟩

/-! ## The atomic steps of one core add up to the sequential function -/

@[simp] theorem goto_pos_self (m : Machine) (c : Nat) (p : Position) (mem : LockState) :
    (m.goto c p mem).pos c = p := by
  simp [Machine.goto]

@[simp] theorem goto_mem (m : Machine) (c : Nat) (p : Position) (mem : LockState) :
    (m.goto c p mem).mem = mem := rfl

@[simp] theorem goto_goto (m : Machine) (c : Nat) (p q : Position) (mem mem' : LockState) :
    (m.goto c p mem).goto c q mem' = m.goto c q mem' := by
  unfold Machine.goto
  congr 1
  funext k
  by_cases hk : k = c <;> simp [hk]

/-- When core `c`, idle, runs a call alone and the sequential function returns, a
number of atomic steps of `c` in a row lead to the same memory, `c` idle again. -/
theorem steps_refine_call (fuel c d : Nat) (a : Int) (m : Machine) (s' : LockState)
    (hc : c < configNUMBER_OF_CORES) (hidle : m.pos c = .idle)
    (hr : vPortRecursiveLock fuel c c d a m.mem = .returned s') :
    ∃ n, runSchedule (List.replicate n ⟨c, d, a⟩) m = m.goto c .idle s' := by
  obtain ⟨hd, hcases⟩ := returned_cases fuel c c d a m.mem s' hr
  rcases hcases with ⟨ha, hw, ho, hcnt, rfl⟩ | ⟨ha, hcnt, hfree, rfl⟩ | ⟨ha, ho, hcnt, hn, rfl⟩ |
    ⟨ha, ho, hcnt, hn, rfl⟩
  · refine ⟨6, ?_⟩
    have h3 : (m.mem.load (lockPtrOf d) == 0) = false := by simpa [LockState.lockWord] using hw
    simp [List.replicate, runSchedule, step, hidle, hd, ha, SpinTryLock_eq, h3, ho, hcnt]
  · have hw : m.mem.lockWord d = 0 := by
      rcases hfree with hw | ⟨_, ht⟩
      · exact hw
      · exact absurd ht (token_ne_zero (token_of_core hc))
    refine ⟨5, ?_⟩
    have h3 : (m.mem.load (lockPtrOf d) == 0) = true := by simpa [LockState.lockWord] using hw
    simp [List.replicate, runSchedule, step, hidle, hd, ha, SpinTryLock_eq, h3, hcnt]
  · refine ⟨5, ?_⟩
    simp [List.replicate, runSchedule, step, hidle, hd, ha, ho, hcnt, hn]
  · refine ⟨7, ?_⟩
    simp [List.replicate, runSchedule, step, hidle, hd, ha, ho, hcnt, hn, SpinUnlock]

/-! ## Domain separation -/

theorem FrameOf_refl (c d : Nat) (s : LockState) : FrameOf c d s s :=
  ⟨fun _ _ => rfl, fun _ _ _ => ⟨rfl, rfl⟩⟩

theorem FrameOf_trans (c d : Nat) (s s1 s2 : LockState) (h1 : FrameOf c d s s1)
    (h2 : FrameOf c d s1 s2) : FrameOf c d s s2 :=
  ⟨fun p hp => (h2.1 p hp).trans (h1.1 p hp),
    fun k e hke => ⟨((h2.2 k e hke).1).trans ((h1.2 k e hke).1),
      ((h2.2 k e hke).2).trans ((h1.2 k e hke).2)⟩⟩

theorem FrameOf_store (c d v : Nat) (s : LockState) :
    FrameOf c d s (s.store (lockPtrOf d) v) :=
  ⟨fun _ hp => load_store_ne s v (fun h => hp h.symm),
    fun _ _ _ => by rw [store_ucOwnedByCore, store_ucRecursionCount]; exact ⟨rfl, rfl⟩⟩

theorem FrameOf_setCount (c d v : Nat) (s : LockState) :
    FrameOf c d s { s with ucRecursionCount := setEntry s.ucRecursionCount c d v } :=
  ⟨fun p _ => by cases p <;> rfl, fun k e hke => ⟨rfl, setEntry_other _ _ _ _ _ _ hke⟩⟩

theorem FrameOf_setOwned (c d v : Nat) (s : LockState) :
    FrameOf c d s { s with ucOwnedByCore := setEntry s.ucOwnedByCore c d v } :=
  ⟨fun p _ => by cases p <;> rfl, fun k e hke => ⟨setEntry_other _ _ _ _ _ _ hke, rfl⟩⟩

/-- The loop of `SpinLock` changes at most the lock word it spins on. -/
theorem FrameOf_SpinLock (fuel h c d : Nat) (s : LockState) :
    (∀ s2, SpinLock fuel h (lockPtrOf d) s = .acquired s2 → FrameOf c d s s2) ∧
    (∀ s2, SpinLock fuel h (lockPtrOf d) s = .stillSpinning s2 → FrameOf c d s s2) := by
  induction fuel generalizing s with
  | zero =>
    refine ⟨fun s2 hs => ?_, fun s2 hs => ?_⟩
    · simp [SpinLock] at hs
    · simp only [SpinLock, SpinResult.stillSpinning.injEq] at hs
      subst hs; exact FrameOf_refl c d s
  | succ n ih =>
    have hst := FrameOf_store c d (h + 1) s
    by_cases hw : s.load (lockPtrOf d) = 0
    · have h3 : (s.load (lockPtrOf d) == 0) = true := by simpa using hw
      refine ⟨fun s2 hs => ?_, fun s2 hs => ?_⟩
      · simp only [SpinLock, SpinTryLock_eq, h3, SpinResult.acquired.injEq] at hs
        subst hs; exact hst
      · simp [SpinLock, SpinTryLock_eq, h3] at hs
    · have h3 : (s.load (lockPtrOf d) == 0) = false := by simpa using hw
      refine ⟨fun s2 hs => ?_, fun s2 hs => ?_⟩
      · simp only [SpinLock, SpinTryLock_eq, h3] at hs
        exact FrameOf_trans c d _ _ _ hst ((ih _).1 s2 hs)
      · simp only [SpinLock, SpinTryLock_eq, h3] at hs
        exact FrameOf_trans c d _ _ _ hst ((ih _).2 s2 hs)

theorem FrameOf_freshAcquire (c d : Nat) (s : LockState) :
    FrameOf c d s (freshAcquire c d s).state := by
  by_cases hc : s.ucRecursionCount c d = 0
  · rw [freshAcquire_zero c d s hc]
    exact FrameOf_trans c d _ _ _ (FrameOf_setCount c d 1 s) (FrameOf_setOwned c d 1 _)
  · rw [freshAcquire_nonzero c d s hc]
    exact FrameOf_refl c d s

/-- However a call `vPortRecursiveLock (c, d, ..)` ends, the state it ends in differs
from the state it started in at most in the lock word of `d` and the entries
`[c][d]` of the two tables. -/
theorem FrameOf_vPortRecursiveLock (fuel h c d : Nat) (a : Int) (s : LockState) :
    FrameOf c d s (vPortRecursiveLock fuel h c d a s).state := by
  by_cases hd : d < 2
  swap
  · rw [lockNum_out_of_range fuel h c d a s hd]; exact FrameOf_refl c d s
  by_cases ha : a = 0
  · subst ha
    simp only [vPortRecursiveLock, hd, if_true, ne_eq, not_true_eq_false, if_false]
    split_ifs <;>
    first
    | exact FrameOf_refl c d s
    | exact FrameOf_setCount c d _ s
    | exact FrameOf_trans c d _ _ _
        (FrameOf_trans c d _ _ _ (FrameOf_setCount c d _ s) (FrameOf_setOwned c d 0 _))
        (FrameOf_store c d 0 _)
  · have hst := FrameOf_store c d (h + 1) s
    simp only [vPortRecursiveLock, hd, if_true, ne_eq, ha, not_false_eq_true, SpinTryLock_eq]
    by_cases hw : s.load (lockPtrOf d) = 0
    · have h3 : (s.load (lockPtrOf d) == 0) = true := by simpa using hw
      simp only [h3]
      exact FrameOf_trans c d _ _ _ hst (FrameOf_freshAcquire c d _)
    · have h3 : (s.load (lockPtrOf d) == 0) = false := by simpa using hw
      simp only [h3]
      split_ifs
      · cases hsl : SpinLock fuel h (lockPtrOf d) (s.store (lockPtrOf d) (h + 1)) with
        | acquired s2 =>
          exact FrameOf_trans c d _ _ _
            (FrameOf_trans c d _ _ _ hst ((FrameOf_SpinLock fuel h c d _).1 s2 hsl))
            (FrameOf_freshAcquire c d s2)
        | stillSpinning s2 =>
          exact FrameOf_trans c d _ _ _ hst ((FrameOf_SpinLock fuel h c d _).2 s2 hsl)
      · exact FrameOf_trans c d _ _ _ hst (FrameOf_setCount c d _ _)
      · exact hst

/-- C11. Lock number 0 selects `xIsrLock` and lock number 1 selects `xTaskLock`.  For
every core `c`, domain `d` in {0, 1} and state, a call `vPortRecursiveLock (c, d, ..)`,
enter or exit and however it ends, changes neither the lock word of the other domain
`1 - d`, nor `ucOwnedByCore[k][1 - d]` or `ucRecursionCount[k][1 - d]` for any core
`k`, nor the entries `[k][d]` of the two tables for any core `k != c`. -/
theorem domain_separation (fuel h c d : Nat) (a : Int) (s : LockState) (hd : d < 2) :
    (lockPtrOf 0 = .isrLock ∧ lockPtrOf 1 = .taskLock) ∧
    (vPortRecursiveLock fuel h c d a s).state.lockWord (1 - d) = s.lockWord (1 - d) ∧
    (∀ k, (vPortRecursiveLock fuel h c d a s).state.ucOwnedByCore k (1 - d)
          = s.ucOwnedByCore k (1 - d) ∧
        (vPortRecursiveLock fuel h c d a s).state.ucRecursionCount k (1 - d)
          = s.ucRecursionCount k (1 - d)) ∧
    (∀ k, k ≠ c →
        (vPortRecursiveLock fuel h c d a s).state.ucOwnedByCore k d = s.ucOwnedByCore k d ∧
        (vPortRecursiveLock fuel h c d a s).state.ucRecursionCount k d
          = s.ucRecursionCount k d) := by
  obtain ⟨hw, ht⟩ := FrameOf_vPortRecursiveLock fuel h c d a s
  refine ⟨⟨rfl, rfl⟩, ?_, ?_, ?_⟩
  · exact hw _ (fun hp => by
      have := lockPtrOf_injOn (by omega) hd hp
      omega)
  · intro k
    exact ht k (1 - d) (fun hx => by omega)
  · intro k hk
    exact ht k d (fun hx => hk hx.1)

/-- Witness of `domain_separation`: core 0 re-enters the task domain in
`heldAndContended`; the ISR lock word and the entries of core 1 stay as they are. -/
theorem domain_separation_witness :
    1 < 2 ∧
      (vPortRecursiveLock 0 0 0 1 acquire heldAndContended).state.lockWord (1 - 1)
        = heldAndContended.lockWord (1 - 1) :=
  ⟨by decide, (domain_separation 0 0 0 1 acquire heldAndContended (by decide)).2.1⟩

/-! ## The yield doorbell -/

@[simp] theorem setAt_same {α : Type} (f : Nat → α) (i : Nat) (v : α) : setAt f i v i = v := by
  simp [setAt]

theorem setAt_other {α : Type} (f : Nat → α) (i k : Nat) (v : α) (h : k ≠ i) :
    setAt f i v k = f k := by
  simp [setAt, h]

theorem msip_address (xCoreID : Nat) (h : xCoreID < configNUMBER_OF_CORES) :
    (configMSIP_BASE_ADDRESS + xCoreID * 4) % 2 ^ 32 = configMSIP_BASE_ADDRESS + 4 * xCoreID := by
  unfold configNUMBER_OF_CORES at h
  unfold configMSIP_BASE_ADDRESS CLINT_CTRL_ADDR
  omega

theorem vPortYieldOtherCore_valid (xCoreID : Nat) (s : PortState)
    (h : xCoreID < configNUMBER_OF_CORES) :
    vPortYieldOtherCore xCoreID s
      = ({ s with
            xYieldRequest := setAt s.xYieldRequest xCoreID pdTRUE
            dev32 := setAt s.dev32 (configMSIP_BASE_ADDRESS + 4 * xCoreID) 1 },
          [.storeYieldRequest xCoreID pdTRUE,
            .store32 (configMSIP_BASE_ADDRESS + 4 * xCoreID) 1]) := by
  simp only [vPortYieldOtherCore, h, if_true, msip_address xCoreID h]

/-- C16. For every `xCoreID < configNUMBER_OF_CORES`, `vPortYieldOtherCore (xCoreID)`
first sets `xYieldRequest[xCoreID]` to `pdTRUE` and then writes 1 to the 32-bit word
at `configMSIP_BASE_ADDRESS + 4 * xCoreID`, and these are its only two actions; the
yield request of every other core and every other doorbell word are as before. -/
theorem yield_request_valid_target (xCoreID : Nat) (s : PortState)
    (h : xCoreID < configNUMBER_OF_CORES) :
    (vPortYieldOtherCore xCoreID s).2
        = [.storeYieldRequest xCoreID pdTRUE,
            .store32 (configMSIP_BASE_ADDRESS + 4 * xCoreID) 1] ∧
      (vPortYieldOtherCore xCoreID s).1.xYieldRequest xCoreID = pdTRUE ∧
      (vPortYieldOtherCore xCoreID s).1.dev32 (configMSIP_BASE_ADDRESS + 4 * xCoreID) = 1 ∧
      (∀ k, k ≠ xCoreID →
        (vPortYieldOtherCore xCoreID s).1.xYieldRequest k = s.xYieldRequest k) ∧
      (∀ a, a ≠ configMSIP_BASE_ADDRESS + 4 * xCoreID →
        (vPortYieldOtherCore xCoreID s).1.dev32 a = s.dev32 a) := by
  rw [vPortYieldOtherCore_valid xCoreID s h]
  refine ⟨rfl, setAt_same _ _ _, setAt_same _ _ _, ?_, ?_⟩
  · intro k hk
    exact setAt_other _ _ _ _ hk
  · intro a ha
    exact setAt_other _ _ _ _ ha

/-- Witness of `yield_request_valid_target`: core 2 is asked to yield. -/
theorem yield_request_valid_target_witness :
    2 < configNUMBER_OF_CORES ∧
      (vPortYieldOtherCore 2 initialPort).2
        = [.storeYieldRequest 2 pdTRUE, .store32 (configMSIP_BASE_ADDRESS + 4 * 2) 1] :=
  ⟨by decide, (yield_request_valid_target 2 initialPort (by decide)).1⟩

/-- C17. For every `xCoreID >= configNUMBER_OF_CORES` (the argument is unsigned, a
negative id arrives as a large value), `vPortYieldOtherCore (xCoreID)` returns with
the whole state as it was, `xYieldRequest` included, and without any action: no
doorbell write. -/
theorem yield_request_invalid_target (xCoreID : Nat) (s : PortState)
    (h : configNUMBER_OF_CORES ≤ xCoreID) :
    vPortYieldOtherCore xCoreID s = (s, []) := by
  have h' : ¬ xCoreID < configNUMBER_OF_CORES := by omega
  simp only [vPortYieldOtherCore, h', if_false]

/-- Witness of `yield_request_invalid_target`: the id `-1` as a `UBaseType_t`. -/
theorem yield_request_invalid_target_witness :
    configNUMBER_OF_CORES ≤ 2 ^ 32 - 1 ∧
      vPortYieldOtherCore (2 ^ 32 - 1) initialPort = (initialPort, []) :=
  ⟨by decide, yield_request_invalid_target (2 ^ 32 - 1) initialPort (by decide)⟩

/-! ## Reading the machine timer -/

/-- When the loop of `vPortSetupTimerInterrupt` ends, it ends in the first iteration
`n` in which the two reads of the high half agree, with the halves read in that
iteration. -/
theorem readTimeLoop_sound (reads : Nat → Nat) (fuel i hi lo : Nat) (evs : List PortEvent)
    (hr : readTimeLoop reads fuel i = some (hi, lo, evs)) :
    ∃ n, n < fuel ∧
      (∀ j, j < n → reads (i + 3 * j) % 2 ^ 32 ≠ reads (i + 3 * j + 2) % 2 ^ 32) ∧
      reads (i + 3 * n) % 2 ^ 32 = reads (i + 3 * n + 2) % 2 ^ 32 ∧
      hi = reads (i + 3 * n) % 2 ^ 32 ∧ lo = reads (i + 3 * n + 1) % 2 ^ 32 ∧
      evs.length = 3 * (n + 1) := by
  induction fuel generalizing i hi lo evs with
  | zero => simp [readTimeLoop] at hr
  | succ f ih =>
    simp only [readTimeLoop] at hr
    by_cases hs : reads i % 2 ^ 32 = reads (i + 2) % 2 ^ 32
    · simp only [hs, ne_eq, not_true_eq_false, if_false, Option.some.injEq, Prod.mk.injEq] at hr
      obtain ⟨h1, h2, h3⟩ := hr
      refine ⟨0, by omega, fun j hj => by omega, by simpa using hs, ?_, ?_, ?_⟩
      · simpa using h1.symm.trans hs.symm
      · simpa using h2.symm
      · rw [← h3]; rfl
    · simp only [ne_eq, hs, not_false_eq_true, if_true] at hr
      cases hrec : readTimeLoop reads f (i + 3) with
      | none => rw [hrec] at hr; cases hr
      | some r =>
        obtain ⟨h', l', rest⟩ := r
        rw [hrec] at hr
        simp only [Option.some.injEq, Prod.mk.injEq] at hr
        obtain ⟨h1, h2, h3⟩ := hr
        obtain ⟨n, hn, hne, hst, ehi, elo, elen⟩ := ih (i + 3) h' l' rest hrec
        refine ⟨n + 1, by omega, ?_, ?_, ?_, ?_, ?_⟩
        · intro j hj
          cases j with
          | zero => simpa using hs
          | succ j =>
            have := hne j (by omega)
            rw [show i + 3 * (j + 1) = i + 3 + 3 * j by omega]
            exact this
        · rw [show i + 3 * (n + 1) = i + 3 + 3 * n by omega]; exact hst
        · rw [show i + 3 * (n + 1) = i + 3 + 3 * n by omega, ← h1]; exact ehi
        · rw [show i + 3 * (n + 1) = i + 3 + 3 * n by omega, ← h2]; exact elo
        · rw [← h3]
          simp only [List.cons_append, List.nil_append, List.length_cons, elen]
          omega

/-- The loop of `vPortSetupTimerInterrupt` ends as soon as an iteration reads the
same high half twice, if the fuel reaches that far. -/
theorem readTimeLoop_complete (reads : Nat → Nat) (n fuel i : Nat) (hn : n < fuel)
    (hne : ∀ j, j < n → reads (i + 3 * j) % 2 ^ 32 ≠ reads (i + 3 * j + 2) % 2 ^ 32)
    (hst : reads (i + 3 * n) % 2 ^ 32 = reads (i + 3 * n + 2) % 2 ^ 32) :
    ∃ evs, readTimeLoop reads fuel i
      = some (reads (i + 3 * n) % 2 ^ 32, reads (i + 3 * n + 1) % 2 ^ 32, evs) := by
  induction n generalizing fuel i with
  | zero =>
    obtain ⟨f, rfl⟩ : ∃ f, fuel = f + 1 := ⟨fuel - 1, by omega⟩
    simp only [Nat.mul_zero, Nat.add_zero] at hst ⊢
    have hs : ¬ (reads i % 2 ^ 32 ≠ reads (i + 2) % 2 ^ 32) := by simpa using hst
    refine ⟨[.load32 ((configMTIME_BASE_ADDRESS + 4) % 2 ^ 32) (reads i % 2 ^ 32),
      .load32 (configMTIME_BASE_ADDRESS % 2 ^ 32) (reads (i + 1) % 2 ^ 32),
      .load32 ((configMTIME_BASE_ADDRESS + 4) % 2 ^ 32) (reads (i + 2) % 2 ^ 32)], ?_⟩
    simp only [readTimeLoop]
    rw [if_neg hs]
  | succ n ih =>
    obtain ⟨f, rfl⟩ : ∃ f, fuel = f + 1 := ⟨fuel - 1, by omega⟩
    have hs : reads i % 2 ^ 32 ≠ reads (i + 2) % 2 ^ 32 := by simpa using hne 0 (by omega)
    obtain ⟨rest, hrest⟩ := ih f (i + 3) (by omega)
      (fun j hj => by
        have := hne (j + 1) (by omega)
        rw [show i + 3 * (j + 1) = i + 3 + 3 * j by omega] at this
        exact this)
      (by rw [show i + 3 + 3 * n = i + 3 * (n + 1) by omega]; exact hst)
    rw [show i + 3 + 3 * n = i + 3 * (n + 1) by omega] at hrest
    refine ⟨[.load32 ((configMTIME_BASE_ADDRESS + 4) % 2 ^ 32) (reads i % 2 ^ 32),
      .load32 (configMTIME_BASE_ADDRESS % 2 ^ 32) (reads (i + 1) % 2 ^ 32),
      .load32 ((configMTIME_BASE_ADDRESS + 4) % 2 ^ 32) (reads (i + 2) % 2 ^ 32)] ++ rest, ?_⟩
    simp only [readTimeLoop]
    rw [if_pos hs, hrest]

/-- The loop of `vPortSetupTimerInterrupt` only reads device registers. -/
theorem readTimeLoop_loads (reads : Nat → Nat) (fuel i hi lo : Nat) (evs : List PortEvent)
    (hr : readTimeLoop reads fuel i = some (hi, lo, evs)) :
    ∀ e ∈ evs, ∃ a v, e = .load32 a v := by
  induction fuel generalizing i hi lo evs with
  | zero => simp [readTimeLoop] at hr
  | succ f ih =>
    simp only [readTimeLoop] at hr
    by_cases hs : reads i % 2 ^ 32 = reads (i + 2) % 2 ^ 32
    · simp only [hs, ne_eq, not_true_eq_false, if_false, Option.some.injEq, Prod.mk.injEq] at hr
      obtain ⟨_, _, h3⟩ := hr
      subst h3
      intro e he
      simp only [List.mem_cons, List.mem_singleton, List.not_mem_nil, or_false] at he
      rcases he with rfl | rfl | rfl <;> exact ⟨_, _, rfl⟩
    · simp only [ne_eq, hs, not_false_eq_true, if_true] at hr
      cases hrec : readTimeLoop reads f (i + 3) with
      | none => rw [hrec] at hr; cases hr
      | some r =>
        obtain ⟨h', l', rest⟩ := r
        rw [hrec] at hr
        simp only [Option.some.injEq, Prod.mk.injEq] at hr
        obtain ⟨_, _, h3⟩ := hr
        subst h3
        intro e he
        simp only [List.cons_append, List.nil_append, List.mem_cons] at he
        rcases he with rfl | rfl | rfl | he
        · exact ⟨_, _, rfl⟩
        · exact ⟨_, _, rfl⟩
        · exact ⟨_, _, rfl⟩
        · exact ih (i + 3) h' l' rest hrec e he

/-- Shifting the high half and or-ing the low half in gives `high * 2 ^ 32 + low`. -/
theorem assembleTime_eq (hi lo : Nat) (hhi : hi < 2 ^ 32) (hlo : lo < 2 ^ 32) :
    assembleTime hi lo = hi * 2 ^ 32 + lo ∧ assembleTime hi lo = (hi <<< 32) ||| lo := by
  have h1 : hi % 2 ^ 64 = hi := Nat.mod_eq_of_lt (by omega)
  have h2 : lo % 2 ^ 64 = lo := Nat.mod_eq_of_lt (by omega)
  have h3 : (hi <<< 32) % 2 ^ 64 = hi <<< 32 := by
    rw [Nat.shiftLeft_eq]; exact Nat.mod_eq_of_lt (by omega)
  unfold assembleTime
  rw [h1, h2, h3]
  refine ⟨?_, rfl⟩
  rw [Nat.shiftLeft_eq, Nat.mul_comm hi, ← Nat.mul_add_lt_is_or hlo hi]

theorem uxTimerIncrementsForOneTick_eq :
    uxTimerIncrementsForOneTick = configCPU_CLOCK_HZ / configTICK_RATE_HZ ∧
      uxTimerIncrementsForOneTick = 500000 := by
  decide

theorem mtimecmp_address (h : Nat) (hh : h < configNUMBER_OF_CORES) :
    (ullMachineTimerCompareRegisterBase + 8 * (rtos_core_id_get h % 2 ^ 32)) % 2 ^ 32
      = configMTIMECMP_BASE_ADDRESS + 8 * h := by
  unfold configNUMBER_OF_CORES at hh
  unfold ullMachineTimerCompareRegisterBase configMTIMECMP_BASE_ADDRESS CLINT_CTRL_ADDR
    rtos_core_id_get
  omega

/-- What `vPortSetupTimerInterrupt` does on a core `h` once its loop has ended with
the halves `hi`, `lo`. -/
theorem vPortSetupTimerInterrupt_eq (fuel h hi lo : Nat) (reads : Nat → Nat) (s : PortState)
    (evs : List PortEvent) (hh : h < configNUMBER_OF_CORES)
    (hr : readTimeLoop reads fuel 0 = some (hi, lo, evs)) :
    vPortSetupTimerInterrupt fuel h reads s
      = some ({ s with
            pullMachineTimerCompareRegister := ullMachineTimerCompareRegisterBase
            ullNextTime := (hi * 2 ^ 32 + lo + 2 * uxTimerIncrementsForOneTick) % 2 ^ 64
            dev64 := setAt s.dev64 (configMTIMECMP_BASE_ADDRESS + 8 * h)
              ((hi * 2 ^ 32 + lo + uxTimerIncrementsForOneTick) % 2 ^ 64) },
          evs ++ [.store64 (configMTIMECMP_BASE_ADDRESS + 8 * h)
            ((hi * 2 ^ 32 + lo + uxTimerIncrementsForOneTick) % 2 ^ 64)]) := by
  obtain ⟨n, _, _, _, ehi, elo, _⟩ := readTimeLoop_sound reads fuel 0 hi lo evs hr
  have hhi : hi < 2 ^ 32 := by rw [ehi]; exact Nat.mod_lt _ (by decide)
  have hlo : lo < 2 ^ 32 := by rw [elo]; exact Nat.mod_lt _ (by decide)
  have e2 : ((hi * 2 ^ 32 + lo + uxTimerIncrementsForOneTick) % 2 ^ 64
      + uxTimerIncrementsForOneTick) % 2 ^ 64
      = (hi * 2 ^ 32 + lo + 2 * uxTimerIncrementsForOneTick) % 2 ^ 64 := by omega
  simp only [vPortSetupTimerInterrupt, hr, (assembleTime_eq hi lo hhi hlo).1,
    mtimecmp_address h hh, e2]

/-! ## Arming the tick timer -/

/-- C12. For every hart id `h` below `configNUMBER_OF_CORES` and every time
`T = hi * 2 ^ 32 + lo` with which the read loop of `vPortSetupTimerInterrupt` ends,
the call returns; afterwards the 64-bit word at `configMTIMECMP_BASE_ADDRESS + 8 * h`
holds `(T + I) mod 2 ^ 64` and `ullNextTime` holds `(T + 2 * I) mod 2 ^ 64`, with
`I = uxTimerIncrementsForOneTick = configCPU_CLOCK_HZ / configTICK_RATE_HZ`; the
compare registers of all other harts (all other 64-bit device words) are unchanged. -/
theorem arm_next_tick_postcondition (fuel h hi lo : Nat) (reads : Nat → Nat) (s : PortState)
    (evs : List PortEvent) (hh : h < configNUMBER_OF_CORES)
    (hr : readTimeLoop reads fuel 0 = some (hi, lo, evs)) :
    uxTimerIncrementsForOneTick = configCPU_CLOCK_HZ / configTICK_RATE_HZ ∧
    ∃ s' evs', vPortSetupTimerInterrupt fuel h reads s = some (s', evs') ∧
      s'.dev64 (configMTIMECMP_BASE_ADDRESS + 8 * h)
        = (hi * 2 ^ 32 + lo + configCPU_CLOCK_HZ / configTICK_RATE_HZ) % 2 ^ 64 ∧
      s'.ullNextTime
        = (hi * 2 ^ 32 + lo + 2 * (configCPU_CLOCK_HZ / configTICK_RATE_HZ)) % 2 ^ 64 ∧
      (∀ k, k ≠ h →
        s'.dev64 (configMTIMECMP_BASE_ADDRESS + 8 * k)
          = s.dev64 (configMTIMECMP_BASE_ADDRESS + 8 * k)) ∧
      (∀ a, a ≠ configMTIMECMP_BASE_ADDRESS + 8 * h → s'.dev64 a = s.dev64 a) := by
  have hI := uxTimerIncrementsForOneTick_eq.1
  refine ⟨hI, _, _, vPortSetupTimerInterrupt_eq fuel h hi lo reads s evs hh hr, ?_, ?_, ?_, ?_⟩
  · rw [← hI]; exact setAt_same _ _ _
  · rw [← hI]
  · intro k hk
    exact setAt_other _ _ _ _ (by omega)
  · intro a ha
    exact setAt_other _ _ _ _ ha

/-- Witness of `arm_next_tick_postcondition`: hart 2, the timer passing from
`0x0_FFFFFFFF` to `0x1_00000000` during the reads. -/
theorem arm_next_tick_postcondition_witness :
    (2 < configNUMBER_OF_CORES ∧
      readTimeLoop carryTime 2 0 = some (1, 0,
        [.load32 0xF000BFFC 0, .load32 0xF000BFF8 0xFFFFFFFF, .load32 0xF000BFFC 1,
          .load32 0xF000BFFC 1, .load32 0xF000BFF8 0, .load32 0xF000BFFC 1])) ∧
    ∃ s' evs', vPortSetupTimerInterrupt 2 2 carryTime initialPort = some (s', evs') ∧
      s'.dev64 (configMTIMECMP_BASE_ADDRESS + 8 * 2)
        = (1 * 2 ^ 32 + 0 + configCPU_CLOCK_HZ / configTICK_RATE_HZ) % 2 ^ 64 ∧
      s'.ullNextTime
        = (1 * 2 ^ 32 + 0 + 2 * (configCPU_CLOCK_HZ / configTICK_RATE_HZ)) % 2 ^ 64 :=
  ⟨⟨by decide, by decide⟩,
    by
      obtain ⟨_, s', evs', h1, h2, h3, _⟩ :=
        arm_next_tick_postcondition 2 2 1 0 carryTime initialPort _ (by decide)
          (show readTimeLoop carryTime 2 0 = some (1, 0,
            [.load32 0xF000BFFC 0, .load32 0xF000BFF8 0xFFFFFFFF, .load32 0xF000BFFC 1,
              .load32 0xF000BFFC 1, .load32 0xF000BFF8 0, .load32 0xF000BFFC 1]) by decide)
      exact ⟨s', evs', h1, h2, h3⟩⟩

/-- C13, as stated, fails.  The first call at hardware time 0 does program 500,000
and leave `ullNextTime` at 1,000,000; but a following call does not use the tracked
value, it reads the timer again: with the timer still reading 0 it programs 500,000
again and leaves 1,000,000, not 1,000,000 and 1,500,000. -/
theorem second_arm_rereads_the_timer :
    (vPortSetupTimerInterrupt 1 0 zeroTime initialPort).map
        (fun r => (r.1.dev64 configMTIMECMP_BASE_ADDRESS, r.1.ullNextTime))
      = some (500000, 1000000) ∧
    armedAtZero.ullNextTime = 1000000 ∧
    (vPortSetupTimerInterrupt 1 0 zeroTime armedAtZero).map
        (fun r => (r.1.dev64 configMTIMECMP_BASE_ADDRESS, r.1.ullNextTime))
      = some (500000, 1000000) ∧
    (vPortSetupTimerInterrupt 1 0 zeroTime armedAtZero).map
        (fun r => (r.1.dev64 configMTIMECMP_BASE_ADDRESS, r.1.ullNextTime))
      ≠ some (1000000, 1500000) := by
  decide

/-- C13, amended.  With the configured tick increment 500,000 and the hardware time
reading 0, the first call of `vPortSetupTimerInterrupt` (on a core `h`, from the
initial state) programs the compare value 500,000 and leaves `ullNextTime` at
1,000,000.  A following call reads the hardware time again: when it reads `T`, it
programs `(T + 500,000) mod 2 ^ 64` and leaves `(T + 1,000,000) mod 2 ^ 64`; these are
1,000,000 and 1,500,000 exactly when `T` is 500,000, the first deadline. -/
theorem tick_scenario (fuel h hi lo : Nat) (reads : Nat → Nat) (evs : List PortEvent)
    (hh : h < configNUMBER_OF_CORES) (hf : 0 < fuel)
    (hr : readTimeLoop reads fuel 0 = some (hi, lo, evs)) :
    configCPU_CLOCK_HZ / configTICK_RATE_HZ = 500000 ∧
    ∃ s1 evs1, vPortSetupTimerInterrupt fuel h zeroTime initialPort = some (s1, evs1) ∧
      s1.dev64 (configMTIMECMP_BASE_ADDRESS + 8 * h) = 500000 ∧
      s1.ullNextTime = 1000000 ∧
      ∃ s2 evs2, vPortSetupTimerInterrupt fuel h reads s1 = some (s2, evs2) ∧
        s2.dev64 (configMTIMECMP_BASE_ADDRESS + 8 * h)
          = (hi * 2 ^ 32 + lo + 500000) % 2 ^ 64 ∧
        s2.ullNextTime = (hi * 2 ^ 32 + lo + 1000000) % 2 ^ 64 ∧
        ((s2.dev64 (configMTIMECMP_BASE_ADDRESS + 8 * h) = 1000000 ∧
            s2.ullNextTime = 1500000) ↔ hi * 2 ^ 32 + lo = 500000) := by
  obtain ⟨n, _, _, _, ehi, elo, _⟩ := readTimeLoop_sound reads fuel 0 hi lo evs hr
  have hhi : hi < 2 ^ 32 := by rw [ehi]; exact Nat.mod_lt _ (by decide)
  have hlo : lo < 2 ^ 32 := by rw [elo]; exact Nat.mod_lt _ (by decide)
  have hI := uxTimerIncrementsForOneTick_eq.2
  obtain ⟨evs0, hr0⟩ := readTimeLoop_complete zeroTime 0 fuel 0 hf (fun j hj => by omega) rfl
  have hr0' : readTimeLoop zeroTime fuel 0 = some (0, 0, evs0) := hr0
  have c1 := vPortSetupTimerInterrupt_eq fuel h 0 0 zeroTime initialPort evs0 hh hr0'
  refine ⟨by decide, _, _, c1, ?_, ?_, ?_⟩
  · simp only [setAt_same, hI]
    omega
  · simp only [hI]
    omega
  · refine ⟨_, _, vPortSetupTimerInterrupt_eq fuel h hi lo reads _ evs hh hr, ?_, ?_, ?_⟩
    · simp only [setAt_same, hI]
    · simp only [hI]
    · simp only [setAt_same, hI]
      omega

/-- Witness of `tick_scenario`: the second call is made at hardware time 500,000 (the
high half reads 0, the low half 500,000). -/
theorem tick_scenario_witness :
    (0 < configNUMBER_OF_CORES ∧ 0 < 1 ∧
      readTimeLoop (fun i => [0, 500000, 0].getD i 0) 1 0 = some (0, 500000,
        [.load32 0xF000BFFC 0, .load32 0xF000BFF8 500000, .load32 0xF000BFFC 0])) ∧
    ∃ s1 evs1, vPortSetupTimerInterrupt 1 0 zeroTime initialPort = some (s1, evs1) ∧
      s1.dev64 (configMTIMECMP_BASE_ADDRESS + 8 * 0) = 500000 ∧
      s1.ullNextTime = 1000000 ∧
      ∃ s2 evs2,
        vPortSetupTimerInterrupt 1 0 (fun i => [0, 500000, 0].getD i 0) s1 = some (s2, evs2) ∧
        s2.dev64 (configMTIMECMP_BASE_ADDRESS + 8 * 0) = (0 * 2 ^ 32 + 500000 + 500000) % 2 ^ 64 ∧
        s2.ullNextTime = (0 * 2 ^ 32 + 500000 + 1000000) % 2 ^ 64 ∧
        ((s2.dev64 (configMTIMECMP_BASE_ADDRESS + 8 * 0) = 1000000 ∧
            s2.ullNextTime = 1500000) ↔ 0 * 2 ^ 32 + 500000 = 500000) :=
  ⟨⟨by decide, by decide, by decide⟩,
    (tick_scenario 1 0 0 500000 (fun i => [0, 500000, 0].getD i 0) _ (by decide) (by decide)
      (show readTimeLoop (fun i => [0, 500000, 0].getD i 0) 1 0 = some (0, 500000,
        [.load32 0xF000BFFC 0, .load32 0xF000BFF8 500000, .load32 0xF000BFFC 0])
        by decide)).2⟩

/-- C15, as stated, fails.  With `ullNextTime` holding 2,000,000 and the hardware time
reading 0, a call of `vPortSetupTimerInterrupt` leaves `ullNextTime` at 1,000,000,
below its value before the call; and called twice with the timer reading 0 it leaves
1,000,000 both times, which is no strict increase either. -/
theorem next_deadline_can_decrease :
    deadlineAhead.ullNextTime = 2000000 ∧
    (vPortSetupTimerInterrupt 1 0 zeroTime deadlineAhead).map (fun r => r.1.ullNextTime)
      = some 1000000 ∧
    (vPortSetupTimerInterrupt 1 0 zeroTime deadlineAhead).map
        (fun r => decide (deadlineAhead.ullNextTime < r.1.ullNextTime))
      = some false ∧
    (vPortSetupTimerInterrupt 1 0 zeroTime armedAtZero).map
        (fun r => decide (armedAtZero.ullNextTime < r.1.ullNextTime))
      = some false := by
  decide

/-- C15, amended.  A call of `vPortSetupTimerInterrupt` that reads the hardware time
`T = hi * 2 ^ 32 + lo` leaves `ullNextTime` at `(T + 2 * I) mod 2 ^ 64` whatever its
value `p` before the call; that is strictly greater than `p` exactly when
`p < (T + 2 * I) mod 2 ^ 64`.  It is so in particular when `p` was left by an earlier
call that read an earlier time `T0 < T` and `T + 2 * I` does not pass `2 ^ 64`. -/
theorem next_deadline_follows_the_timer (fuel h hi lo : Nat) (reads : Nat → Nat)
    (s : PortState) (evs : List PortEvent) (hh : h < configNUMBER_OF_CORES)
    (hr : readTimeLoop reads fuel 0 = some (hi, lo, evs)) :
    ∃ s' evs', vPortSetupTimerInterrupt fuel h reads s = some (s', evs') ∧
      s'.ullNextTime = (hi * 2 ^ 32 + lo + 2 * uxTimerIncrementsForOneTick) % 2 ^ 64 ∧
      (s.ullNextTime < s'.ullNextTime ↔
        s.ullNextTime < (hi * 2 ^ 32 + lo + 2 * uxTimerIncrementsForOneTick) % 2 ^ 64) ∧
      (∀ fuel0 h0 hi0 lo0 reads0 s0 evs0 e0, h0 < configNUMBER_OF_CORES →
        readTimeLoop reads0 fuel0 0 = some (hi0, lo0, evs0) →
        vPortSetupTimerInterrupt fuel0 h0 reads0 s0 = some (s, e0) →
        hi0 * 2 ^ 32 + lo0 < hi * 2 ^ 32 + lo →
        hi * 2 ^ 32 + lo + 2 * uxTimerIncrementsForOneTick < 2 ^ 64 →
        s.ullNextTime < s'.ullNextTime) := by
  refine ⟨_, _, vPortSetupTimerInterrupt_eq fuel h hi lo reads s evs hh hr, rfl, Iff.rfl, ?_⟩
  intro fuel0 h0 hi0 lo0 reads0 s0 evs0 e0 hh0 hr0 hcall hlt hno
  rw [vPortSetupTimerInterrupt_eq fuel0 h0 hi0 lo0 reads0 s0 evs0 hh0 hr0] at hcall
  simp only [Option.some.injEq, Prod.mk.injEq] at hcall
  obtain ⟨hs, _⟩ := hcall
  subst hs
  show (hi0 * 2 ^ 32 + lo0 + 2 * uxTimerIncrementsForOneTick) % 2 ^ 64
    < (hi * 2 ^ 32 + lo + 2 * uxTimerIncrementsForOneTick) % 2 ^ 64
  omega

/-- Witness of `next_deadline_follows_the_timer`: hart 0, the timer reading 0, from
the state `deadlineAhead`. -/
theorem next_deadline_follows_the_timer_witness :
    (0 < configNUMBER_OF_CORES ∧
      readTimeLoop zeroTime 1 0 = some (0, 0,
        [.load32 0xF000BFFC 0, .load32 0xF000BFF8 0, .load32 0xF000BFFC 0])) ∧
    ∃ s' evs', vPortSetupTimerInterrupt 1 0 zeroTime deadlineAhead = some (s', evs') ∧
      s'.ullNextTime = (0 * 2 ^ 32 + 0 + 2 * uxTimerIncrementsForOneTick) % 2 ^ 64 :=
  ⟨⟨by decide, by decide⟩,
    by
      obtain ⟨s', evs', h1, h2, _⟩ :=
        next_deadline_follows_the_timer 1 0 0 0 zeroTime deadlineAhead _ (by decide)
          (show readTimeLoop zeroTime 1 0 = some (0, 0,
            [.load32 0xF000BFFC 0, .load32 0xF000BFF8 0, .load32 0xF000BFFC 0]) by decide)
      exact ⟨s', evs', h1, h2⟩⟩

theorem vPortSetupTimerInterrupt_none (fuel h : Nat) (reads : Nat → Nat) (s : PortState)
    (hr : readTimeLoop reads fuel 0 = none) : vPortSetupTimerInterrupt fuel h reads s = none := by
  simp only [vPortSetupTimerInterrupt, hr]

/-- C14. Let `reads 0, reads 1, reads 2, ...` be the values the successive reads of the
counter halves return (high, low, high in each iteration of the loop).  If
`vPortSetupTimerInterrupt` returns, its loop ended in the first iteration `n` whose
second read of the high half equals the first, and the time it uses is
`(h << 32) | l` with `h` and `l` the halves read in that same iteration: the compare
register is programmed with that time plus one tick increment.  Conversely it
returns whenever such an iteration comes within the fuel.  On the sequence
`0, 0xFFFFFFFF, 1` then `1, 0, 1` one iteration is not enough, the second settles on
`0x0000000100000000`. -/
theorem tear_free_time_read (fuel h : Nat) (reads : Nat → Nat) (s : PortState)
    (hh : h < configNUMBER_OF_CORES) :
    (∀ s' evs, vPortSetupTimerInterrupt fuel h reads s = some (s', evs) →
      ∃ n, n < fuel ∧
        (∀ j, j < n → reads (3 * j) % 2 ^ 32 ≠ reads (3 * j + 2) % 2 ^ 32) ∧
        reads (3 * n + 2) % 2 ^ 32 = reads (3 * n) % 2 ^ 32 ∧
        s'.dev64 (configMTIMECMP_BASE_ADDRESS + 8 * h)
          = ((((reads (3 * n) % 2 ^ 32) <<< 32) ||| (reads (3 * n + 1) % 2 ^ 32))
              + uxTimerIncrementsForOneTick) % 2 ^ 64 ∧
        evs.length = 3 * (n + 1) + 1) ∧
    (∀ n, n < fuel →
      (∀ j, j < n → reads (3 * j) % 2 ^ 32 ≠ reads (3 * j + 2) % 2 ^ 32) →
      reads (3 * n + 2) % 2 ^ 32 = reads (3 * n) % 2 ^ 32 →
      ∃ s' evs, vPortSetupTimerInterrupt fuel h reads s = some (s', evs) ∧
        s'.dev64 (configMTIMECMP_BASE_ADDRESS + 8 * h)
          = ((((reads (3 * n) % 2 ^ 32) <<< 32) ||| (reads (3 * n + 1) % 2 ^ 32))
              + uxTimerIncrementsForOneTick) % 2 ^ 64) ∧
    ((vPortSetupTimerInterrupt 1 0 carryTime initialPort).isNone = true ∧
      (vPortSetupTimerInterrupt 2 0 carryTime initialPort).map
          (fun r => (r.1.dev64 configMTIMECMP_BASE_ADDRESS, r.2.length))
        = some (0x0000000100000000 + uxTimerIncrementsForOneTick, 7)) := by
  have hmod : ∀ k, reads k % 2 ^ 32 < 2 ^ 32 := fun k => Nat.mod_lt _ (by decide)
  refine ⟨?_, ?_, by decide, by decide⟩
  · intro s' evs hcall
    cases hrl : readTimeLoop reads fuel 0 with
    | none => rw [vPortSetupTimerInterrupt_none fuel h reads s hrl] at hcall; cases hcall
    | some r =>
      obtain ⟨hi, lo, e⟩ := r
      obtain ⟨n, hn, hne, hst, ehi, elo, elen⟩ := readTimeLoop_sound reads fuel 0 hi lo e hrl
      simp only [Nat.zero_add] at hne hst ehi elo
      rw [vPortSetupTimerInterrupt_eq fuel h hi lo reads s e hh hrl] at hcall
      simp only [Option.some.injEq, Prod.mk.injEq] at hcall
      obtain ⟨hs, he⟩ := hcall
      subst hs he
      refine ⟨n, hn, hne, hst.symm, ?_, ?_⟩
      · have ha := assembleTime_eq hi lo (ehi ▸ hmod _) (elo ▸ hmod _)
        rw [← ehi, ← elo, ← ha.2, ha.1]
        exact setAt_same _ _ _
      · simp only [List.length_append, elen, List.length_cons, List.length_nil]
  · intro n hn hne hst
    obtain ⟨e, hrl⟩ := readTimeLoop_complete reads n fuel 0 hn
      (by simpa only [Nat.zero_add] using hne) (by simpa only [Nat.zero_add] using hst.symm)
    simp only [Nat.zero_add] at hrl
    refine ⟨_, _, vPortSetupTimerInterrupt_eq fuel h _ _ reads s e hh hrl, ?_⟩
    have ha := assembleTime_eq _ _ (hmod (3 * n)) (hmod (3 * n + 1))
    rw [← ha.2, ha.1]
    exact setAt_same _ _ _

/-- Witness of `tear_free_time_read`: hart 0 reads the sequence `carryTime`; the
iteration in which the loop ends is the second one. -/
theorem tear_free_time_read_witness :
    0 < configNUMBER_OF_CORES ∧
    ∃ s' evs, vPortSetupTimerInterrupt 2 0 carryTime initialPort = some (s', evs) ∧
      s'.dev64 (configMTIMECMP_BASE_ADDRESS + 8 * 0)
        = ((((carryTime (3 * 1) % 2 ^ 32) <<< 32) ||| (carryTime (3 * 1 + 1) % 2 ^ 32))
            + uxTimerIncrementsForOneTick) % 2 ^ 64 :=
  ⟨by decide,
    (tear_free_time_read 2 0 carryTime initialPort (by decide)).2.1 1 (by decide)
      (by
        intro j hj
        have hj0 : j = 0 := by omega
        subst hj0
        decide)
      (by decide)⟩

/-! ## Bring-up of the primary core -/

/-- What `xPortStartScheduler` does on a core `h` once the read loop of the timer has
ended with the halves `hi`, `lo`. -/
theorem xPortStartScheduler_eq (fuel h trap hi lo : Nat) (reads : Nat → Nat) (s : PortState)
    (evs : List PortEvent) (hh : h < configNUMBER_OF_CORES)
    (hr : readTimeLoop reads fuel 0 = some (hi, lo, evs)) :
    xPortStartScheduler fuel h trap reads s
      = some (pdFAIL,
          { s with
            mtvec := setAt s.mtvec h (trap % 2 ^ 32)
            pullMachineTimerCompareRegister := ullMachineTimerCompareRegisterBase
            ullNextTime := (hi * 2 ^ 32 + lo + 2 * uxTimerIncrementsForOneTick) % 2 ^ 64
            dev64 := setAt s.dev64 (configMTIMECMP_BASE_ADDRESS + 8 * h)
              ((hi * 2 ^ 32 + lo + uxTimerIncrementsForOneTick) % 2 ^ 64)
            ullPortSchedularRunning := 1
            mie := setAt s.mie h (s.mie h ||| 0x88) },
          [.csrw .mtvec (trap % 2 ^ 32)]
            ++ (evs ++ [.store64 (configMTIMECMP_BASE_ADDRESS + 8 * h)
                ((hi * 2 ^ 32 + lo + uxTimerIncrementsForOneTick) % 2 ^ 64)])
            ++ [.storeRunning 1, .csrs .mie 0x88, .call .xPortStartFirstTask]) := by
  simp only [xPortStartScheduler, vPortSetupTimerInterrupt_eq fuel h hi lo reads _ evs hh hr]

theorem xPortStartScheduler_none (fuel h trap : Nat) (reads : Nat → Nat) (s : PortState)
    (hr : readTimeLoop reads fuel 0 = none) :
    xPortStartScheduler fuel h trap reads s = none := by
  simp only [xPortStartScheduler, vPortSetupTimerInterrupt_none fuel h reads _ hr]

/-- C19. The actions of `xPortStartScheduler` on the primary core `h` are, in this
order and with nothing else: the write of the trap handler address to `mtvec`; the
arming of the tick timer by `vPortSetupTimerInterrupt`, that is the reads of the
machine timer followed by the write of `T + I` to the compare register of core `h`
itself; the store of `true` to `ullPortSchedularRunning`; `csrs mie, 0x88`; the call
of `xPortStartFirstTask`.  So the flag is not set before the timer is armed and the
interrupts are not enabled before the flag is set.  While the read loop of the timer
has not ended, none of the later actions happens. -/
theorem primary_bring_up_order (fuel h trap : Nat) (reads : Nat → Nat) (s : PortState)
    (hh : h < configNUMBER_OF_CORES) :
    (∀ hi lo evs, readTimeLoop reads fuel 0 = some (hi, lo, evs) →
      ∃ s', xPortStartScheduler fuel h trap reads s
          = some (pdFAIL, s',
              [.csrw .mtvec (trap % 2 ^ 32)]
                ++ (evs ++ [.store64 (configMTIMECMP_BASE_ADDRESS + 8 * h)
                    ((hi * 2 ^ 32 + lo + uxTimerIncrementsForOneTick) % 2 ^ 64)])
                ++ [.storeRunning 1, .csrs .mie 0x88, .call .xPortStartFirstTask]) ∧
        (∀ e ∈ evs, ∃ a v, e = .load32 a v) ∧
        s'.mtvec h = trap % 2 ^ 32 ∧
        s'.dev64 (configMTIMECMP_BASE_ADDRESS + 8 * h)
          = (hi * 2 ^ 32 + lo + uxTimerIncrementsForOneTick) % 2 ^ 64 ∧
        s'.ullPortSchedularRunning = 1 ∧
        s'.mie h = s.mie h ||| 0x88) ∧
    (readTimeLoop reads fuel 0 = none → xPortStartScheduler fuel h trap reads s = none) := by
  refine ⟨?_, xPortStartScheduler_none fuel h trap reads s⟩
  intro hi lo evs hr
  refine ⟨_, xPortStartScheduler_eq fuel h trap hi lo reads s evs hh hr,
    readTimeLoop_loads reads fuel 0 hi lo evs hr, ?_, ?_, rfl, ?_⟩
  · exact setAt_same _ _ _
  · exact setAt_same _ _ _
  · exact setAt_same _ _ _

/-- Witness of `primary_bring_up_order`: hart 0, trap handler at `0x80000100`, the
timer reading 0. -/
theorem primary_bring_up_order_witness :
    0 < configNUMBER_OF_CORES ∧
    ∃ s', xPortStartScheduler 1 0 0x80000100 zeroTime initialPort
        = some (pdFAIL, s',
            [.csrw .mtvec (0x80000100 % 2 ^ 32)]
              ++ ([.load32 0xF000BFFC 0, .load32 0xF000BFF8 0, .load32 0xF000BFFC 0]
                ++ [.store64 (configMTIMECMP_BASE_ADDRESS + 8 * 0)
                  ((0 * 2 ^ 32 + 0 + uxTimerIncrementsForOneTick) % 2 ^ 64)])
              ++ [.storeRunning 1, .csrs .mie 0x88, .call .xPortStartFirstTask]) ∧
      s'.ullPortSchedularRunning = 1 :=
  ⟨by decide,
    by
      obtain ⟨s', h1, _, _, _, h5, _⟩ :=
        (primary_bring_up_order 1 0 0x80000100 zeroTime initialPort (by decide)).1 0 0
          [.load32 0xF000BFFC 0, .load32 0xF000BFF8 0, .load32 0xF000BFFC 0] (by decide)
      exact ⟨s', h1, h5⟩⟩

/-- C20. The code at the input "hart 0, trap handler at `0x80000100`, the timer reading
0": the actions of `xPortStartScheduler` are the eight listed here.  The store to
`ullPortSchedularRunning` comes right after the write of the compare register, and no
fence is among the actions, where the claim has a fence between the two. -/
theorem primary_sets_flag_without_fence :
    (xPortStartScheduler 1 0 0x80000100 zeroTime initialPort).map (fun r => r.2.2)
      = some [.csrw .mtvec 0x80000100, .load32 0xF000BFFC 0, .load32 0xF000BFF8 0,
          .load32 0xF000BFFC 0, .store64 0xF0004000 500000, .storeRunning 1,
          .csrs .mie 0x88, .call .xPortStartFirstTask] ∧
    (xPortStartScheduler 1 0 0x80000100 zeroTime initialPort).map
        (fun r => decide (PortEvent.fence ∈ r.2.2))
      = some false := by
  decide

/-- On every core and for every reading of the timer the actions of
`xPortStartScheduler` contain no fence: whenever the function gets past the timer, its
actions end with the write of the compare register, directly followed by the store
of `true` to `ullPortSchedularRunning`, `csrs mie, 0x88` and the call of
`xPortStartFirstTask`, and everything before the write of the compare register is
the write of `mtvec` and reads of the timer. -/
theorem primary_bring_up_has_no_fence (fuel h trap : Nat) (reads : Nat → Nat) (s s' : PortState)
    (r : Int) (all : List PortEvent) (hh : h < configNUMBER_OF_CORES)
    (hcall : xPortStartScheduler fuel h trap reads s = some (r, s', all)) :
    PortEvent.fence ∉ all ∧
    ∃ loads v, (∀ e ∈ loads, ∃ a w, e = .load32 a w) ∧
      all = .csrw .mtvec (trap % 2 ^ 32) :: loads
        ++ [.store64 (configMTIMECMP_BASE_ADDRESS + 8 * h) v, .storeRunning 1,
          .csrs .mie 0x88, .call .xPortStartFirstTask] := by
  cases hrl : readTimeLoop reads fuel 0 with
  | none => rw [xPortStartScheduler_none fuel h trap reads s hrl] at hcall; cases hcall
  | some x =>
    obtain ⟨hi, lo, evs⟩ := x
    have hl := readTimeLoop_loads reads fuel 0 hi lo evs hrl
    rw [xPortStartScheduler_eq fuel h trap hi lo reads s evs hh hrl] at hcall
    simp only [Option.some.injEq, Prod.mk.injEq] at hcall
    obtain ⟨_, _, hall⟩ := hcall
    subst hall
    refine ⟨?_, evs, (hi * 2 ^ 32 + lo + uxTimerIncrementsForOneTick) % 2 ^ 64, hl, by simp⟩
    intro hmem
    simp only [List.cons_append, List.nil_append, List.append_assoc, List.mem_cons,
      List.mem_append, List.mem_singleton, List.not_mem_nil, or_false] at hmem
    rcases hmem with hx | hx | hx | hx | hx | hx
    · cases hx
    · obtain ⟨a, w, he⟩ := hl _ hx
      cases he
    · cases hx
    · cases hx
    · cases hx
    · cases hx

/-! ## Bring-up of a secondary core -/

/-- The wait loop of the secondary core ends at the first read of the flag that is
not zero, after one fence for each read before. -/
theorem waitForRunning_complete (flagReads : Nat → Nat) (n fuel i : Nat) (hn : n < fuel)
    (h0 : ∀ j, j < n → flagReads (i + j) % 2 ^ 32 = 0)
    (h1 : flagReads (i + n) % 2 ^ 32 ≠ 0) :
    waitForRunning flagReads fuel i
      = some (failedPolls n ++ [.loadRunning (flagReads (i + n) % 2 ^ 32)]) := by
  induction n generalizing fuel i with
  | zero =>
    obtain ⟨f, rfl⟩ : ∃ f, fuel = f + 1 := ⟨fuel - 1, by omega⟩
    have h1' : ¬ flagReads i % 2 ^ 32 = 0 := by simpa using h1
    simp only [waitForRunning, h1', if_false, failedPolls, List.nil_append, Nat.add_zero]
  | succ n ih =>
    obtain ⟨f, rfl⟩ : ∃ f, fuel = f + 1 := ⟨fuel - 1, by omega⟩
    have hz : flagReads i % 2 ^ 32 = 0 := by simpa using h0 0 (by omega)
    have hrec := ih f (i + 1) (by omega)
      (fun j hj => by
        have := h0 (j + 1) (by omega)
        rw [show i + (j + 1) = i + 1 + j by omega] at this
        exact this)
      (by rw [show i + 1 + n = i + (n + 1) by omega]; exact h1)
    rw [show i + 1 + n = i + (n + 1) by omega] at hrec
    simp only [waitForRunning, hz, if_true, hrec, failedPolls, List.append_assoc]

/-- The wait loop of the secondary core does not end while the flag reads zero. -/
theorem waitForRunning_none (flagReads : Nat → Nat) (fuel i : Nat)
    (h0 : ∀ j, j < fuel → flagReads (i + j) % 2 ^ 32 = 0) :
    waitForRunning flagReads fuel i = none := by
  induction fuel generalizing i with
  | zero => rfl
  | succ f ih =>
    have hz : flagReads i % 2 ^ 32 = 0 := by simpa using h0 0 (by omega)
    have hrec := ih (i + 1) (fun j hj => by
      have := h0 (j + 1) (by omega)
      rw [show i + (j + 1) = i + 1 + j by omega] at this
      exact this)
    simp only [waitForRunning, hz, if_true, hrec]

theorem FlagSetIn_cons (x : Role × PortEvent) (l : List (Role × PortEvent))
    (h : FlagSetIn l) : FlagSetIn (x :: l) := by
  obtain ⟨v, hv, hmem⟩ := h
  exact ⟨v, hv, List.mem_cons_of_mem _ hmem⟩

theorem BringUpInv_start (primaryActions : List PortEvent) :
    BringUpInv (BringUp.start primaryActions) := by
  refine ⟨fun h => absurd rfl h, ?_, ?_⟩
  · rintro (h | h | h) <;> cases h
  · intro later earlier mask h
    simp [BringUp.start] at h

/-- A step that adds one action to the log keeps the invariant, if the flag and the
position of the secondary core afterwards are accounted for and the action is a
`csrs mie` of the secondary core only after the flag was set. -/
theorem BringUpInv_push (b b' : BringUp) (x : Role × PortEvent) (hb : BringUpInv b)
    (hlog : b'.log = x :: b.log)
    (h1 : b'.ullPortSchedularRunning ≠ 0 → FlagSetIn b'.log)
    (h2 : (b'.secondary = .enableInterrupts ∨ b'.secondary = .dispatch ∨
      b'.secondary = .returned) → FlagSetIn b'.log)
    (h3 : ∀ mask, x = (Role.secondary, PortEvent.csrs .mie mask) → FlagSetIn b.log) :
    BringUpInv b' := by
  refine ⟨h1, h2, ?_⟩
  intro later earlier mask h
  rw [hlog] at h
  cases later with
  | nil =>
    simp only [List.nil_append, List.cons.injEq] at h
    rw [← h.2]
    exact h3 mask h.1
  | cons y later' =>
    simp only [List.cons_append, List.cons.injEq] at h
    exact hb.2.2 later' earlier mask h.2

theorem BringUpInv_primaryStep (b : BringUp) (hb : BringUpInv b) :
    BringUpInv b.primaryStep := by
  unfold BringUp.primaryStep
  split
  · exact hb
  · rename_i v rest _
    refine BringUpInv_push b _ (.primary, .storeRunning v) hb rfl ?_ ?_ ?_
    · intro hv
      exact ⟨v, hv, List.mem_cons_self _ _⟩
    · intro hs
      exact FlagSetIn_cons _ _ (hb.2.1 hs)
    · intro mask hx
      cases hx
  · rename_i e rest _ _
    refine BringUpInv_push b _ (.primary, e) hb rfl ?_ ?_ ?_
    · intro hv
      exact FlagSetIn_cons _ _ (hb.1 hv)
    · intro hs
      exact FlagSetIn_cons _ _ (hb.2.1 hs)
    · intro mask hx
      cases hx

theorem BringUpInv_secondaryStep (trap : Nat) (b : BringUp) (hb : BringUpInv b) :
    BringUpInv (b.secondaryStep trap) := by
  unfold BringUp.secondaryStep
  split
  · refine BringUpInv_push b _ _ hb rfl (fun hv => FlagSetIn_cons _ _ (hb.1 hv)) ?_ ?_
    · rintro (h | h | h) <;> cases h
    · intro mask hx; cases hx
  · rename_i hpos
    refine BringUpInv_push b _ _ hb rfl (fun hv => FlagSetIn_cons _ _ (hb.1 hv)) ?_ ?_
    · intro hs
      by_cases hv : b.ullPortSchedularRunning = 0
      · simp only [hv, if_true] at hs
        rcases hs with h | h | h <;> cases h
      · exact FlagSetIn_cons _ _ (hb.1 hv)
    · intro mask hx; cases hx
  · refine BringUpInv_push b _ _ hb rfl (fun hv => FlagSetIn_cons _ _ (hb.1 hv)) ?_ ?_
    · rintro (h | h | h) <;> cases h
    · intro mask hx; cases hx
  · rename_i hpos
    have hset : FlagSetIn b.log := hb.2.1 (Or.inl hpos)
    exact BringUpInv_push b _ _ hb rfl (fun _ => FlagSetIn_cons _ _ hset)
      (fun _ => FlagSetIn_cons _ _ hset) (fun _ _ => hset)
  · rename_i hpos
    have hset : FlagSetIn b.log := hb.2.1 (Or.inr (Or.inl hpos))
    refine BringUpInv_push b _ _ hb rfl (fun _ => FlagSetIn_cons _ _ hset)
      (fun _ => FlagSetIn_cons _ _ hset) ?_
    intro mask hx; cases hx
  · exact hb

theorem BringUpInv_runBringUp (trap : Nat) (schedule : List Role) (b : BringUp)
    (hb : BringUpInv b) : BringUpInv (runBringUp trap schedule b) := by
  induction schedule generalizing b with
  | nil => exact hb
  | cons r rest ih =>
    cases r with
    | primary => exact ih _ (BringUpInv_primaryStep b hb)
    | secondary => exact ih _ (BringUpInv_secondaryStep trap b hb)

/-- C18. Let `flagReads 0, flagReads 1, ...` be the values the successive reads of
`ullPortSchedularRunning` return on the secondary core.  If the first `n` of them are
zero and the next is not, the actions of `xPortStartSchedulerOncore` are: the write of
`mtvec`, `n` times a read of the flag followed by a fence, the read that returned the
non-zero value, and only then `csrs mie, 0x8` and the call of `xPortStartFirstTask`;
while all reads return zero the function enables nothing and does not return.  And in
every interleaving of the steps of the secondary core with the actions of a primary
core (those of `xPortStartScheduler`, or any others), the reads returning what the
shared flag holds, each `csrs mie` of the secondary core has a store of a non-zero
value to the flag by the primary core among the actions before it. -/
theorem secondary_waits_for_flag (fuel h trap : Nat) (flagReads : Nat → Nat) (s : PortState) :
    (∀ n, n < fuel → (∀ j, j < n → flagReads j % 2 ^ 32 = 0) → flagReads n % 2 ^ 32 ≠ 0 →
      ∃ s', xPortStartSchedulerOncore fuel h trap flagReads s
        = some (pdFAIL, s',
            [.csrw .mtvec (trap % 2 ^ 32)]
              ++ (failedPolls n ++ [.loadRunning (flagReads n % 2 ^ 32)])
              ++ [.csrs .mie 0x8, .call .xPortStartFirstTask])) ∧
    ((∀ j, j < fuel → flagReads j % 2 ^ 32 = 0) →
      xPortStartSchedulerOncore fuel h trap flagReads s = none) ∧
    (∀ primaryActions schedule later earlier mask,
      (runBringUp trap schedule (BringUp.start primaryActions)).log
          = later ++ (Role.secondary, PortEvent.csrs .mie mask) :: earlier →
      ∃ v, v ≠ 0 ∧ (Role.primary, PortEvent.storeRunning v) ∈ earlier) := by
  refine ⟨?_, ?_, ?_⟩
  · intro n hn h0 h1
    have hw := waitForRunning_complete flagReads n fuel 0 hn
      (by simpa only [Nat.zero_add] using h0) (by simpa only [Nat.zero_add] using h1)
    simp only [Nat.zero_add] at hw
    exact ⟨{ s with
        mtvec := setAt s.mtvec h (trap % 2 ^ 32)
        mie := setAt s.mie h (s.mie h ||| 0x8) },
      by simp only [xPortStartSchedulerOncore, hw, setAt_same]⟩
  · intro h0
    have hw := waitForRunning_none flagReads fuel 0 (by simpa only [Nat.zero_add] using h0)
    simp only [xPortStartSchedulerOncore, hw]
  · intro primaryActions schedule later earlier mask hlog
    exact (BringUpInv_runBringUp trap schedule _ (BringUpInv_start primaryActions)).2.2
      later earlier mask hlog

/-- Witness of `secondary_waits_for_flag`: the secondary core reads the flag as zero
twice and then as 1. -/
theorem secondary_waits_for_flag_witness :
    (xPortStartSchedulerOncore 5 1 0x80000100 (fun i => if i < 2 then 0 else 1) initialPort).map
        (fun r => r.2.2)
      = some [.csrw .mtvec 0x80000100, .loadRunning 0, .fence, .loadRunning 0, .fence,
          .loadRunning 1, .csrs .mie 0x8, .call .xPortStartFirstTask] ∧
    ∃ v, v ≠ 0 ∧ (Role.primary, PortEvent.storeRunning v) ∈
      [(Role.secondary, PortEvent.loadRunning 1), (.primary, .storeRunning 1),
        (.primary, .store64 4026548224 500000), (.primary, .load32 4026580988 0),
        (.primary, .load32 4026580984 0), (.primary, .load32 4026580988 0),
        (.primary, .csrw .mtvec 2147483904), (.secondary, .fence),
        (.secondary, .loadRunning 0), (.secondary, .fence), (.secondary, .loadRunning 0),
        (.secondary, .csrw .mtvec 2147483904)] :=
  ⟨by decide,
    (secondary_waits_for_flag 5 1 0x80000100 (fun i => if i < 2 then 0 else 1) initialPort).2.2
      primaryActionsAtZero eagerSecondary
      [(.primary, .call .xPortStartFirstTask), (.primary, .csrs .mie 136),
        (.secondary, .call .xPortStartFirstTask)]
      _ 0x8 (by decide)⟩

/-! ## Ownership, round trips and assertions at call granularity -/

/-- Two lock states with the same lock words and the same tables are equal. -/
theorem LockState.eq_of_fields (s t : LockState) (h1 : s.xIsrLock = t.xIsrLock)
    (h2 : s.xTaskLock = t.xTaskLock)
    (h3 : ∀ a b, s.ucOwnedByCore a b = t.ucOwnedByCore a b)
    (h4 : ∀ a b, s.ucRecursionCount a b = t.ucRecursionCount a b) : s = t := by
  cases s
  cases t
  simp only [LockState.mk.injEq]
  exact ⟨h1, h2, funext fun a => funext fun b => h3 a b,
    funext fun a => funext fun b => h4 a b⟩

/-- Writing an entry and then writing its old value back leaves the table as it was. -/
theorem setEntry_back (t : Nat → Nat → Nat) (i j w v : Nat) (hv : t i j = v) (h : v < 256)
    (a b : Nat) : setEntry (setEntry t i j w) i j v a b = t a b := by
  by_cases hab : a = i ∧ b = j
  · obtain ⟨rfl, rfl⟩ := hab
    rw [setEntry_same, hv, Nat.mod_eq_of_lt h]
  · rw [setEntry_other _ _ _ _ _ _ hab, setEntry_other _ _ _ _ _ _ hab]

/-- Storing a value through a lock pointer and then the old value of the word again
leaves the lock words as they were, whatever was done to the tables in between. -/
theorem store_back (s : LockState) (p : LockPtr) (w v : Nat) (own cnt own2 cnt2 : Nat → Nat → Nat)
    (hv : s.load p = v) (h : v < 2 ^ 32) :
    (({ ({ s.store p w with ucRecursionCount := cnt, ucOwnedByCore := own } : LockState) with
          ucRecursionCount := cnt2, ucOwnedByCore := own2 } : LockState).store p v).xIsrLock
        = s.xIsrLock ∧
      (({ ({ s.store p w with ucRecursionCount := cnt, ucOwnedByCore := own } : LockState) with
          ucRecursionCount := cnt2, ucOwnedByCore := own2 } : LockState).store p v).xTaskLock
        = s.xTaskLock := by
  have h2 : v % 2 ^ 32 = v := Nat.mod_eq_of_lt h
  cases p <;> simp only [LockState.load] at hv <;>
    simp only [LockState.store, h2, hv, and_self]

/-- A sequence of calls that all return is a sequence of actions. -/
theorem runActions_of_runCalls (ks : List Call) (s s' : LockState)
    (hr : runCalls ks s = .returned s') : runActions (ks.map .call) s = some s' := by
  induction ks generalizing s with
  | nil => simp only [runCalls] at hr; cases hr; rfl
  | cons k ks ih =>
    obtain ⟨s1, hk, hrest⟩ := runCalls_cons_returned k ks s s' hr
    simp only [List.map_cons, runActions, hk]
    exact ih s1 hrest

/-- Calls made on harts of the configuration, all returning, keep `OwnerOk`. -/
theorem OwnerOk_runCalls (ks : List Call) (s s' : LockState) (hs : OwnerOk s)
    (hv : ∀ k ∈ ks, k.mhartid < configNUMBER_OF_CORES)
    (hr : runCalls ks s = .returned s') : OwnerOk s' := by
  induction ks generalizing s with
  | nil => simp only [runCalls] at hr; cases hr; exact hs
  | cons k ks ih =>
    obtain ⟨s1, hk, hrest⟩ := runCalls_cons_returned k ks s s' hr
    exact ih s1 (OwnerOk_call _ _ _ _ _ _ _ (hv k (List.mem_cons_self _ _)) hs hk)
      (fun x hx => hv x (List.mem_cons_of_mem _ hx)) hrest

/-- The four ways in which a call of `vPortRecursiveLock` with a lock number below 2
halts: the nested enter at the maximal depth, the fresh acquisition that finds a
recursion count, the exit by a core that does not own the domain, and the exit by an
owner whose recursion count is zero. -/
theorem halted_cases (fuel h c d : Nat) (a : Int) (s s' : LockState) (x : Assertion)
    (hd : d < 2) (hr : vPortRecursiveLock fuel h c d a s = .halted x s') :
    (a ≠ 0 ∧ x = .recursionBelowMax ∧ s.lockWord d ≠ 0 ∧ s.ucOwnedByCore c d ≠ 0 ∧
        ¬ s.ucRecursionCount c d < 255) ∨
    (a ≠ 0 ∧ x = .recursionIsZero ∧ s.ucRecursionCount c d ≠ 0 ∧
        (s.lockWord d = 0 ∨ (s.ucOwnedByCore c d = 0 ∧ (h + 1) % 2 ^ 32 = 0))) ∨
    (a = 0 ∧ x = .ownedByCore ∧ s.ucOwnedByCore c d = 0) ∨
    (a = 0 ∧ x = .recursionPositive ∧ s.ucOwnedByCore c d ≠ 0 ∧
        s.ucRecursionCount c d = 0) := by
  by_cases ha : a = 0
  · subst ha
    simp only [vPortRecursiveLock, hd, if_true, ne_eq, not_true_eq_false, if_false] at hr
    by_cases ho : s.ucOwnedByCore c d = 0
    · simp only [ho, not_true_eq_false, if_false] at hr
      cases hr
      exact Or.inr (Or.inr (Or.inl ⟨rfl, rfl, ho⟩))
    by_cases hc : 0 < s.ucRecursionCount c d
    · simp only [ho, not_false_eq_true, if_true, gt_iff_lt, hc] at hr
      by_cases hn : (s.ucRecursionCount c d + 255) % 256 = 0
      · have hn' : (s.ucRecursionCount c d + 256 - 1) % 256 = 0 := hn
        simp only [hn', if_true] at hr
        cases hr
      · have hn' : ¬ (s.ucRecursionCount c d + 256 - 1) % 256 = 0 := hn
        simp only [hn', if_false] at hr
        cases hr
    · simp only [ho, not_false_eq_true, if_true, gt_iff_lt, hc, if_false] at hr
      cases hr
      exact Or.inr (Or.inr (Or.inr ⟨rfl, rfl, ho, by omega⟩))
  · simp only [vPortRecursiveLock, hd, if_true, ne_eq, ha, not_false_eq_true,
      SpinTryLock_eq] at hr
    by_cases hw : s.lockWord d = 0
    · have h3 : (s.load (lockPtrOf d) == 0) = true := by simpa [LockState.lockWord] using hw
      simp only [h3] at hr
      by_cases hc : s.ucRecursionCount c d = 0
      · rw [freshAcquire_zero c d _ (by simpa using hc)] at hr
        cases hr
      · rw [freshAcquire_nonzero c d _ (by simpa using hc)] at hr
        cases hr
        exact Or.inr (Or.inl ⟨ha, rfl, hc, Or.inl hw⟩)
    · have h3 : (s.load (lockPtrOf d) == 0) = false := by simpa [LockState.lockWord] using hw
      simp only [h3, store_ucOwnedByCore, store_ucRecursionCount] at hr
      by_cases ho : s.ucOwnedByCore c d = 0
      · simp only [ho, not_true_eq_false, if_false] at hr
        cases hsl : SpinLock fuel h (lockPtrOf d) (s.store (lockPtrOf d) (h + 1)) with
        | stillSpinning s2 => simp [hsl] at hr
        | acquired s2 =>
          simp only [hsl] at hr
          obtain ⟨e, h0⟩ := SpinLock_acquired _ _ _ _ _ hsl
          rw [store_store] at e
          subst e
          have ht : (h + 1) % 2 ^ 32 = 0 := by
            rcases h0 with h0 | h0
            · rwa [load_store_same] at h0
            · exact h0
          by_cases hc : s.ucRecursionCount c d = 0
          · rw [freshAcquire_zero c d _ (by simpa using hc)] at hr
            cases hr
          · rw [freshAcquire_nonzero c d _ (by simpa using hc)] at hr
            cases hr
            exact Or.inr (Or.inl ⟨ha, rfl, hc, Or.inr ⟨ho, ht⟩⟩)
      · by_cases hc : s.ucRecursionCount c d < 255
        · simp only [ho, not_false_eq_true, if_true, hc] at hr
          cases hr
        · simp only [ho, not_false_eq_true, if_true, hc, if_false] at hr
          cases hr
          exact Or.inl ⟨ha, rfl, hw, ho, hc⟩

/-- C24. In every state reached from the initial state by a sequence of
`vPortRecursiveLock` calls, each made by the core it names, on cores and domains of
the configuration, and each returning before the next starts: the lock word of a
domain `d` is 0 if and only if no core has `ucOwnedByCore[k][d] == 1`, every entry of
`ucOwnedByCore` is 0 or 1, and at most one core has `ucOwnedByCore[k][d] == 1`. -/
theorem lock_word_zero_iff_no_owner (ks : List Call) (s : LockState)
    (hv : ∀ k ∈ ks, (Action.call k).valid)
    (hr : runCalls ks initialState = .returned s) (d : Nat) (hd : d < 2) :
    (s.lockWord d = 0 ↔ ∀ k, ¬ s.ucOwnedByCore k d = 1) ∧
      (∀ k, s.ucOwnedByCore k d = 0 ∨ s.ucOwnedByCore k d = 1) ∧
      (∀ a b, s.ucOwnedByCore a d = 1 → s.ucOwnedByCore b d = 1 → a = b) := by
  have hra := runActions_of_runCalls ks _ _ hr
  have hva : ∀ a ∈ ks.map Action.call, a.valid := by
    intro a ha
    obtain ⟨k, hk, rfl⟩ := List.mem_map.1 ha
    exact hv k hk
  have hca : ∀ a ∈ ks.map Action.call, a.isCall := by
    intro a ha
    obtain ⟨k, _, rfl⟩ := List.mem_map.1 ha
    trivial
  have ht := TablesOk_runCalls ks _ _ TablesOk_initialState hr
  have ho := OwnerOk_runActions _ _ _ OwnerOk_initialState hva hra
  have hw := WordNamesOwner_runActions _ _ _ TablesOk_initialState WordNamesOwner_initialState
    hva hca hra
  obtain ⟨hu, hheld, _⟩ := ho d hd
  refine ⟨⟨fun h0 k hk => hheld ⟨k, by omega⟩ h0, fun hno => ?_⟩, fun k => ?_,
    fun a b ha hb => hu a b (by omega) (by omega)⟩
  · rcases hw d hd with h0 | ⟨c, _, hc, _⟩
    · exact h0
    · exact absurd hc (hno c)
  · obtain ⟨_, h0, h1⟩ := ht k d
    by_cases hz : s.ucRecursionCount k d = 0
    · exact Or.inl (h0 hz)
    · exact Or.inr (h1 (by omega))

/-- Witness of `lock_word_zero_iff_no_owner`: the state after core 0 entered the task
domain once. -/
theorem lock_word_zero_iff_no_owner_witness :
    (∀ k ∈ [enterCall 0 0 0 1], (Action.call k).valid) ∧
      runCalls [enterCall 0 0 0 1] initialState = .returned heldOnce ∧ 1 < 2 ∧
      ((heldOnce.lockWord 1 = 0 ↔ ∀ k, ¬ heldOnce.ucOwnedByCore k 1 = 1) ∧
        (∀ k, heldOnce.ucOwnedByCore k 1 = 0 ∨ heldOnce.ucOwnedByCore k 1 = 1) ∧
        (∀ a b, heldOnce.ucOwnedByCore a 1 = 1 → heldOnce.ucOwnedByCore b 1 = 1 → a = b)) :=
  have hv : ∀ k ∈ [enterCall 0 0 0 1], (Action.call k).valid := by
    intro k hk
    rw [List.mem_singleton] at hk
    subst hk
    exact ⟨rfl, by decide, by decide⟩
  ⟨hv, rfl, by decide,
    lock_word_zero_iff_no_owner [enterCall 0 0 0 1] heldOnce hv rfl 1 (by decide)⟩

/-- C25. For every core `c` of the configuration and domain `d`, in every state in
which either the lock word of `d` is 0 with `ucOwnedByCore[c][d] == 0` and
`ucRecursionCount[c][d] == 0`, or the lock word is `c + 1` with
`ucOwnedByCore[c][d] == 1` and `1 <= ucRecursionCount[c][d] < 255`: the call
`vPortRecursiveLock (c, d, acquire)` on core `c` followed at once by
`vPortRecursiveLock (c, d, release)` returns both times and leaves exactly the state
it started from, lock words and both tables. -/
theorem enter_exit_restores_state (fuel1 fuel2 c d : Nat) (s : LockState)
    (hc : c < configNUMBER_OF_CORES) (hd : d < 2)
    (hs : (s.lockWord d = 0 ∧ s.ucOwnedByCore c d = 0 ∧ s.ucRecursionCount c d = 0) ∨
      (s.lockWord d = c + 1 ∧ s.ucOwnedByCore c d = 1 ∧ 1 ≤ s.ucRecursionCount c d ∧
        s.ucRecursionCount c d < 255)) :
    runCalls [enterCall fuel1 c c d, exitCall fuel2 c c d] s = .returned s := by
  have hc32 : c + 1 < 2 ^ 32 := token_of_core hc
  rcases hs with ⟨hw, ho, hn⟩ | ⟨hw, ho, h1, h255⟩
  · have e1 : vPortRecursiveLock fuel1 c c d acquire s
        = .returned { s.store (lockPtrOf d) (c + 1) with
            ucRecursionCount := setEntry s.ucRecursionCount c d 1
            ucOwnedByCore := setEntry s.ucOwnedByCore c d 1 } := by
      rw [enter_free _ _ _ _ _ hd hw, freshAcquire_zero _ _ _ (by simpa using hn)]
      simp
    have e2 := exit_outermost fuel2 c c d
      { s.store (lockPtrOf d) (c + 1) with
        ucRecursionCount := setEntry s.ucRecursionCount c d 1
        ucOwnedByCore := setEntry s.ucOwnedByCore c d 1 } hd (by simp) (by simp)
    simp only [runCalls, Call.run, enterCall, exitCall, e1, e2]
    congr 1
    have hb := store_back s (lockPtrOf d) (c + 1) 0 (setEntry s.ucOwnedByCore c d 1)
      (setEntry s.ucRecursionCount c d 1) (setEntry (setEntry s.ucOwnedByCore c d 1) c d 0)
      (setEntry (setEntry s.ucRecursionCount c d 1) c d 0) hw (by decide)
    apply LockState.eq_of_fields
    · exact hb.1
    · exact hb.2
    · intro a b
      simpa [SpinUnlock] using setEntry_back s.ucOwnedByCore c d 1 0 ho (by decide) a b
    · intro a b
      simpa [SpinUnlock] using setEntry_back s.ucRecursionCount c d 1 0 hn (by decide) a b
  · have hw0 : s.lockWord d ≠ 0 := by omega
    have e1 := enter_nested fuel1 c c d s hd hw0 (by omega) h255
    have hcount : setEntry s.ucRecursionCount c d (s.ucRecursionCount c d + 1) c d
        = s.ucRecursionCount c d + 1 := by
      rw [setEntry_same]; omega
    have e2 := exit_inner fuel2 c c d
      { s.store (lockPtrOf d) (c + 1) with
        ucRecursionCount := setEntry s.ucRecursionCount c d (s.ucRecursionCount c d + 1) }
      hd (by simpa using (by omega : s.ucOwnedByCore c d ≠ 0))
      (by rw [show ({ s.store (lockPtrOf d) (c + 1) with
            ucRecursionCount :=
              setEntry s.ucRecursionCount c d (s.ucRecursionCount c d + 1) } :
            LockState).ucRecursionCount c d = s.ucRecursionCount c d + 1 from hcount]
          omega)
      (by rw [show ({ s.store (lockPtrOf d) (c + 1) with
            ucRecursionCount :=
              setEntry s.ucRecursionCount c d (s.ucRecursionCount c d + 1) } :
            LockState).ucRecursionCount c d = s.ucRecursionCount c d + 1 from hcount]
          omega)
    simp only [runCalls, Call.run, enterCall, exitCall, e1, e2]
    congr 1
    have hb : (s.store (lockPtrOf d) (c + 1)).xIsrLock = s.xIsrLock ∧
        (s.store (lockPtrOf d) (c + 1)).xTaskLock = s.xTaskLock := by
      have h2 : (c + 1) % 2 ^ 32 = c + 1 := Nat.mod_eq_of_lt hc32
      unfold LockState.lockWord at hw
      generalize lockPtrOf d = p at hw
      cases p <;> simp only [LockState.load] at hw <;>
        simp only [LockState.store, h2, hw, and_self]
    apply LockState.eq_of_fields
    · exact hb.1
    · exact hb.2
    · intro a b
      simp
    · intro a b
      have := setEntry_back s.ucRecursionCount c d (s.ucRecursionCount c d + 1)
        (s.ucRecursionCount c d) rfl (by omega) a b
      have hm : (s.ucRecursionCount c d + 1) % 256 - 1 = s.ucRecursionCount c d := by omega
      simpa [hm] using this

/-- Witness of `enter_exit_restores_state`: core 0 on the task domain, from the
initial state. -/
theorem enter_exit_restores_state_witness :
    0 < configNUMBER_OF_CORES ∧ 1 < 2 ∧
      ((initialState.lockWord 1 = 0 ∧ initialState.ucOwnedByCore 0 1 = 0 ∧
          initialState.ucRecursionCount 0 1 = 0) ∨
        (initialState.lockWord 1 = 0 + 1 ∧ initialState.ucOwnedByCore 0 1 = 1 ∧
          1 ≤ initialState.ucRecursionCount 0 1 ∧ initialState.ucRecursionCount 0 1 < 255)) ∧
      runCalls [enterCall 3 0 0 1, exitCall 3 0 0 1] initialState = .returned initialState :=
  ⟨by decide, by decide, Or.inl ⟨rfl, rfl, rfl⟩,
    enter_exit_restores_state 3 3 0 1 initialState (by decide) (by decide)
      (Or.inl ⟨rfl, rfl, rfl⟩)⟩

/-- C26. In every state reached from the initial state by `vPortRecursiveLock` calls
that returned, made on harts of the configuration, a further call with a lock number
below 2 never fails the assertion `ucRecursionCount == 0` of a fresh acquisition nor
the assertion `ucRecursionCount > 0` of an exit: if it halts, it is an enter call by
the owner at depth 255, failing `ucRecursionCount < 255`, or an exit call by a core
that does not own the domain, failing the ownership assertion. -/
theorem only_depth_and_ownership_assertions_fail (ks : List Call) (s : LockState) (k : Call)
    (x : Assertion) (s' : LockState)
    (hv : ∀ j ∈ ks, j.mhartid < configNUMBER_OF_CORES)
    (hr : runCalls ks initialState = .returned s)
    (hk : k.mhartid < configNUMBER_OF_CORES) (hd : k.ulLockNum < 2)
    (hh : k.run s = .halted x s') :
    x ≠ .recursionIsZero ∧ x ≠ .recursionPositive ∧
      ((x = .recursionBelowMax ∧ k.uxAcquire ≠ 0 ∧
          s.ucOwnedByCore k.xCoreID k.ulLockNum = 1 ∧
          s.ucRecursionCount k.xCoreID k.ulLockNum = 255) ∨
        (x = .ownedByCore ∧ k.uxAcquire = 0 ∧
          s.ucOwnedByCore k.xCoreID k.ulLockNum = 0)) := by
  have ht := TablesOk_runCalls ks _ _ TablesOk_initialState hr
  have ho := OwnerOk_runCalls ks _ _ OwnerOk_initialState hv hr
  obtain ⟨h255, h0, h1⟩ := ht k.xCoreID k.ulLockNum
  obtain ⟨_, hheld, _⟩ := ho k.ulLockNum hd
  have htok : (k.mhartid + 1) % 2 ^ 32 ≠ 0 := token_ne_zero (token_of_core hk)
  rcases halted_cases _ _ _ _ _ _ _ _ hd hh with ⟨ha, rfl, _, hown, hc⟩ |
    ⟨_, rfl, hc, hfree⟩ | ⟨ha, rfl, hown⟩ | ⟨_, rfl, hown, hc⟩
  · exact ⟨by decide, by decide, Or.inl ⟨rfl, ha, h1 (by omega), by omega⟩⟩
  · exfalso
    have hown : s.ucOwnedByCore k.xCoreID k.ulLockNum = 1 := h1 (by omega)
    rcases hfree with hw | ⟨hz, ht0⟩
    · exact hheld ⟨k.xCoreID, by omega⟩ hw
    · omega
  · exact ⟨by decide, by decide, Or.inr ⟨rfl, ha, hown⟩⟩
  · exact absurd (h0 hc) hown

/-- Witness of `only_depth_and_ownership_assertions_fail`: after core 0 entered the
task domain once, an exit call of core 1 halts on the ownership assertion. -/
theorem only_depth_and_ownership_assertions_fail_witness :
    (∀ j ∈ [enterCall 0 0 0 1], j.mhartid < configNUMBER_OF_CORES) ∧
      runCalls [enterCall 0 0 0 1] initialState = .returned heldOnce ∧
      (exitCall 0 1 1 1).mhartid < configNUMBER_OF_CORES ∧ (exitCall 0 1 1 1).ulLockNum < 2 ∧
      (exitCall 0 1 1 1).run heldOnce = .halted .ownedByCore heldOnce ∧
      (Assertion.ownedByCore ≠ .recursionIsZero ∧ Assertion.ownedByCore ≠ .recursionPositive ∧
        ((Assertion.ownedByCore = .recursionBelowMax ∧ (exitCall 0 1 1 1).uxAcquire ≠ 0 ∧
            heldOnce.ucOwnedByCore (exitCall 0 1 1 1).xCoreID (exitCall 0 1 1 1).ulLockNum = 1 ∧
            heldOnce.ucRecursionCount (exitCall 0 1 1 1).xCoreID (exitCall 0 1 1 1).ulLockNum
              = 255) ∨
          (Assertion.ownedByCore = .ownedByCore ∧ (exitCall 0 1 1 1).uxAcquire = 0 ∧
            heldOnce.ucOwnedByCore (exitCall 0 1 1 1).xCoreID (exitCall 0 1 1 1).ulLockNum
              = 0))) :=
  have hv : ∀ j ∈ [enterCall 0 0 0 1], j.mhartid < configNUMBER_OF_CORES := by
    intro j hj
    rw [List.mem_singleton] at hj
    subst hj
    decide
  ⟨hv, rfl, by decide, by decide, rfl,
    only_depth_and_ownership_assertions_fail [enterCall 0 0 0 1] heldOnce (exitCall 0 1 1 1)
      .ownedByCore heldOnce hv rfl (by decide) (by decide) rfl⟩

/-- C27. Whatever the hart, the core id, the value of `uxAcquire` and the state, a
call of `vPortRecursiveLock` with `ulLockNum >= 2` halts on
`configASSERT(ulLockNum < 2)` and leaves the whole lock state as it was; in the
step-by-step execution the core goes from idle straight to that halt, with the memory
untouched, and no later step of that core changes the machine. -/
theorem unsupported_lock_number_halts (fuel h c d : Nat) (a : Int) (s : LockState)
    (m : Machine) (e e' : Event) (hd : 2 ≤ d) (he : e.ulLockNum = d)
    (hidle : m.pos e.core = .idle) (hcore : e'.core = e.core) :
    vPortRecursiveLock fuel h c d a s = .halted .lockNumBelowTwo s ∧
      (vPortRecursiveLock fuel h c d a s).state = s ∧
      step e m = m.goto e.core (.halted .lockNumBelowTwo) m.mem ∧
      (step e m).mem = m.mem ∧
      step e' (step e m) = step e m := by
  have e1 := lockNum_out_of_range fuel h c d a s (by omega)
  have e2 : step e m = m.goto e.core (.halted .lockNumBelowTwo) m.mem := by
    have hn : ¬ e.ulLockNum < 2 := by omega
    simp only [step, hidle, hn, if_false]
  refine ⟨e1, by rw [e1]; rfl, e2, by rw [e2]; rfl, ?_⟩
  rw [e2]
  have hp : (m.goto e.core (.halted .lockNumBelowTwo) m.mem).pos e'.core
      = .halted .lockNumBelowTwo := by
    rw [hcore]; exact goto_pos_self _ _ _ _
  simp only [step, hp]

/-- Witness of `unsupported_lock_number_halts`: lock number 2, enter call of core 1. -/
theorem unsupported_lock_number_halts_witness :
    2 ≤ 2 ∧ (⟨1, 2, 1⟩ : Event).ulLockNum = 2 ∧
      initialMachine.pos (⟨1, 2, 1⟩ : Event).core = .idle ∧
      (⟨1, 2, 0⟩ : Event).core = (⟨1, 2, 1⟩ : Event).core ∧
      (vPortRecursiveLock 5 1 1 2 acquire initialState = .halted .lockNumBelowTwo initialState ∧
        (vPortRecursiveLock 5 1 1 2 acquire initialState).state = initialState ∧
        step ⟨1, 2, 1⟩ initialMachine
          = initialMachine.goto (⟨1, 2, 1⟩ : Event).core (.halted .lockNumBelowTwo)
              initialMachine.mem ∧
        (step ⟨1, 2, 1⟩ initialMachine).mem = initialMachine.mem ∧
        step ⟨1, 2, 0⟩ (step ⟨1, 2, 1⟩ initialMachine) = step ⟨1, 2, 1⟩ initialMachine) :=
  ⟨by decide, rfl, rfl, rfl,
    unsupported_lock_number_halts 5 1 1 2 acquire initialState initialMachine ⟨1, 2, 1⟩
      ⟨1, 2, 0⟩ (by decide) rfl rfl rfl⟩

/-! ## The row partition of `vWorkerTask` -/

/-- Closed form of `start_row`: `core_idx` blocks of `n / w` rows, plus one more row
for each of the workers before it that are among the first `n % w`. -/
theorem start_row_eq (n w i : Int) (hn : 0 ≤ n) (hw : 1 ≤ w) :
    start_row n w i = i * (n / w) + min i (n % w) := by
  unfold start_row rows_per_worker remainder
  rw [Int.tdiv_eq_ediv hn (by omega), Int.tmod_eq_emod hn (by omega)]
  split_ifs with h
  · rw [min_eq_left (le_of_lt h)]; ring
  · rw [min_eq_right (not_lt.1 h)]; ring

/-- The range of a worker ends where the range of the next one starts. -/
theorem end_row_eq (n w i : Int) (hn : 0 ≤ n) (hw : 1 ≤ w) :
    end_row n w i = start_row n w (i + 1) := by
  unfold end_row
  rw [start_row_eq n w i hn hw, start_row_eq n w (i + 1) hn hw]
  unfold rows_per_worker remainder
  rw [Int.tdiv_eq_ediv hn (by omega), Int.tmod_eq_emod hn (by omega)]
  split_ifs with h
  · rw [min_eq_left (le_of_lt h), min_eq_left (by omega : i + 1 ≤ n % w)]; ring
  · rw [min_eq_right (not_lt.1 h), min_eq_right (by omega : n % w ≤ i + 1)]; ring

theorem start_row_mono (n w i j : Int) (hn : 0 ≤ n) (hw : 1 ≤ w) (hij : i ≤ j) :
    start_row n w i ≤ start_row n w j := by
  rw [start_row_eq n w i hn hw, start_row_eq n w j hn hw]
  have hq : 0 ≤ n / w := Int.ediv_nonneg hn (by omega)
  exact add_le_add (mul_le_mul_of_nonneg_right hij hq) (min_le_min hij le_rfl)

theorem start_row_zero (n w : Int) (hn : 0 ≤ n) (hw : 1 ≤ w) : start_row n w 0 = 0 := by
  rw [start_row_eq n w 0 hn hw, min_eq_left (Int.emod_nonneg n (by omega))]; ring

theorem start_row_last (n w : Int) (hn : 0 ≤ n) (hw : 1 ≤ w) : start_row n w w = n := by
  rw [start_row_eq n w w hn hw, min_eq_right (le_of_lt (Int.emod_lt_of_pos n (by omega)))]
  exact Int.ediv_add_emod n w

/-- Every row below the start of worker `k` lies in the range of a worker before
`k`. -/
theorem row_has_worker (n w : Int) (hn : 0 ≤ n) (hw : 1 ≤ w) (r : Int) (k : Nat)
    (hr : r < start_row n w k) :
    0 ≤ r → ∃ i : Int, 0 ≤ i ∧ i < k ∧ start_row n w i ≤ r ∧ r < end_row n w i := by
  intro hr0
  induction k with
  | zero =>
    rw [Nat.cast_zero, start_row_zero n w hn hw] at hr
    omega
  | succ k ih =>
    by_cases h : r < start_row n w k
    · obtain ⟨i, h0, hk, h1, h2⟩ := ih h
      exact ⟨i, h0, by push_cast; omega, h1, h2⟩
    · refine ⟨k, by omega, by push_cast; omega, not_lt.1 h, ?_⟩
      rw [end_row_eq n w k hn hw]
      simpa using hr

/-- C30. With `n >= 0` rows and `w >= 1` workers, the ranges `[start_row, end_row)`
that `vWorkerTask` computes for the worker indices `0 .. w - 1`: the first starts at
row 0, each ends where the next starts, the last ends at row `n`, worker `i` has
`n / w + 1` rows when `i < n % w` and `n / w` rows otherwise, every range lies within
`[0, n]`, and every row of `[0, n)` lies in the range of exactly one worker; with the
values of the source, 64 rows and the 3 workers on harts 1, 2 and 3, the ranges are
`[0, 22)`, `[22, 43)` and `[43, 64)`. -/
theorem worker_rows_partition (n w : Int) (hn : 0 ≤ n) (hw : 1 ≤ w) :
    start_row n w 0 = 0 ∧
      (∀ i, 0 ≤ i → i + 1 < w → end_row n w i = start_row n w (i + 1)) ∧
      end_row n w (w - 1) = n ∧
      (∀ i, 0 ≤ i → i < w →
        end_row n w i - start_row n w i = if i < n % w then n / w + 1 else n / w) ∧
      (∀ i, 0 ≤ i → i < w →
        0 ≤ start_row n w i ∧ start_row n w i ≤ end_row n w i ∧ end_row n w i ≤ n) ∧
      (∀ r, 0 ≤ r → r < n →
        ∃ i, 0 ≤ i ∧ i < w ∧ start_row n w i ≤ r ∧ r < end_row n w i ∧
          ∀ j, 0 ≤ j → j < w → start_row n w j ≤ r → r < end_row n w j → j = i) ∧
      (N = 64 ∧ WORKER_CORE_NUM = 3 ∧
        start_row N WORKER_CORE_NUM (core_idx 1) = 0 ∧
        end_row N WORKER_CORE_NUM (core_idx 1) = 22 ∧
        start_row N WORKER_CORE_NUM (core_idx 2) = 22 ∧
        end_row N WORKER_CORE_NUM (core_idx 2) = 43 ∧
        start_row N WORKER_CORE_NUM (core_idx 3) = 43 ∧
        end_row N WORKER_CORE_NUM (core_idx 3) = 64) := by
  have hq : 0 ≤ n / w := Int.ediv_nonneg hn (by omega)
  refine ⟨start_row_zero n w hn hw, fun i _ _ => end_row_eq n w i hn hw, ?_, ?_, ?_, ?_, ?_⟩
  · rw [end_row_eq n w _ hn hw, sub_add_cancel, start_row_last n w hn hw]
  · intro i _ _
    unfold end_row rows_per_worker remainder
    rw [Int.tdiv_eq_ediv hn (by omega), Int.tmod_eq_emod hn (by omega)]
    split_ifs <;> ring
  · intro i hi hiw
    refine ⟨?_, ?_, ?_⟩
    · have h := start_row_mono n w 0 i hn hw hi
      rw [start_row_zero n w hn hw] at h
      exact h
    · rw [end_row_eq n w i hn hw]
      exact start_row_mono n w i (i + 1) hn hw (by omega)
    · have h := start_row_mono n w (i + 1) w hn hw (by omega)
      rw [start_row_last n w hn hw] at h
      rw [end_row_eq n w i hn hw]
      exact h
  · intro r hr0 hrn
    have hwn : ((w.toNat : Nat) : Int) = w := Int.toNat_of_nonneg (by omega)
    have hlt : r < start_row n w (w.toNat : Nat) := by
      rw [hwn, start_row_last n w hn hw]; exact hrn
    obtain ⟨i, hi0, hiw, h1, h2⟩ := row_has_worker n w hn hw r w.toNat hlt hr0
    rw [hwn] at hiw
    refine ⟨i, hi0, hiw, h1, h2, fun j _ _ g1 g2 => ?_⟩
    rw [end_row_eq n w _ hn hw] at h2 g2
    by_contra hne
    rcases lt_or_gt_of_ne hne with hlt | hgt
    · have := start_row_mono n w (j + 1) i hn hw (by omega)
      omega
    · have := start_row_mono n w (i + 1) j hn hw (by omega)
      omega
  · decide

/-- Witness of `worker_rows_partition`: the 64 rows and 3 workers of the source. -/
theorem worker_rows_partition_witness :
    (0 : Int) ≤ 64 ∧ (1 : Int) ≤ 3 ∧
      start_row 64 3 0 = 0 ∧ end_row 64 3 (3 - 1) = 64 ∧
      (∀ r, 0 ≤ r → r < 64 →
        ∃ i, 0 ≤ i ∧ i < 3 ∧ start_row 64 3 i ≤ r ∧ r < end_row 64 3 i ∧
          ∀ j, 0 ≤ j → j < 3 → start_row 64 3 j ≤ r → r < end_row 64 3 j → j = i) :=
  ⟨by decide, by decide, (worker_rows_partition 64 3 (by decide) (by decide)).1,
    (worker_rows_partition 64 3 (by decide) (by decide)).2.2.1,
    (worker_rows_partition 64 3 (by decide) (by decide)).2.2.2.2.2.1⟩

/-! ## The scheduler-running flag, the tick handler and the interrupt enables -/

/-- What `vPortSetupTimerInterrupt` leaves as it was. -/
theorem vPortSetupTimerInterrupt_frame (fuel h : Nat) (reads : Nat → Nat) (s s' : PortState)
    (evs : List PortEvent) (hr : vPortSetupTimerInterrupt fuel h reads s = some (s', evs)) :
    s'.ullPortSchedularRunning = s.ullPortSchedularRunning ∧ s'.mie = s.mie ∧
      s'.mtvec = s.mtvec ∧ s'.lock = s.lock := by
  unfold vPortSetupTimerInterrupt at hr
  cases hl : readTimeLoop reads fuel 0 with
  | none => simp [hl] at hr
  | some x =>
    obtain ⟨hi, lo, e⟩ := x
    simp only [hl, Option.some.injEq, Prod.mk.injEq] at hr
    obtain ⟨rfl, _⟩ := hr
    exact ⟨rfl, rfl, rfl, rfl⟩

/-- What a call of `xPortStartScheduler` that reaches its end has done to the flag and
to `mie`. -/
theorem xPortStartScheduler_sets (fuel h trap : Nat) (reads : Nat → Nat) (s s' : PortState)
    (r : Int) (evs : List PortEvent)
    (hr : xPortStartScheduler fuel h trap reads s = some (r, s', evs)) :
    s'.ullPortSchedularRunning = 1 ∧ s'.mie h = s.mie h ||| 0x88 ∧
      PortEvent.csrs .mie 0x88 ∈ evs := by
  simp only [xPortStartScheduler] at hr
  split at hr
  · cases hr
  · rename_i s2 e2 hv
    obtain ⟨_, hmie, _, _⟩ := vPortSetupTimerInterrupt_frame _ _ _ _ _ _ hv
    simp only [Option.some.injEq, Prod.mk.injEq] at hr
    obtain ⟨_, rfl, rfl⟩ := hr
    refine ⟨rfl, ?_, by simp⟩
    simp only [setAt_same, hmie]

/-- The actions of the wait loop are reads of the flag and fences. -/
theorem waitForRunning_events (flagReads : Nat → Nat) (fuel i : Nat) (evs : List PortEvent)
    (hr : waitForRunning flagReads fuel i = some evs) :
    ∀ e ∈ evs, (∃ v, e = .loadRunning v) ∨ e = .fence := by
  induction fuel generalizing i evs with
  | zero => simp [waitForRunning] at hr
  | succ f ih =>
    simp only [waitForRunning] at hr
    by_cases hz : flagReads i % 2 ^ 32 = 0
    · simp only [hz, if_true] at hr
      cases hrec : waitForRunning flagReads f (i + 1) with
      | none => simp [hrec] at hr
      | some rest =>
        simp only [hrec, Option.some.injEq] at hr
        subst hr
        intro e he
        simp only [List.cons_append, List.nil_append, List.mem_cons] at he
        rcases he with rfl | rfl | he
        · exact Or.inl ⟨_, rfl⟩
        · exact Or.inr rfl
        · exact ih _ _ hrec e he
    · simp only [hz, if_false, Option.some.injEq] at hr
      subst hr
      intro e he
      rw [List.mem_singleton] at he
      exact Or.inl ⟨_, he⟩

/-- A call of `xPortStartSchedulerOncore` that reaches its end: the state it leaves
and its actions. -/
theorem xPortStartSchedulerOncore_eq (fuel h trap : Nat) (flagReads : Nat → Nat)
    (s s' : PortState) (r : Int) (evs : List PortEvent)
    (hr : xPortStartSchedulerOncore fuel h trap flagReads s = some (r, s', evs)) :
    ∃ polls, waitForRunning flagReads fuel 0 = some polls ∧ r = pdFAIL ∧
      s' = { s with
        mtvec := setAt s.mtvec h (trap % 2 ^ 32)
        mie := setAt s.mie h (s.mie h ||| 0x8) } ∧
      evs = [.csrw .mtvec (trap % 2 ^ 32)] ++ polls
        ++ [.csrs .mie 0x8, .call .xPortStartFirstTask] := by
  unfold xPortStartSchedulerOncore at hr
  cases hw : waitForRunning flagReads fuel 0 with
  | none => simp [hw] at hr
  | some polls =>
    simp only [hw, Option.some.injEq, Prod.mk.injEq] at hr
    obtain ⟨rfl, rfl, rfl⟩ := hr
    exact ⟨polls, rfl, rfl, rfl, rfl⟩

/-- The loop of `vPortEndScheduler` never ends. -/
theorem vPortEndScheduler_none (fuel : Nat) (s : PortState) :
    vPortEndScheduler fuel s = none := by
  induction fuel with
  | zero => rfl
  | succ f ih => simpa [vPortEndScheduler] using ih

/-- The tick handler leaves the flag as it is when the kernel functions do. -/
theorem xPortTickInterruptHandler_flag (K : Kernel) (x : Int) (s : PortState)
    (hk : K.keepsRunningFlag) :
    (xPortTickInterruptHandler K x s).2.1.ullPortSchedularRunning
      = s.ullPortSchedularRunning := by
  obtain ⟨h1, h2, h3⟩ := hk
  unfold xPortTickInterruptHandler
  split_ifs
  · simp only [h3, h2, h1]
  · rfl

/-- The flag after one call: 1 after `xPortStartScheduler`, unchanged after any other
call. -/
theorem PortOp.run_flag (op : PortOp) (s s' : PortState) (hk : op.kernelKeepsRunningFlag)
    (hr : op.run s = some s') :
    s'.ullPortSchedularRunning
      = if op.isStartScheduler = true then 1 else s.ullPortSchedularRunning := by
  cases op with
  | startScheduler fuel h trap reads =>
    simp only [PortOp.run, Option.map_eq_some'] at hr
    obtain ⟨⟨r, s1, evs⟩, hx, rfl⟩ := hr
    simpa [PortOp.isStartScheduler] using (xPortStartScheduler_sets _ _ _ _ _ _ _ _ hx).1
  | startSchedulerOncore fuel h trap flagReads =>
    simp only [PortOp.run, Option.map_eq_some'] at hr
    obtain ⟨⟨r, s1, evs⟩, hx, rfl⟩ := hr
    obtain ⟨_, _, _, rfl, _⟩ := xPortStartSchedulerOncore_eq _ _ _ _ _ _ _ _ hx
    simp [PortOp.isStartScheduler]
  | setupTimerInterrupt fuel h reads =>
    simp only [PortOp.run, Option.map_eq_some'] at hr
    obtain ⟨⟨s1, evs⟩, hx, rfl⟩ := hr
    simpa [PortOp.isStartScheduler] using (vPortSetupTimerInterrupt_frame _ _ _ _ _ _ hx).1
  | yieldOtherCore xCoreID =>
    simp only [PortOp.run, Option.some.injEq] at hr
    subst hr
    simp only [PortOp.isStartScheduler, Bool.false_eq_true, if_false]
    unfold vPortYieldOtherCore
    split_ifs <;> rfl
  | recursiveLock fuel h c d a =>
    simp only [PortOp.run, Option.some.injEq] at hr
    subst hr
    simp [PortOp.isStartScheduler]
  | tickInterruptHandler K x =>
    simp only [PortOp.run, Option.some.injEq] at hr
    subst hr
    simpa [PortOp.isStartScheduler] using xPortTickInterruptHandler_flag K x s hk
  | endScheduler fuel =>
    simp only [PortOp.run, vPortEndScheduler_none] at hr
    cases hr

/-- The flag after a sequence of calls: 1 when one of them was a call of
`xPortStartScheduler`, unchanged otherwise. -/
theorem runOps_flag (ops : List PortOp) (s s' : PortState)
    (hk : ∀ op ∈ ops, op.kernelKeepsRunningFlag) (hr : runOps ops s = some s') :
    s'.ullPortSchedularRunning
      = if ops.any PortOp.isStartScheduler = true then 1 else s.ullPortSchedularRunning := by
  induction ops generalizing s with
  | nil =>
    simp only [runOps, Option.some.injEq] at hr
    subst hr
    simp
  | cons op ops ih =>
    simp only [runOps] at hr
    cases h1 : op.run s with
    | none => simp [h1] at hr
    | some s1 =>
      simp only [h1] at hr
      have e1 := PortOp.run_flag op s s1 (hk op (List.mem_cons_self _ _)) h1
      have e2 := ih s1 (fun o ho => hk o (List.mem_cons_of_mem _ ho)) hr
      rw [e2, e1, List.any_cons]
      cases op.isStartScheduler <;> cases ops.any PortOp.isStartScheduler <;> simp

/-- The bits set in `0x88` and not in `0x8`: bit 7 alone. -/
theorem mask_difference (i : Nat) :
    (Nat.testBit 0x88 i = true ∧ Nat.testBit 0x8 i = false) ↔ i = 7 := by
  constructor
  · rintro ⟨h1, h2⟩
    by_cases hi : i < 8
    · interval_cases i <;> first | rfl | (revert h1 h2; decide)
    · have hlt : 0x88 < 2 ^ i :=
        lt_of_lt_of_le (by decide : 0x88 < 2 ^ 8) (Nat.pow_le_pow_right (by decide) (by omega))
      rw [Nat.testBit_lt_two_pow hlt] at h1
      cases h1
  · rintro rfl
    decide

/-- C21. The flag `ullPortSchedularRunning` is 0 (`false`) in the initial state.  Along
any sequence of calls of `xPortStartScheduler`, `xPortStartSchedulerOncore`,
`vPortSetupTimerInterrupt`, `vPortYieldOtherCore`, `vPortRecursiveLock` and
`xPortTickInterruptHandler` (with kernel functions that leave the flag alone) that
reach their ends: the flag is 1 at the end when one of the calls was a call of
`xPortStartScheduler`, it is what it was at the start when none was, and so a flag
that was 1 at the start is 1 at the end; `vPortEndScheduler` never ends, and so it
never appears in such a sequence. -/
theorem running_flag_is_write_once (ops : List PortOp) (s s' : PortState)
    (hk : ∀ op ∈ ops, op.kernelKeepsRunningFlag) (hr : runOps ops s = some s') :
    initialPort.ullPortSchedularRunning = 0 ∧
      (ops.any PortOp.isStartScheduler = true → s'.ullPortSchedularRunning = 1) ∧
      (ops.any PortOp.isStartScheduler = false →
        s'.ullPortSchedularRunning = s.ullPortSchedularRunning) ∧
      (s.ullPortSchedularRunning = 1 → s'.ullPortSchedularRunning = 1) ∧
      (∀ fuel, PortOp.endScheduler fuel ∉ ops) := by
  have h := runOps_flag ops s s' hk hr
  refine ⟨rfl, fun hy => by rw [h, if_pos hy], fun hn => by rw [h, hn]; simp, fun h1 => ?_,
    fun fuel hmem => ?_⟩
  · rw [h]
    split_ifs
    · rfl
    · exact h1
  · clear h hk
    induction ops generalizing s with
    | nil => cases hmem
    | cons op ops ih =>
      simp only [runOps] at hr
      cases h1 : op.run s with
      | none => simp [h1] at hr
      | some s1 =>
        simp only [h1] at hr
        rcases List.mem_cons.1 hmem with rfl | hm
        · simp [PortOp.run, vPortEndScheduler_none] at h1
        · exact ih s1 hr hm
/-- Witness of `running_flag_is_write_once`: the timer is armed, the scheduler is
started, a secondary core joins, a yield is requested, a lock is taken and a tick is
handled. -/
theorem running_flag_is_write_once_witness :
    (∀ op ∈ bringUpAndTick, op.kernelKeepsRunningFlag) ∧
      runOps bringUpAndTick initialPort
        = some ((runOps bringUpAndTick initialPort).getD initialPort) ∧
      bringUpAndTick.any PortOp.isStartScheduler = true ∧
      ((runOps bringUpAndTick initialPort).getD initialPort).ullPortSchedularRunning = 1 :=
  have hk : ∀ op ∈ bringUpAndTick, op.kernelKeepsRunningFlag := by
    intro op hop
    simp only [bringUpAndTick, List.mem_cons, List.mem_singleton, List.not_mem_nil,
      or_false] at hop
    rcases hop with rfl | rfl | rfl | rfl | rfl | rfl
    · trivial
    · trivial
    · trivial
    · trivial
    · trivial
    · exact ⟨fun _ => rfl, fun _ => rfl, fun _ _ => rfl⟩
  ⟨hk, rfl, rfl,
    (running_flag_is_write_once bringUpAndTick initialPort
      ((runOps bringUpAndTick initialPort).getD initialPort) hk rfl).2.1 rfl⟩

/-- C22. When `ullPortSchedularRunning` is 1 (`true`), `xPortTickInterruptHandler`
calls `taskENTER_CRITICAL_FROM_ISR`, then `xTaskIncrementTick`, once, in the state the
entry left, then `taskEXIT_CRITICAL_FROM_ISR` with the status the entry returned, and
nothing else; it returns the value `xTaskIncrementTick` returned and leaves the state
the exit left.  When the flag is not 1 it calls none of them: it only reads the flag,
and the state is as it was. -/
theorem tick_handler_contract (K : Kernel) (x : Int) (s : PortState) :
    (s.ullPortSchedularRunning = 1 →
      (xPortTickInterruptHandler K x s).1
          = (K.xTaskIncrementTick (K.taskENTER_CRITICAL_FROM_ISR s).2).1 ∧
        (xPortTickInterruptHandler K x s).2.1
          = K.taskEXIT_CRITICAL_FROM_ISR ((K.taskENTER_CRITICAL_FROM_ISR s).1 % 2 ^ 32)
              (K.xTaskIncrementTick (K.taskENTER_CRITICAL_FROM_ISR s).2).2 ∧
        (xPortTickInterruptHandler K x s).2.2
          = [.loadRunning 1, .call .taskENTER_CRITICAL_FROM_ISR, .call .xTaskIncrementTick,
              .call (.taskEXIT_CRITICAL_FROM_ISR
                ((K.taskENTER_CRITICAL_FROM_ISR s).1 % 2 ^ 32))] ∧
        (xPortTickInterruptHandler K x s).2.2.count (.call .xTaskIncrementTick) = 1) ∧
      (¬ s.ullPortSchedularRunning = 1 →
        (xPortTickInterruptHandler K x s).2.1 = s ∧
        (xPortTickInterruptHandler K x s).2.2 = [.loadRunning s.ullPortSchedularRunning] ∧
        ∀ f, PortEvent.call f ∉ (xPortTickInterruptHandler K x s).2.2) := by
  constructor
  · intro h1
    have e : xPortTickInterruptHandler K x s
        = ((K.xTaskIncrementTick (K.taskENTER_CRITICAL_FROM_ISR s).2).1,
            K.taskEXIT_CRITICAL_FROM_ISR ((K.taskENTER_CRITICAL_FROM_ISR s).1 % 2 ^ 32)
              (K.xTaskIncrementTick (K.taskENTER_CRITICAL_FROM_ISR s).2).2,
            [.loadRunning 1, .call .taskENTER_CRITICAL_FROM_ISR, .call .xTaskIncrementTick,
              .call (.taskEXIT_CRITICAL_FROM_ISR
                ((K.taskENTER_CRITICAL_FROM_ISR s).1 % 2 ^ 32))]) := by
      simp only [xPortTickInterruptHandler, h1, if_true]
    rw [e]
    refine ⟨rfl, rfl, rfl, ?_⟩
    simp [List.count_cons]
  · intro h0
    have e : xPortTickInterruptHandler K x s
        = (x, s, [.loadRunning s.ullPortSchedularRunning]) := by
      simp only [xPortTickInterruptHandler, h0, if_false]
    rw [e]
    refine ⟨rfl, rfl, ?_⟩
    intro f hf
    rw [List.mem_singleton] at hf
    cases hf

/-- Witness of `tick_handler_contract`: a tick after the scheduler was started, with a
kernel whose `xTaskIncrementTick` asks for a context switch, and a tick before. -/
theorem tick_handler_contract_witness :
    schedulerStarted.ullPortSchedularRunning = 1 ∧
      (xPortTickInterruptHandler switchingKernel 0 schedulerStarted).1 = pdTRUE ∧
      (xPortTickInterruptHandler switchingKernel 0 schedulerStarted).2.2
        = [.loadRunning 1, .call .taskENTER_CRITICAL_FROM_ISR, .call .xTaskIncrementTick,
            .call (.taskEXIT_CRITICAL_FROM_ISR 0x1800)] ∧
      ¬ initialPort.ullPortSchedularRunning = 1 ∧
      (xPortTickInterruptHandler switchingKernel 0 initialPort).2.1 = initialPort :=
  ⟨rfl,
    ((tick_handler_contract switchingKernel 0 schedulerStarted).1 rfl).1,
    ((tick_handler_contract switchingKernel 0 schedulerStarted).1 rfl).2.2.1,
    by decide,
    ((tick_handler_contract switchingKernel 0 initialPort).2 (by decide)).1⟩

/-- C28. In the initial state, where `ullPortSchedularRunning` is 0 (`false`),
`xPortTickInterruptHandler` returns 1 when its local `xSwitchRequired` holds 1 at its
declaration, and 0 when it holds 0: with the flag not 1 the value returned is the
value the uninitialised local happens to hold, it is not `pdFALSE` in general and it
is not determined by the flag and the result of `xTaskIncrementTick`. -/
theorem tick_handler_returns_uninitialised_local :
    initialPort.ullPortSchedularRunning = 0 ∧
      (xPortTickInterruptHandler switchingKernel 1 initialPort).1 = 1 ∧
      (xPortTickInterruptHandler switchingKernel 1 initialPort).1 ≠ pdFALSE ∧
      (xPortTickInterruptHandler switchingKernel 0 initialPort).1 = 0 ∧
      (∀ (K : Kernel) (x : Int) (s : PortState), ¬ s.ullPortSchedularRunning = 1 →
        (xPortTickInterruptHandler K x s).1 = x) := by
  refine ⟨rfl, by decide, by decide, by decide, fun K x s h0 => ?_⟩
  simp only [xPortTickInterruptHandler, h0, if_false]

/-- C29. A call of `xPortStartSchedulerOncore` on hart `h` that reaches its end has
written the trap handler address to `mtvec` of hart `h` and ORed `0x8` into `mie` of
hart `h`; `mtvec` and `mie` of every other hart, all 64-bit device registers (the
timer compare registers among them), all 32-bit device registers, `ullNextTime`,
`pullMachineTimerCompareRegister`, `ullPortSchedularRunning`, the yield requests, the
lock words and both lock tables are as before; each of its actions is the `csrw
mtvec`, a read of the flag, a `fence`, the `csrs mie, 0x8` or the call of
`xPortStartFirstTask`. -/
theorem secondary_bring_up_frame (fuel h trap : Nat) (flagReads : Nat → Nat)
    (s s' : PortState) (r : Int) (evs : List PortEvent)
    (hr : xPortStartSchedulerOncore fuel h trap flagReads s = some (r, s', evs)) :
    s'.mtvec h = trap % 2 ^ 32 ∧ s'.mie h = s.mie h ||| 0x8 ∧
      (∀ k, k ≠ h → s'.mtvec k = s.mtvec k ∧ s'.mie k = s.mie k) ∧
      s'.dev64 = s.dev64 ∧ s'.dev32 = s.dev32 ∧ s'.ullNextTime = s.ullNextTime ∧
      s'.pullMachineTimerCompareRegister = s.pullMachineTimerCompareRegister ∧
      s'.ullPortSchedularRunning = s.ullPortSchedularRunning ∧
      s'.xYieldRequest = s.xYieldRequest ∧ s'.lock = s.lock ∧
      (∀ e ∈ evs, e = .csrw .mtvec (trap % 2 ^ 32) ∨ (∃ v, e = .loadRunning v) ∨ e = .fence ∨
        e = .csrs .mie 0x8 ∨ e = .call .xPortStartFirstTask) := by
  obtain ⟨polls, hw, _, rfl, rfl⟩ := xPortStartSchedulerOncore_eq _ _ _ _ _ _ _ _ hr
  refine ⟨setAt_same _ _ _, setAt_same _ _ _,
    fun k hk => ⟨setAt_other _ _ _ _ hk, setAt_other _ _ _ _ hk⟩,
    rfl, rfl, rfl, rfl, rfl, rfl, rfl, ?_⟩
  intro e he
  simp only [List.cons_append, List.nil_append, List.mem_cons, List.mem_append,
    List.mem_singleton, List.not_mem_nil, or_false] at he
  rcases he with rfl | he | rfl | rfl
  · exact Or.inl rfl
  · rcases waitForRunning_events _ _ _ _ hw e he with hv | hf
    · exact Or.inr (Or.inl hv)
    · exact Or.inr (Or.inr (Or.inl hf))
  · exact Or.inr (Or.inr (Or.inr (Or.inl rfl)))
  · exact Or.inr (Or.inr (Or.inr (Or.inr rfl)))

/-- Witness of `secondary_bring_up_frame`: hart 1 joins after the scheduler was
started on hart 0; the compare register of hart 1 is still zero. -/
theorem secondary_bring_up_frame_witness :
    xPortStartSchedulerOncore 1 1 0x80000100 (fun _ => 1) schedulerStarted
        = some (pdFAIL, secondaryStarted,
            [.csrw .mtvec 0x80000100, .loadRunning 1, .csrs .mie 0x8,
              .call .xPortStartFirstTask]) ∧
      secondaryStarted.mie 1 = schedulerStarted.mie 1 ||| 0x8 ∧
      secondaryStarted.dev64 = schedulerStarted.dev64 ∧
      secondaryStarted.dev64 (configMTIMECMP_BASE_ADDRESS + 8 * 1) = 0 :=
  have h := secondary_bring_up_frame 1 1 0x80000100 (fun _ => 1) schedulerStarted
    secondaryStarted pdFAIL
    [.csrw .mtvec 0x80000100, .loadRunning 1, .csrs .mie 0x8, .call .xPortStartFirstTask] rfl
  ⟨rfl, h.2.1, h.2.2.2.1, by decide⟩

/-- C23, as stated, fails.  After `xPortStartScheduler` on hart 0 from the initial
state `mie` of hart 0 is `0x88`, after `xPortStartSchedulerOncore` on hart 1 `mie` of
hart 1 is `0x8`; bit 3 is set in both, so it is not true that the bits set by the
primary core and not by the secondary core are bit 3. -/
theorem primary_extra_enable_is_not_bit_three :
    schedulerStarted.mie 0 = 0x88 ∧ secondaryStarted.mie 1 = 0x8 ∧
      (secondaryStarted.mie 1).testBit 3 = true ∧
      ¬ (∀ i, ((schedulerStarted.mie 0).testBit i = true ∧
          (secondaryStarted.mie 1).testBit i = false) ↔ i = 3) := by
  refine ⟨by decide, by decide, by decide, fun hall => ?_⟩
  have h3 := ((hall 3).2 rfl).2
  revert h3
  decide

/-- C23, amended. `xPortStartScheduler` ORs `0x88` into `mie` of its hart and
`xPortStartSchedulerOncore` ORs `0x8` into `mie` of its hart, each by one `csrs mie`;
starting from `mie` zero on both harts, bit 3 is set on both, and the bits set on the
primary core and not on the secondary core are bit 7 alone. -/
theorem primary_extra_enable_is_bit_seven (fuel1 fuel2 h1 h2 trap1 trap2 : Nat)
    (reads flagReads : Nat → Nat) (s t s1 t2 : PortState) (r1 r2 : Int)
    (e1 e2 : List PortEvent)
    (hp : xPortStartScheduler fuel1 h1 trap1 reads s = some (r1, s1, e1))
    (hs : xPortStartSchedulerOncore fuel2 h2 trap2 flagReads t = some (r2, t2, e2))
    (hs0 : s.mie h1 = 0) (ht0 : t.mie h2 = 0) :
    s1.mie h1 = s.mie h1 ||| 0x88 ∧ t2.mie h2 = t.mie h2 ||| 0x8 ∧
      PortEvent.csrs .mie 0x88 ∈ e1 ∧ PortEvent.csrs .mie 0x8 ∈ e2 ∧
      (s1.mie h1).testBit 3 = true ∧ (t2.mie h2).testBit 3 = true ∧
      (∀ i, ((s1.mie h1).testBit i = true ∧ (t2.mie h2).testBit i = false) ↔ i = 7) := by
  obtain ⟨_, hm1, hev1⟩ := xPortStartScheduler_sets _ _ _ _ _ _ _ _ hp
  obtain ⟨polls, _, _, rfl, rfl⟩ := xPortStartSchedulerOncore_eq _ _ _ _ _ _ _ _ hs
  have hm2 : ({ t with
      mtvec := setAt t.mtvec h2 (trap2 % 2 ^ 32)
      mie := setAt t.mie h2 (t.mie h2 ||| 0x8) } : PortState).mie h2 = t.mie h2 ||| 0x8 :=
    setAt_same _ _ _
  refine ⟨hm1, hm2, hev1, by simp, ?_, ?_, ?_⟩
  · rw [hm1, hs0]; decide
  · rw [hm2, ht0]; decide
  · intro i
    rw [hm1, hm2, hs0, ht0]
    exact mask_difference i

/-- Witness of `primary_extra_enable_is_bit_seven`: hart 0 as the primary core from
the initial state, hart 1 as a secondary core after it. -/
theorem primary_extra_enable_is_bit_seven_witness :
    xPortStartScheduler 1 0 0x80000100 zeroTime initialPort
        = some (pdFAIL, schedulerStarted, primaryActionsAtZero) ∧
      xPortStartSchedulerOncore 1 1 0x80000100 (fun _ => 1) schedulerStarted
        = some (pdFAIL, secondaryStarted,
            [.csrw .mtvec 0x80000100, .loadRunning 1, .csrs .mie 0x8,
              .call .xPortStartFirstTask]) ∧
      initialPort.mie 0 = 0 ∧ schedulerStarted.mie 1 = 0 ∧
      (∀ i, ((schedulerStarted.mie 0).testBit i = true ∧
          (secondaryStarted.mie 1).testBit i = false) ↔ i = 7) :=
  ⟨rfl, rfl, rfl, by decide,
    (primary_extra_enable_is_bit_seven 1 1 0 1 0x80000100 0x80000100 zeroTime (fun _ => 1)
      initialPort schedulerStarted schedulerStarted secondaryStarted pdFAIL pdFAIL
      primaryActionsAtZero
      [.csrw .mtvec 0x80000100, .loadRunning 1, .csrs .mie 0x8, .call .xPortStartFirstTask]
      rfl rfl rfl (by decide)).2.2.2.2.2.2⟩

end FreeRTOS_SMP
